import Mathlib

/-!
Verification of the ObjectTreeModel update algorithm
(src/vs/base/browser/ui/tree/objectTreeModel.ts).

The ObjectTreeModel is a thin adaptation layer over an external
IndexTreeModel engine.  The engine itself is not part of the sources, so
its behaviour (path-addressed tree surgery, node creation defaults, the
deletion-before-creation callback order of a splice, render projections)
is modelled from the specification; every such definition carries a
doc comment starting with the words Modelled from the spec.  All
TypeScript reference semantics (the element and identity indices store
references to engine-owned node objects) are rendered as value-level
invariants: a well-formedness predicate states that an index entry
agrees with the node currently stored in the engine tree.
-/

set_option maxHeartbeats 1000000
set_option linter.unusedSectionVars false
set_option linter.unnecessarySimpa false

namespace ObjectTree

/-! ### A value model of the JS Map

The TypeScript code keeps two JS Map objects
(nodes : Map of element to node, nodesByIdentity : Map of string to node).
A JS Map holds at most one entry per key; we model it as an association
list whose keys are kept distinct by construction; set replaces in place,
delete removes the entry carrying the key. -/

variable {κ ν : Type} [DecidableEq κ]

def mget : List (κ × ν) → κ → Option ν
  | [], _ => none
  | p :: rest, k => if p.1 = k then some p.2 else mget rest k

def mset : List (κ × ν) → κ → ν → List (κ × ν)
  | [], k, v => [(k, v)]
  | p :: rest, k, v => if p.1 = k then (k, v) :: rest else p :: mset rest k v

def mdel : List (κ × ν) → κ → List (κ × ν)
  | [], _ => []
  | p :: rest, k => if p.1 = k then rest else p :: mdel rest k

def keysNodup (m : List (κ × ν)) : Prop := (m.map Prod.fst).Nodup

@[simp] theorem mget_nil (k : κ) : mget ([] : List (κ × ν)) k = none := rfl

theorem mget_isSome_iff_mem_keys (m : List (κ × ν)) (k : κ) :
    (mget m k).isSome ↔ k ∈ m.map Prod.fst := by
  induction m with
  | nil => simp [mget]
  | cons p rest ih =>
    by_cases hp : p.1 = k
    · simp [mget, hp]
    · simp only [mget, hp, if_false, List.map_cons, List.mem_cons, ih]
      constructor
      · intro h; exact Or.inr h
      · rintro (h | h)
        · exact absurd h.symm hp
        · exact h

theorem mget_eq_none_of_not_mem_keys {m : List (κ × ν)} {k : κ}
    (h : k ∉ m.map Prod.fst) : mget m k = none := by
  cases hm : mget m k with
  | none => rfl
  | some v =>
    exact absurd ((mget_isSome_iff_mem_keys m k).mp (by simp [hm])) h

theorem mget_mset_self (m : List (κ × ν)) (k : κ) (v : ν) :
    mget (mset m k v) k = some v := by
  induction m with
  | nil => simp [mset, mget]
  | cons p rest ih =>
    by_cases h : p.1 = k
    · simp [mset, h, mget]
    · simp [mset, h, mget, ih]

theorem mget_mset_ne (m : List (κ × ν)) (k k' : κ) (v : ν) (h : k ≠ k') :
    mget (mset m k v) k' = mget m k' := by
  induction m with
  | nil => simp [mset, mget, h]
  | cons p rest ih =>
    by_cases hp : p.1 = k
    · simp [mset, hp, mget, h]
    · simp [mset, hp, mget, ih]

theorem mget_mdel_self (m : List (κ × ν)) (hk : keysNodup m) (k : κ) :
    mget (mdel m k) k = none := by
  induction m with
  | nil => simp [mdel]
  | cons p rest ih =>
    simp only [keysNodup, List.map_cons, List.nodup_cons] at hk
    by_cases hp : p.1 = k
    · subst hp
      simp only [mdel, if_pos rfl]
      exact mget_eq_none_of_not_mem_keys hk.1
    · simp [mdel, hp, mget, ih hk.2]

theorem mget_mdel_ne (m : List (κ × ν)) (k k' : κ) (h : k ≠ k') :
    mget (mdel m k) k' = mget m k' := by
  induction m with
  | nil => simp [mdel]
  | cons p rest ih =>
    by_cases hp : p.1 = k
    · subst hp
      simp [mdel, mget, fun hh : p.1 = k' => h hh]
    · simp [mdel, hp, mget, ih]

theorem mem_keys_mset {m : List (κ × ν)} {k x : κ} {v : ν}
    (h : x ∈ (mset m k v).map Prod.fst) : x ∈ m.map Prod.fst ∨ x = k := by
  induction m with
  | nil => simpa [mset] using h
  | cons p rest ih =>
    by_cases hp : p.1 = k
    · simp only [mset, hp, if_true, List.map_cons, List.mem_cons] at h
      rcases h with h | h
      · exact Or.inr h
      · exact Or.inl (by simp [List.mem_cons]; exact Or.inr (by simpa using h))
    · simp only [mset, hp, if_false, List.map_cons, List.mem_cons] at h
      rcases h with h | h
      · exact Or.inl (by simp [h])
      · rcases ih (by simpa using h) with hh | hh
        · exact Or.inl (List.mem_cons_of_mem _ hh)
        · exact Or.inr hh

theorem mem_keys_mdel {m : List (κ × ν)} {k x : κ}
    (h : x ∈ (mdel m k).map Prod.fst) : x ∈ m.map Prod.fst := by
  induction m with
  | nil => simpa [mdel] using h
  | cons p rest ih =>
    by_cases hp : p.1 = k
    · simp only [mdel, hp, if_true] at h
      exact List.mem_cons_of_mem _ h
    · simp only [mdel, hp, if_false, List.map_cons, List.mem_cons] at h
      rcases h with h | h
      · exact List.mem_cons.mpr (Or.inl h)
      · exact List.mem_cons_of_mem _ (ih (by simpa using h))

theorem keysNodup_mset (m : List (κ × ν)) (hk : keysNodup m) (k : κ) (v : ν) :
    keysNodup (mset m k v) := by
  induction m with
  | nil => simp [mset, keysNodup]
  | cons p rest ih =>
    simp only [keysNodup, List.map_cons, List.nodup_cons] at hk
    by_cases hp : p.1 = k
    · subst hp
      have hms : mset (p :: rest) p.1 v = (p.1, v) :: rest := by simp [mset]
      rw [hms]
      simp only [keysNodup, List.map_cons, List.nodup_cons]
      exact hk
    · simp only [mset, hp, if_false, keysNodup, List.map_cons, List.nodup_cons]
      refine ⟨?_, ih hk.2⟩
      intro hmem
      rcases mem_keys_mset hmem with hh | hh
      · exact hk.1 hh
      · exact hp hh

theorem keysNodup_mdel (m : List (κ × ν)) (hk : keysNodup m) (k : κ) :
    keysNodup (mdel m k) := by
  induction m with
  | nil => simp [mdel, keysNodup]
  | cons p rest ih =>
    simp only [keysNodup, List.map_cons, List.nodup_cons] at hk
    by_cases hp : p.1 = k
    · simp only [mdel, hp, if_true]
      exact hk.2
    · simp only [mdel, hp, if_false, keysNodup, List.map_cons, List.nodup_cons]
      exact ⟨fun hmem => hk.1 (mem_keys_mdel hmem), ih hk.2⟩

theorem length_mset_of_absent (m : List (κ × ν)) (k : κ) (v : ν)
    (h : mget m k = none) : (mset m k v).length = m.length + 1 := by
  induction m with
  | nil => simp [mset]
  | cons p rest ih =>
    by_cases hp : p.1 = k
    · simp [mget, hp] at h
    · simp only [mget, hp, if_false] at h
      simp [mset, hp, ih h]

theorem length_mdel_of_present (m : List (κ × ν)) (k : κ)
    (h : (mget m k).isSome) : (mdel m k).length + 1 = m.length := by
  induction m with
  | nil => simp [mget] at h
  | cons p rest ih =>
    by_cases hp : p.1 = k
    · simp [mdel, hp]
    · simp only [mget, hp, if_false] at h
      simp [mdel, hp, ← ih h]

theorem length_mdel_of_absent (m : List (κ × ν)) (k : κ)
    (h : mget m k = none) : (mdel m k).length = m.length := by
  induction m with
  | nil => simp [mdel]
  | cons p rest ih =>
    by_cases hp : p.1 = k
    · simp [mget, hp] at h
    · simp only [mget, hp, if_false] at h
      simp [mdel, hp, ih h]

/-! ### Stable sort

Modelled from the spec: section 4.3 requires a stable sort of the
candidate sequence (the source uses the mergeSort helper from
vs/base/common/arrays, which is outside the given sources; section 4.3
also covers the engine-side re-sort of current children, performed with
the runtime array sort, likewise stable).  Any stable sort is a faithful
model; we use insertion sort, which keeps an earlier input element in
front of a later one whenever the comparison allows it. -/

variable {β γ : Type}

def insertSorted (le : β → β → Bool) (a : β) : List β → List β
  | [] => [a]
  | b :: bs => if le a b then a :: b :: bs else b :: insertSorted le a bs

def stableSortBy (le : β → β → Bool) : List β → List β
  | [] => []
  | a :: as => insertSorted le a (stableSortBy le as)

theorem insertSorted_perm (le : β → β → Bool) (a : β) (l : List β) :
    (insertSorted le a l).Perm (a :: l) := by
  induction l with
  | nil => simp [insertSorted]
  | cons b bs ih =>
    by_cases h : le a b
    · simp [insertSorted, h]
    · simp only [insertSorted, h, if_false]
      exact (ih.cons b).trans (List.Perm.swap a b bs)

theorem stableSortBy_perm (le : β → β → Bool) (l : List β) :
    (stableSortBy le l).Perm l := by
  induction l with
  | nil => simp [stableSortBy]
  | cons a as ih =>
    exact (insertSorted_perm le a (stableSortBy le as)).trans (ih.cons a)

theorem mem_stableSortBy {le : β → β → Bool} {l : List β} {a : β}
    (h : a ∈ stableSortBy le l) : a ∈ l :=
  (stableSortBy_perm le l).mem_iff.mp h

theorem mem_insertSorted {le : β → β → Bool} {l : List β} {a b : β}
    (h : b ∈ insertSorted le a l) : b = a ∨ b ∈ l := by
  have := (insertSorted_perm le a l).mem_iff.mp h
  simpa using this

theorem pairwise_insertSorted (le : β → β → Bool)
    (htotal : ∀ a b, le a b = true ∨ le b a = true)
    (htrans : ∀ a b c, le a b = true → le b c = true → le a c = true)
    (a : β) (l : List β) (hl : l.Pairwise (fun x y => le x y = true)) :
    (insertSorted le a l).Pairwise (fun x y => le x y = true) := by
  induction l with
  | nil => simp [insertSorted]
  | cons b bs ih =>
    rcases List.pairwise_cons.mp hl with ⟨hb, hbs⟩
    by_cases h : le a b
    · simp only [insertSorted, h, if_true]
      refine List.pairwise_cons.mpr ⟨?_, hl⟩
      intro x hx
      rcases List.mem_cons.mp hx with hx | hx
      · exact hx ▸ h
      · exact htrans a b x h (hb x hx)
    · simp only [insertSorted, h, if_false]
      refine List.pairwise_cons.mpr ⟨?_, ih hbs⟩
      intro x hx
      rcases mem_insertSorted hx with hx | hx
      · subst hx
        rcases htotal x b with hh | hh
        · exact absurd hh h
        · exact hh
      · exact hb x hx

theorem pairwise_stableSortBy (le : β → β → Bool)
    (htotal : ∀ a b, le a b = true ∨ le b a = true)
    (htrans : ∀ a b c, le a b = true → le b c = true → le a c = true)
    (l : List β) :
    (stableSortBy le l).Pairwise (fun x y => le x y = true) := by
  induction l with
  | nil => simp [stableSortBy]
  | cons a as ih =>
    exact pairwise_insertSorted le htotal htrans a (stableSortBy le as) ih

theorem sublist_insertSorted (le : β → β → Bool) (a : β) (l : List β) :
    l.Sublist (insertSorted le a l) := by
  induction l with
  | nil => simp [insertSorted]
  | cons b bs ih =>
    by_cases h : le a b
    · simp only [insertSorted, h, if_true]
      exact (List.Sublist.refl (b :: bs)).cons a
    · simp only [insertSorted, h, if_false]
      exact ih.cons₂ b

theorem pair_sublist_insertSorted (le : β → β → Bool) {a b : β} {l : List β}
    (hab : le a b = true) (hb : b ∈ l) :
    [a, b].Sublist (insertSorted le a l) := by
  induction l with
  | nil => simp at hb
  | cons c cs ih =>
    by_cases h : le a c
    · simp only [insertSorted, h, if_true]
      exact List.Sublist.cons₂ a (List.singleton_sublist.mpr hb)
    · simp only [insertSorted, h, if_false]
      rcases List.mem_cons.mp hb with hbc | hbc
      · exact absurd (hbc ▸ hab) (by simpa using h)
      · exact (ih hbc).cons c

theorem stableSortBy_stable_pair (le : β → β → Bool) {a b : β} {l : List β}
    (hsub : [a, b].Sublist l) (hab : le a b = true) :
    [a, b].Sublist (stableSortBy le l) := by
  induction l with
  | nil => simp at hsub
  | cons c cs ih =>
    cases hsub with
    | cons _ h =>
      exact (ih h).trans (sublist_insertSorted le c (stableSortBy le cs))
    | cons₂ _ h =>
      have hb : b ∈ stableSortBy le cs :=
        (stableSortBy_perm le cs).mem_iff.mpr (List.singleton_sublist.mp h)
      exact pair_sublist_insertSorted le hab hb

theorem insertSorted_map (le : γ → γ → Bool) (f : β → γ) (a : β) (l : List β) :
    (insertSorted (fun x y => le (f x) (f y)) a l).map f
      = insertSorted le (f a) (l.map f) := by
  induction l with
  | nil => simp [insertSorted]
  | cons b bs ih =>
    by_cases h : le (f a) (f b)
    · simp [insertSorted, h]
    · simp [insertSorted, h, ih]

theorem stableSortBy_map (le : γ → γ → Bool) (f : β → γ) (l : List β) :
    (stableSortBy (fun x y => le (f x) (f y)) l).map f
      = stableSortBy le (l.map f) := by
  induction l with
  | nil => simp [stableSortBy]
  | cons a as ih =>
    simp only [stableSortBy, List.map_cons]
    rw [insertSorted_map, ih]

/-! ### Tree nodes and candidate descriptions

ITreeNode (§3 of the spec): engine-owned entity carrying the element,
the collapsible and collapsed flags and the child nodes.  Render counts
and filter metadata are opaque in the spec and are not read by any code
under verification, so they are omitted from the value model.

ITreeElement: a candidate child description handed to setChildren,
carrying an element, optional collapsible/collapsed overrides and nested
candidate children. -/

variable {α : Type} [DecidableEq α]

inductive TreeNode (α : Type) : Type where
  | mk (element : α) (collapsible : Bool) (collapsed : Bool)
       (children : List (TreeNode α))

namespace TreeNode

def element : TreeNode α → α
  | .mk e _ _ _ => e

def collapsible : TreeNode α → Bool
  | .mk _ c _ _ => c

def collapsed : TreeNode α → Bool
  | .mk _ _ d _ => d

def children : TreeNode α → List (TreeNode α)
  | .mk _ _ _ cs => cs

@[simp] theorem element_mk (e : α) (c d : Bool) (cs : List (TreeNode α)) :
    (TreeNode.mk e c d cs).element = e := rfl

@[simp] theorem collapsible_mk (e : α) (c d : Bool) (cs : List (TreeNode α)) :
    (TreeNode.mk e c d cs).collapsible = c := rfl

@[simp] theorem collapsed_mk (e : α) (c d : Bool) (cs : List (TreeNode α)) :
    (TreeNode.mk e c d cs).collapsed = d := rfl

@[simp] theorem children_mk (e : α) (c d : Bool) (cs : List (TreeNode α)) :
    (TreeNode.mk e c d cs).children = cs := rfl

end TreeNode

inductive TreeElement (α : Type) : Type where
  | mk (element : α) (collapsible : Option Bool) (collapsed : Option Bool)
       (children : List (TreeElement α))

namespace TreeElement

def element : TreeElement α → α
  | .mk e _ _ _ => e

def collapsible : TreeElement α → Option Bool
  | .mk _ c _ _ => c

def collapsed : TreeElement α → Option Bool
  | .mk _ _ d _ => d

def children : TreeElement α → List (TreeElement α)
  | .mk _ _ _ cs => cs

@[simp] theorem mk_element (e : α) (c d : Option Bool)
    (cs : List (TreeElement α)) : (TreeElement.mk e c d cs).element = e := rfl

@[simp] theorem mk_collapsible (e : α) (c d : Option Bool)
    (cs : List (TreeElement α)) :
    (TreeElement.mk e c d cs).collapsible = c := rfl

@[simp] theorem mk_collapsed (e : α) (c d : Option Bool)
    (cs : List (TreeElement α)) :
    (TreeElement.mk e c d cs).collapsed = d := rfl

@[simp] theorem mk_children (e : α) (c d : Option Bool)
    (cs : List (TreeElement α)) : (TreeElement.mk e c d cs).children = cs := rfl

end TreeElement

/-- All nodes of a forest in depth-first preorder. -/
def forestNodes : List (TreeNode α) → List (TreeNode α)
  | [] => []
  | .mk e c d cs :: ts => .mk e c d cs :: (forestNodes cs ++ forestNodes ts)

/-- All elements carried by the nodes of a forest, in preorder. -/
def forestElems (ts : List (TreeNode α)) : List α :=
  (forestNodes ts).map TreeNode.element

@[simp] theorem forestNodes_nil : forestNodes ([] : List (TreeNode α)) = [] := by
  simp [forestNodes]

theorem forestNodes_cons (t : TreeNode α) (ts : List (TreeNode α)) :
    forestNodes (t :: ts) = t :: (forestNodes t.children ++ forestNodes ts) := by
  cases t; simp [forestNodes]

@[simp] theorem forestElems_nil : forestElems ([] : List (TreeNode α)) = [] := by
  simp [forestElems]

theorem forestElems_cons (t : TreeNode α) (ts : List (TreeNode α)) :
    forestElems (t :: ts)
      = t.element :: (forestElems t.children ++ forestElems ts) := by
  cases t; simp [forestElems, forestNodes_cons]

theorem forestNodes_append (ts us : List (TreeNode α)) :
    forestNodes (ts ++ us) = forestNodes ts ++ forestNodes us := by
  induction ts with
  | nil => simp
  | cons t ts ih =>
    simp [forestNodes_cons, ih]

theorem forestElems_append (ts us : List (TreeNode α)) :
    forestElems (ts ++ us) = forestElems ts ++ forestElems us := by
  simp [forestElems, forestNodes_append]

/-- Modelled from the spec: the engine addresses nodes by numeric path (§6);
this reads the node stored at a non-empty path of a forest. -/
def getNodeAt : List (TreeNode α) → List Nat → Option (TreeNode α)
  | _, [] => none
  | [], _ :: _ => none
  | t :: _, [0] => some t
  | .mk _ _ _ cs :: _, 0 :: rest => getNodeAt cs rest
  | _ :: ts, (i + 1) :: rest => getNodeAt ts (i :: rest)

/-- Modelled from the spec: the child list found at a path (the empty path
denotes the root, whose children are the forest itself). -/
def childrenAt : List (TreeNode α) → List Nat → Option (List (TreeNode α))
  | ts, [] => some ts
  | [], _ :: _ => none
  | .mk _ _ _ cs :: _, 0 :: rest => childrenAt cs rest
  | _ :: ts, (i + 1) :: rest => childrenAt ts (i :: rest)

/-- Modelled from the spec: the engine splice at path loc ++ [0] with an
unbounded delete count replaces the whole child list at loc (§4.2 step 5);
this is the structural part of that splice. -/
def replaceChildrenAt : List (TreeNode α) → List Nat → List (TreeNode α) →
    Option (List (TreeNode α))
  | _, [], cs => some cs
  | [], _ :: _, _ => none
  | .mk e c d cs :: ts, 0 :: rest, new =>
    (replaceChildrenAt cs rest new).map fun cs' => .mk e c d cs' :: ts
  | t :: ts, (i + 1) :: rest, new =>
    (replaceChildrenAt ts (i :: rest) new).map fun ts' => t :: ts'

@[simp] theorem getNodeAt_nil_path (ts : List (TreeNode α)) :
    getNodeAt ts [] = none := by
  cases ts <;> simp [getNodeAt]

@[simp] theorem getNodeAt_nil (p : List Nat) :
    getNodeAt ([] : List (TreeNode α)) p = none := by
  cases p <;> simp [getNodeAt]

@[simp] theorem getNodeAt_cons_zero_nil (t : TreeNode α) (ts : List (TreeNode α)) :
    getNodeAt (t :: ts) [0] = some t := by
  cases t; simp [getNodeAt]

@[simp] theorem getNodeAt_cons_zero_cons (t : TreeNode α) (ts : List (TreeNode α))
    (j : Nat) (r : List Nat) :
    getNodeAt (t :: ts) (0 :: j :: r) = getNodeAt t.children (j :: r) := by
  cases t; simp [getNodeAt]

@[simp] theorem getNodeAt_cons_succ (t : TreeNode α) (ts : List (TreeNode α))
    (i : Nat) (rest : List Nat) :
    getNodeAt (t :: ts) ((i + 1) :: rest) = getNodeAt ts (i :: rest) := by
  cases t; simp [getNodeAt]

@[simp] theorem childrenAt_nil_path (ts : List (TreeNode α)) :
    childrenAt ts [] = some ts := by
  cases ts <;> simp [childrenAt]

@[simp] theorem childrenAt_nil (i : Nat) (rest : List Nat) :
    childrenAt ([] : List (TreeNode α)) (i :: rest) = none := by
  simp [childrenAt]

@[simp] theorem childrenAt_cons_zero (t : TreeNode α) (ts : List (TreeNode α))
    (rest : List Nat) :
    childrenAt (t :: ts) (0 :: rest) = childrenAt t.children rest := by
  cases t; simp [childrenAt]

@[simp] theorem childrenAt_cons_succ (t : TreeNode α) (ts : List (TreeNode α))
    (i : Nat) (rest : List Nat) :
    childrenAt (t :: ts) ((i + 1) :: rest) = childrenAt ts (i :: rest) := by
  cases t; simp [childrenAt]

@[simp] theorem replaceChildrenAt_nil_path (ts new : List (TreeNode α)) :
    replaceChildrenAt ts [] new = some new := by
  cases ts <;> simp [replaceChildrenAt]

@[simp] theorem replaceChildrenAt_nil (i : Nat) (rest : List Nat)
    (new : List (TreeNode α)) :
    replaceChildrenAt ([] : List (TreeNode α)) (i :: rest) new = none := by
  simp [replaceChildrenAt]

@[simp] theorem replaceChildrenAt_cons_zero (t : TreeNode α)
    (ts : List (TreeNode α)) (rest : List Nat) (new : List (TreeNode α)) :
    replaceChildrenAt (t :: ts) (0 :: rest) new
      = (replaceChildrenAt t.children rest new).map
          fun cs' => .mk t.element t.collapsible t.collapsed cs' :: ts := by
  cases t; simp [replaceChildrenAt]

@[simp] theorem replaceChildrenAt_cons_succ (t : TreeNode α)
    (ts : List (TreeNode α)) (i : Nat) (rest : List Nat)
    (new : List (TreeNode α)) :
    replaceChildrenAt (t :: ts) ((i + 1) :: rest) new
      = (replaceChildrenAt ts (i :: rest) new).map fun ts' => t :: ts' := by
  cases t; simp [replaceChildrenAt]

/-- First depth-first occurrence of an element in a forest. -/
def findNodeF : List (TreeNode α) → α → Option (TreeNode α)
  | [], _ => none
  | .mk e c d cs :: ts, a =>
    if e = a then some (.mk e c d cs)
    else match findNodeF cs a with
      | some n => some n
      | none => findNodeF ts a

/-- Modelled from the spec: the engine maps a node to its numeric path
(§4.1); in the value model the path of an element is recovered by
depth-first search. -/
def findPathF : List (TreeNode α) → α → Option (List Nat)
  | [], _ => none
  | .mk e _ _ cs :: ts, a =>
    if e = a then some [0]
    else match findPathF cs a with
      | some p => some (0 :: p)
      | none =>
        (findPathF ts a).map fun p =>
          match p with
          | [] => []
          | i :: q => (i + 1) :: q

theorem findNodeF_isSome_iff :
    ∀ (ts : List (TreeNode α)) (a : α),
      (findNodeF ts a).isSome ↔ a ∈ forestElems ts
  | [], a => by simp [findNodeF]
  | .mk e c d cs :: ts, a => by
    by_cases he : e = a
    · simp [findNodeF, he, forestElems_cons]
    · have ihc := findNodeF_isSome_iff cs a
      have ihs := findNodeF_isSome_iff ts a
      cases hcs : findNodeF cs a with
      | some n =>
        have : a ∈ forestElems cs := ihc.mp (by simp [hcs])
        simp [findNodeF, he, hcs, forestElems_cons, this]
      | none =>
        have hnc : a ∉ forestElems cs := fun hm => by
          have := ihc.mpr hm
          simp [hcs] at this
        simp only [findNodeF, he, if_false, hcs, forestElems_cons,
          List.mem_cons, List.mem_append, ihs]
        constructor
        · intro h
          exact Or.inr (Or.inr h)
        · rintro (h | h | h)
          · exact absurd h.symm he
          · exact absurd h hnc
          · exact h

theorem findNodeF_eq_none_iff (ts : List (TreeNode α)) (a : α) :
    findNodeF ts a = none ↔ a ∉ forestElems ts := by
  rw [← findNodeF_isSome_iff]
  cases findNodeF ts a <;> simp

theorem findNodeF_spec :
    ∀ {ts : List (TreeNode α)} {a : α} {n : TreeNode α},
      findNodeF ts a = some n → n.element = a ∧ n ∈ forestNodes ts
  | [], a, n => by intro h; simp [findNodeF] at h
  | .mk e c d cs :: ts, a, n => by
    intro h
    by_cases he : e = a
    · rw [findNodeF, if_pos he] at h
      cases h
      exact ⟨he, by rw [forestNodes_cons]; exact List.mem_cons_self _ _⟩
    · rw [findNodeF, if_neg he] at h
      cases hcs : findNodeF cs a with
      | some m =>
        rw [hcs] at h
        cases h
        rcases findNodeF_spec hcs with ⟨h1, h2⟩
        refine ⟨h1, ?_⟩
        rw [forestNodes_cons]
        exact List.mem_cons_of_mem _ (List.mem_append_left _ (by simpa using h2))
      | none =>
        rw [hcs] at h
        rcases findNodeF_spec h with ⟨h1, h2⟩
        refine ⟨h1, ?_⟩
        rw [forestNodes_cons]
        exact List.mem_cons_of_mem _ (List.mem_append_right _ h2)

theorem findPathF_isSome_iff :
    ∀ (ts : List (TreeNode α)) (a : α),
      (findPathF ts a).isSome ↔ (findNodeF ts a).isSome
  | [], a => by simp [findPathF, findNodeF]
  | .mk e c d cs :: ts, a => by
    by_cases he : e = a
    · simp [findPathF, findNodeF, he]
    · have ihc := findPathF_isSome_iff cs a
      have ihs := findPathF_isSome_iff ts a
      cases hcs : findPathF cs a with
      | some p =>
        have : (findNodeF cs a).isSome := ihc.mp (by simp [hcs])
        cases hn : findNodeF cs a with
        | some n => simp [findPathF, findNodeF, he, hcs, hn]
        | none => simp [hn] at this
      | none =>
        have : findNodeF cs a = none := by
          cases hn : findNodeF cs a with
          | none => rfl
          | some n =>
            have := ihc.mpr (by simp [hn])
            simp [hcs] at this
        cases hts : findPathF ts a with
        | some p =>
          have h2 : (findNodeF ts a).isSome := ihs.mp (by simp [hts])
          cases hn : findNodeF ts a with
          | some n => simp [findPathF, findNodeF, he, hcs, hts, this, hn]
          | none => simp [hn] at h2
        | none =>
          have h2 : findNodeF ts a = none := by
            cases hn : findNodeF ts a with
            | none => rfl
            | some n =>
              have := ihs.mpr (by simp [hn])
              simp [hts] at this
          simp [findPathF, findNodeF, he, hcs, hts, this, h2]

theorem findPathF_ne_nil :
    ∀ {ts : List (TreeNode α)} {a : α} {p : List Nat},
      findPathF ts a = some p → p ≠ []
  | [], a, p => by intro h; simp [findPathF] at h
  | .mk e c d cs :: ts, a, p => by
    intro h
    by_cases he : e = a
    · rw [findPathF, if_pos he] at h
      cases h
      simp
    · rw [findPathF, if_neg he] at h
      cases hcs : findPathF cs a with
      | some q =>
        rw [hcs] at h
        cases h
        simp
      | none =>
        rw [hcs] at h
        cases hts : findPathF ts a with
        | some q =>
          rw [hts] at h
          have hq := findPathF_ne_nil hts
          cases q with
          | nil => exact absurd rfl hq
          | cons i r =>
            simp only [Option.map_some] at h
            cases h
            simp
        | none =>
          rw [hts] at h
          simp at h

theorem getNodeAt_findPathF :
    ∀ {ts : List (TreeNode α)} {a : α} {p : List Nat},
      findPathF ts a = some p → getNodeAt ts p = findNodeF ts a
  | [], a, p => by intro h; simp [findPathF] at h
  | .mk e c d cs :: ts, a, p => by
    intro h
    by_cases he : e = a
    · rw [findPathF, if_pos he] at h
      cases h
      rw [findNodeF, if_pos he]
      simp
    · rw [findPathF, if_neg he] at h
      rw [findNodeF, if_neg he]
      cases hcs : findPathF cs a with
      | some q =>
        rw [hcs] at h
        cases h
        have hq := findPathF_ne_nil hcs
        have hrec := getNodeAt_findPathF hcs
        have hsome : (findNodeF cs a).isSome :=
          (findPathF_isSome_iff cs a).mp (by simp [hcs])
        cases hn : findNodeF cs a with
        | none => simp [hn] at hsome
        | some n =>
          cases q with
          | nil => exact absurd rfl hq
          | cons j r =>
            simp only [hn, getNodeAt_cons_zero_cons, TreeNode.children_mk]
            rw [hrec, hn]
      | none =>
        rw [hcs] at h
        have hcn : findNodeF cs a = none := by
          cases hn : findNodeF cs a with
          | none => rfl
          | some n =>
            have := (findPathF_isSome_iff cs a).mpr (by simp [hn])
            simp [hcs] at this
        cases hts : findPathF ts a with
        | some q =>
          rw [hts] at h
          have hq := findPathF_ne_nil hts
          cases q with
          | nil => exact absurd rfl hq
          | cons j r =>
            simp only [Option.map_some] at h
            cases h
            simp only [hcn, getNodeAt_cons_succ]
            exact getNodeAt_findPathF hts
        | none =>
          rw [hts] at h
          simp at h

theorem childrenAt_eq_getNodeAt :
    ∀ (ts : List (TreeNode α)) (i : Nat) (rest : List Nat),
      childrenAt ts (i :: rest) = (getNodeAt ts (i :: rest)).map TreeNode.children
  | [], i, rest => by cases i <;> simp
  | .mk e c d cs :: ts, 0, rest => by
    cases rest with
    | nil => simp
    | cons j r =>
      simp only [childrenAt_cons_zero, getNodeAt_cons_zero_cons,
        TreeNode.children_mk]
      exact childrenAt_eq_getNodeAt cs j r
  | .mk e c d cs :: ts, i + 1, rest => by
    simp only [childrenAt_cons_succ, getNodeAt_cons_succ]
    exact childrenAt_eq_getNodeAt ts i rest

/-- Agreement on everything except the child list.  In TypeScript the index
entries and the engine tree share node objects by reference; after a splice
below a node, the shared object keeps its element and collapse flags while
its child list changes, which the value model renders as this relation. -/
def flagsEq (n n' : TreeNode α) : Prop :=
  n.element = n'.element ∧ n.collapsible = n'.collapsible ∧
    n.collapsed = n'.collapsed

def optFlagsEq : Option (TreeNode α) → Option (TreeNode α) → Prop
  | some n, some n' => flagsEq n n'
  | none, none => True
  | _, _ => False

theorem flagsEq_refl (n : TreeNode α) : flagsEq n n := ⟨rfl, rfl, rfl⟩

theorem optFlagsEq_refl (x : Option (TreeNode α)) : optFlagsEq x x := by
  cases x with
  | none => trivial
  | some n => exact flagsEq_refl n

/-- Full characterization of the structural splice: the child list found at
the spliced path before and after, a permutation decomposition of the live
elements into the replaced subtrees and an untouched remainder,
flag-preservation for elements outside both the removed and the inserted
forests, and exact lookup agreement inside the inserted forest. -/
theorem replaceChildrenAt_spec :
    ∀ (ts : List (TreeNode α)) (loc : List Nat) (new ts' : List (TreeNode α)),
      replaceChildrenAt ts loc new = some ts' →
      ∃ old out,
        childrenAt ts loc = some old ∧
        childrenAt ts' loc = some new ∧
        (forestElems ts).Perm (forestElems old ++ out) ∧
        (forestElems ts').Perm (forestElems new ++ out) ∧
        (∀ a, a ∉ forestElems old → a ∉ forestElems new →
          optFlagsEq (findNodeF ts' a) (findNodeF ts a)) ∧
        ((forestElems ts').Nodup → ∀ a, a ∈ forestElems new →
          (a ∈ forestElems ts → a ∈ forestElems old) →
          findNodeF ts' a = findNodeF new a)
  | ts, [], new, ts' => by
    intro h
    simp only [replaceChildrenAt_nil_path, Option.some_inj] at h
    subst h
    refine ⟨ts, [], by simp, by simp, by simp, by simp, ?_, ?_⟩
    · intro a ha ha'
      rw [findNodeF_eq_none_iff ts a |>.mpr ha,
        findNodeF_eq_none_iff new a |>.mpr ha']
      trivial
    · intro _ a _ _
      rfl
  | [], i :: rest, new, ts' => by
    intro h
    simp at h
  | .mk e c d cs :: ts, 0 :: rest, new, ts' => by
    intro h
    simp only [replaceChildrenAt_cons_zero, TreeNode.children_mk,
      TreeNode.element_mk, TreeNode.collapsible_mk, TreeNode.collapsed_mk] at h
    rcases Option.map_eq_some'.mp h with ⟨cs', hcs', hts'⟩
    subst hts'
    rcases replaceChildrenAt_spec cs rest new cs' hcs' with
      ⟨old, out₀, hold, hnew, hperm, hperm', hflags, hz3⟩
    refine ⟨old, e :: (out₀ ++ forestElems ts), ?_, ?_, ?_, ?_, ?_, ?_⟩
    · simpa using hold
    · simpa using hnew
    · rw [forestElems_cons]
      simp only [TreeNode.children_mk, TreeNode.element_mk]
      have h1 : (e :: (forestElems cs ++ forestElems ts)).Perm
          (e :: ((forestElems old ++ out₀) ++ forestElems ts)) :=
        List.Perm.cons e (hperm.append_right (forestElems ts))
      rw [List.append_assoc] at h1
      exact h1.trans List.perm_middle.symm
    · rw [forestElems_cons]
      simp only [TreeNode.children_mk, TreeNode.element_mk]
      have h1 : (e :: (forestElems cs' ++ forestElems ts)).Perm
          (e :: ((forestElems new ++ out₀) ++ forestElems ts)) :=
        List.Perm.cons e (hperm'.append_right (forestElems ts))
      rw [List.append_assoc] at h1
      exact h1.trans List.perm_middle.symm
    · intro a ha ha'
      by_cases he : e = a
      · rw [findNodeF, if_pos he, findNodeF, if_pos he]
        exact ⟨rfl, rfl, rfl⟩
      · rw [findNodeF, if_neg he, findNodeF, if_neg he]
        have hf := hflags a ha ha'
        cases h1 : findNodeF cs' a with
        | some n =>
          cases h2 : findNodeF cs a with
          | some m =>
            rw [h1, h2] at hf
            exact hf
          | none =>
            rw [h1, h2] at hf
            exact absurd hf (by simp [optFlagsEq])
        | none =>
          cases h2 : findNodeF cs a with
          | some m =>
            rw [h1, h2] at hf
            exact absurd hf (by simp [optFlagsEq])
          | none =>
            exact optFlagsEq_refl _
    · intro hnodup a hanew himp
      rw [forestElems_cons] at hnodup
      simp only [TreeNode.children_mk, TreeNode.element_mk] at hnodup
      rcases List.nodup_cons.mp hnodup with ⟨hnee, hnd⟩
      rcases List.nodup_append.mp hnd with ⟨hndcs', hndts, hdisj⟩
      by_cases he : e = a
      · exfalso
        have hacs' : a ∈ forestElems cs' :=
          hperm'.symm.subset (List.mem_append_left _ hanew)
        exact hnee (he ▸ List.mem_append_left _ hacs')
      · rw [findNodeF, if_neg he]
        have hrec := hz3 hndcs' a hanew (fun hacs =>
          himp (by
            rw [forestElems_cons]
            simp only [TreeNode.children_mk, TreeNode.element_mk]
            exact List.mem_cons_of_mem _ (List.mem_append_left _ hacs)))
        have hsome : (findNodeF new a).isSome :=
          (findNodeF_isSome_iff new a).mpr hanew
        cases hn : findNodeF new a with
        | none => simp [hn] at hsome
        | some n =>
          rw [hrec, hn]
  | .mk e c d cs :: ts, (i + 1) :: rest, new, ts' => by
    intro h
    simp only [replaceChildrenAt_cons_succ] at h
    rcases Option.map_eq_some'.mp h with ⟨ts₁, hts₁, hts'⟩
    subst hts'
    rcases replaceChildrenAt_spec ts (i :: rest) new ts₁ hts₁ with
      ⟨old, out₀, hold, hnew, hperm, hperm', hflags, hz3⟩
    refine ⟨old, e :: (forestElems cs ++ out₀), ?_, ?_, ?_, ?_, ?_, ?_⟩
    · simpa using hold
    · simpa using hnew
    · rw [forestElems_cons]
      simp only [TreeNode.children_mk, TreeNode.element_mk]
      have h1 : (e :: (forestElems cs ++ forestElems ts)).Perm
          (e :: (forestElems cs ++ (forestElems old ++ out₀))) :=
        List.Perm.cons e (hperm.append_left (forestElems cs))
      have h2 : (forestElems cs ++ (forestElems old ++ out₀)).Perm
          (forestElems old ++ (forestElems cs ++ out₀)) := by
        rw [← List.append_assoc, ← List.append_assoc]
        exact (List.perm_append_comm).append_right out₀
      exact (h1.trans (h2.cons e)).trans List.perm_middle.symm
    · rw [forestElems_cons]
      simp only [TreeNode.children_mk, TreeNode.element_mk]
      have h1 : (e :: (forestElems cs ++ forestElems ts₁)).Perm
          (e :: (forestElems cs ++ (forestElems new ++ out₀))) :=
        List.Perm.cons e (hperm'.append_left (forestElems cs))
      have h2 : (forestElems cs ++ (forestElems new ++ out₀)).Perm
          (forestElems new ++ (forestElems cs ++ out₀)) := by
        rw [← List.append_assoc, ← List.append_assoc]
        exact (List.perm_append_comm).append_right out₀
      exact (h1.trans (h2.cons e)).trans List.perm_middle.symm
    · intro a ha ha'
      by_cases he : e = a
      · rw [findNodeF, if_pos he, findNodeF, if_pos he]
        exact ⟨rfl, rfl, rfl⟩
      · rw [findNodeF, if_neg he, findNodeF, if_neg he]
        cases h1 : findNodeF cs a with
        | some n => exact optFlagsEq_refl _
        | none => exact hflags a ha ha'
    · intro hnodup a hanew himp
      rw [forestElems_cons] at hnodup
      simp only [TreeNode.children_mk, TreeNode.element_mk] at hnodup
      rcases List.nodup_cons.mp hnodup with ⟨hnee, hnd⟩
      rcases List.nodup_append.mp hnd with ⟨hndcs, hndts₁, hdisj⟩
      have hats₁ : a ∈ forestElems ts₁ :=
        hperm'.symm.subset (List.mem_append_left _ hanew)
      by_cases he : e = a
      · exact absurd (he ▸ List.mem_append_right _ hats₁) hnee
      · rw [findNodeF, if_neg he]
        have hcsnone : findNodeF cs a = none := by
          rw [findNodeF_eq_none_iff]
          intro hacs
          exact hdisj hacs hats₁
        rw [hcsnone]
        exact hz3 hndts₁ a hanew (fun hats =>
          himp (by
            rw [forestElems_cons]
            simp only [TreeNode.children_mk, TreeNode.element_mk]
            exact List.mem_cons_of_mem _ (List.mem_append_right _ hats)))

theorem replaceChildrenAt_isSome :
    ∀ (ts : List (TreeNode α)) (loc : List Nat)
      (old new : List (TreeNode α)),
      childrenAt ts loc = some old → (replaceChildrenAt ts loc new).isSome
  | ts, [], old, new => by
    intro _
    simp
  | [], i :: rest, old, new => by
    intro h
    simp at h
  | .mk e c d cs :: ts, 0 :: rest, old, new => by
    intro h
    simp only [childrenAt_cons_zero, TreeNode.children_mk] at h
    have := replaceChildrenAt_isSome cs rest old new h
    simp only [replaceChildrenAt_cons_zero, TreeNode.children_mk]
    cases hr : replaceChildrenAt cs rest new with
    | none => simp [hr] at this
    | some cs' => simp
  | .mk e c d cs :: ts, (i + 1) :: rest, old, new => by
    intro h
    simp only [childrenAt_cons_succ] at h
    have := replaceChildrenAt_isSome ts (i :: rest) old new h
    simp only [replaceChildrenAt_cons_succ]
    cases hr : replaceChildrenAt ts (i :: rest) new with
    | none => simp [hr] at this
    | some ts₁ => simp

/-! ### The ObjectTreeModel

The data of the class ObjectTreeModel: the engine structure (children of
the root sentinel; the sentinel itself carries no element), the element
index (nodes) and the identity index (nodesByIdentity).  The
configuration (user tag, optional identity provider, optional sorter) is
read-only and kept separately. -/

/-- The single error class TreeError: a user tag and a message. -/
structure TreeErr where
  user : String
  message : String
deriving DecidableEq

structure TreeConfig (α : Type) where
  user : String
  identityProvider : Option (α → String)
  sorter : Option (α → α → Int)

structure ObjectTreeModel (α : Type) where
  rootChildren : List (TreeNode α)
  nodes : List (α × TreeNode α)
  nodesByIdentity : List (String × TreeNode α)

def elementNotFound (cfg : TreeConfig α) : TreeErr :=
  ⟨cfg.user, "Tree element not found"⟩

/-- The element lookup of preserveCollapseState: first by element
reference in the element index, then (when an identity provider is
configured) by identity key in the identity index. -/
def lookupNode (cfg : TreeConfig α) (m : ObjectTreeModel α) (a : α) :
    Option (TreeNode α) :=
  match mget m.nodes a with
  | some n => some n
  | none =>
    match cfg.identityProvider with
    | some getId => mget m.nodesByIdentity (getId a)
    | none => none

def elemLe (cmp : α → α → Int) (c d : TreeElement α) : Bool :=
  cmp c.element d.element ≤ 0

def nodeLe (cmp : α → α → Int) (n m : TreeNode α) : Bool :=
  cmp n.element m.element ≤ 0

/-- The sorting step of preserveCollapseState: when a sorter is
configured the candidates are stable-sorted by the comparison on their
elements before matching. -/
def sortCandidates (cfg : TreeConfig α) (cs : List (TreeElement α)) :
    List (TreeElement α) :=
  match cfg.sorter with
  | some cmp => stableSortBy (elemLe cmp) cs
  | none => cs

omit [DecidableEq α] in
theorem mem_sortCandidates {cfg : TreeConfig α} {cs : List (TreeElement α)}
    {c : TreeElement α} (h : c ∈ sortCandidates cfg cs) : c ∈ cs := by
  rcases hs : cfg.sorter with _ | cmp
  · simpa [sortCandidates, hs] using h
  · exact mem_stableSortBy (by simpa [sortCandidates, hs] using h)

omit [DecidableEq α] in
theorem sizeOf_children_lt_element (c : TreeElement α) :
    sizeOf c.children < sizeOf c := by
  cases c with
  | mk e cpb cpd cs => simp [TreeElement.children]

omit [DecidableEq α] in
theorem sizeOf_children_lt_node (n : TreeNode α) :
    sizeOf n.children < sizeOf n := by
  cases n with
  | mk e c d cs => simp [TreeNode.children]

/-- preserveCollapseState (the reconciliation): sort the candidates when
a sorter is configured, then for each candidate look up an existing node
(by reference, then by identity key); when one is found, the effective
collapsible is the explicit override if present, else the existing value,
and likewise for collapsed; nested children are reconciled recursively.
The source consumes candidates lazily through iterators; section 9 of
the spec states an eager recursive transform is an acceptable
realization. -/
def preserveCollapseState (cfg : TreeConfig α) (m : ObjectTreeModel α)
    (cs : List (TreeElement α)) : List (TreeElement α) :=
  (sortCandidates cfg cs).attach.map fun c =>
    match lookupNode cfg m c.1.element with
    | none =>
      .mk c.1.element c.1.collapsible c.1.collapsed
        (preserveCollapseState cfg m c.1.children)
    | some n =>
      .mk c.1.element (some (c.1.collapsible.getD n.collapsible))
        (some (c.1.collapsed.getD n.collapsed))
        (preserveCollapseState cfg m c.1.children)
termination_by sizeOf cs
decreasing_by
  all_goals
    have hmem : c.1 ∈ cs := mem_sortCandidates c.2
    have h1 : sizeOf c.1 < sizeOf cs := List.sizeOf_lt_of_mem hmem
    have h2 : sizeOf c.1.children < sizeOf c.1 := sizeOf_children_lt_element c.1
    omega

/-- The body of preserveCollapseState applied to one candidate. -/
def preserveCollapseStateElem (cfg : TreeConfig α) (m : ObjectTreeModel α)
    (c : TreeElement α) : TreeElement α :=
  match lookupNode cfg m c.element with
  | none =>
    .mk c.element c.collapsible c.collapsed
      (preserveCollapseState cfg m c.children)
  | some n =>
    .mk c.element (some (c.collapsible.getD n.collapsible))
      (some (c.collapsed.getD n.collapsed))
      (preserveCollapseState cfg m c.children)

theorem preserveCollapseState_eq (cfg : TreeConfig α) (m : ObjectTreeModel α)
    (cs : List (TreeElement α)) :
    preserveCollapseState cfg m cs
      = (sortCandidates cfg cs).map (preserveCollapseStateElem cfg m) := by
  rw [preserveCollapseState]
  rw [← List.attach_map_coe (sortCandidates cfg cs)
    (preserveCollapseStateElem cfg m)]
  apply List.map_congr_left
  intro c hc
  rfl

/-- Modelled from the spec: node creation performed by the engine splice
(§3, §6).  A created node carries the candidate element; an explicit
collapsible or collapsed override is honoured; absent overrides default
to collapsible-iff-it-has-children and to not collapsed.  Children are
created recursively. -/
def createForest (cs : List (TreeElement α)) : List (TreeNode α) :=
  cs.attach.map fun c =>
    .mk c.1.element (c.1.collapsible.getD (!c.1.children.isEmpty))
      (c.1.collapsed.getD false) (createForest c.1.children)
termination_by sizeOf cs
decreasing_by
  all_goals
    have h1 : sizeOf c.1 < sizeOf cs := List.sizeOf_lt_of_mem c.2
    have h2 : sizeOf c.1.children < sizeOf c.1 := sizeOf_children_lt_element c.1
    omega

/-- Modelled from the spec: the node the engine creates for one
candidate. -/
def createNode (c : TreeElement α) : TreeNode α :=
  .mk c.element (c.collapsible.getD (!c.children.isEmpty))
    (c.collapsed.getD false) (createForest c.children)

theorem createForest_eq (cs : List (TreeElement α)) :
    createForest cs = cs.map createNode := by
  rw [createForest]
  rw [← List.attach_map_coe cs createNode]
  apply List.map_congr_left
  intro c hc
  rfl

/-! ### The splice of setChildren

The per-operation state of one splice: the two staging sets
(insertedElements, insertedElementIds), the two indices being updated,
and the sequences of nodes handed to the external creation/deletion
callbacks.  The creation and deletion callbacks below are the source's
closures from the private setChildren; the engine fires the deletion
callback once per node of each removed subtree and the creation callback
once per node of each inserted subtree, deletions before creations
(order modelled from the spec, §5). -/

structure SpliceState (α : Type) where
  insertedElements : List α
  insertedElementIds : List String
  nodes : List (α × TreeNode α)
  nodesByIdentity : List (String × TreeNode α)
  createdCalls : List (TreeNode α)
  deletedCalls : List (TreeNode α)

/-- The creation callback: record the staging keys, write both indices,
then notify the external callback (collected in createdCalls). -/
def onDidCreateNodeStep (cfg : TreeConfig α) (s : SpliceState α)
    (n : TreeNode α) : SpliceState α :=
  let s1 : SpliceState α :=
    { s with insertedElements := n.element :: s.insertedElements,
             nodes := mset s.nodes n.element n }
  let s2 : SpliceState α :=
    match cfg.identityProvider with
    | some getId =>
      { s1 with
          insertedElementIds := getId n.element :: s1.insertedElementIds,
          nodesByIdentity := mset s1.nodesByIdentity (getId n.element) n }
    | none => s1
  { s2 with createdCalls := s2.createdCalls ++ [n] }

/-- The deletion callback: evict the element entry unless the element is
staged, evict the identity entry unless the identity key is staged, then
notify the external callback (collected in deletedCalls). -/
def onDidDeleteNodeStep (cfg : TreeConfig α) (s : SpliceState α)
    (n : TreeNode α) : SpliceState α :=
  let s1 : SpliceState α :=
    if n.element ∈ s.insertedElements then s
    else { s with nodes := mdel s.nodes n.element }
  let s2 : SpliceState α :=
    match cfg.identityProvider with
    | some getId =>
      if getId n.element ∈ s1.insertedElementIds then s1
      else { s1 with
              nodesByIdentity := mdel s1.nodesByIdentity (getId n.element) }
    | none => s1
  { s2 with deletedCalls := s2.deletedCalls ++ [n] }

def spliceInit (m : ObjectTreeModel α) : SpliceState α :=
  ⟨[], [], m.nodes, m.nodesByIdentity, [], []⟩

/-- The private setChildren: splice at location ++ [0] with unbounded
delete count, i.e. replace the whole child list at the location, firing
the deletion callback for every node of the removed subtrees and the
creation callback for every node of the inserted subtrees. -/
def setChildrenInternal (cfg : TreeConfig α) (m : ObjectTreeModel α)
    (location : List Nat) (children : List (TreeElement α)) :
    Option (ObjectTreeModel α × List (TreeNode α) × List (TreeNode α)) :=
  let newForest := createForest children
  match childrenAt m.rootChildren location,
        replaceChildrenAt m.rootChildren location newForest with
  | some oldForest, some root' =>
    let s1 := (forestNodes oldForest).foldl (onDidDeleteNodeStep cfg)
      (spliceInit m)
    let s2 := (forestNodes newForest).foldl (onDidCreateNodeStep cfg) s1
    some (⟨root', s2.nodes, s2.nodesByIdentity⟩, s2.createdCalls,
      s2.deletedCalls)
  | _, _ => none

/-- Path resolution (locate, §4.1): the root sentinel maps to the empty
path; any other element is looked up in the element index, absence is the
ElementNotFound error; the path of the found node is recovered from the
engine. -/
def getElementLocation (cfg : TreeConfig α) (m : ObjectTreeModel α) :
    Option α → Except TreeErr (List Nat)
  | none => .ok []
  | some a =>
    match mget m.nodes a with
    | none => .error (elementNotFound cfg)
    | some n => .ok ((findPathF m.rootChildren n.element).getD [])

def setChildrenFull (cfg : TreeConfig α) (m : ObjectTreeModel α)
    (element : Option α) (children : Option (List (TreeElement α))) :
    Except TreeErr (ObjectTreeModel α × List (TreeNode α) × List (TreeNode α)) :=
  match getElementLocation cfg m element with
  | .error err => .error err
  | .ok location =>
    match setChildrenInternal cfg m location
        (preserveCollapseState cfg m (children.getD [])) with
    | some r => .ok r
    | none => .error ⟨cfg.user, "Invalid tree location"⟩

/-- setChildren: resolve the parent to a path, reconcile the candidates
through preserveCollapseState, splice.  A missing children sequence
clears all children at the path. -/
def setChildren (cfg : TreeConfig α) (m : ObjectTreeModel α)
    (element : Option α) (children : Option (List (TreeElement α))) :
    Except TreeErr (ObjectTreeModel α) :=
  (setChildrenFull cfg m element children).map Prod.fst

/-- resortChildren: the current child nodes of the target, re-sorted at
the outermost level always, at deeper levels only when recursive, turned
back into candidate descriptions carrying their current collapse
state. -/
def resortForest (cmp : α → α → Int) (ns : List (TreeNode α))
    (recursive first : Bool) : List (TreeElement α) :=
  (if recursive || first then stableSortBy (nodeLe cmp) ns else ns).attach.map
    fun n =>
      .mk n.1.element (some n.1.collapsible) (some n.1.collapsed)
        (resortForest cmp n.1.children recursive false)
termination_by sizeOf ns
decreasing_by
  all_goals
    have hmem : n.1 ∈ ns := by
      have h := n.2
      split at h
      · exact mem_stableSortBy h
      · exact h
    have h1 : sizeOf n.1 < sizeOf ns := List.sizeOf_lt_of_mem hmem
    have h2 : sizeOf n.1.children < sizeOf n.1 := sizeOf_children_lt_node n.1
    omega

/-- The per-node body of resortChildren. -/
def resortNode (cmp : α → α → Int) (recursive : Bool) (n : TreeNode α) :
    TreeElement α :=
  .mk n.element (some n.collapsible) (some n.collapsed)
    (resortForest cmp n.children recursive false)

theorem resortForest_eq (cmp : α → α → Int) (ns : List (TreeNode α))
    (recursive first : Bool) :
    resortForest cmp ns recursive first
      = (if recursive || first then stableSortBy (nodeLe cmp) ns else ns).map
          (resortNode cmp recursive) := by
  rw [resortForest]
  rw [← List.attach_map_coe
    (if recursive || first then stableSortBy (nodeLe cmp) ns else ns)
    (resortNode cmp recursive)]
  apply List.map_congr_left
  intro n hn
  rfl

/-- resort: a no-op without a sorter; otherwise re-feed the re-sorted
current child nodes of the target through the splice. -/
def resort (cfg : TreeConfig α) (m : ObjectTreeModel α)
    (element : Option α) (recursive : Bool) :
    Except TreeErr (ObjectTreeModel α) :=
  match cfg.sorter with
  | none => .ok m
  | some cmp =>
    match getElementLocation cfg m element with
    | .error err => .error err
    | .ok location =>
      match setChildrenInternal cfg m location
          (resortForest cmp ((childrenAt m.rootChildren location).getD [])
            recursive true) with
      | some r => .ok r.1
      | none => .error ⟨cfg.user, "Invalid tree location"⟩

/-! ### Queries and navigation -/

def has (m : ObjectTreeModel α) : Option α → Bool
  | none => false
  | some a => (mget m.nodes a).isSome

def isCollapsible (cfg : TreeConfig α) (m : ObjectTreeModel α)
    (e : Option α) : Except TreeErr Bool :=
  match getElementLocation cfg m e with
  | .error err => .error err
  | .ok loc =>
    .ok (match getNodeAt m.rootChildren loc with
         | some n => n.collapsible
         | none => true)

def isCollapsed (cfg : TreeConfig α) (m : ObjectTreeModel α)
    (e : Option α) : Except TreeErr Bool :=
  match getElementLocation cfg m e with
  | .error err => .error err
  | .ok loc =>
    .ok (match getNodeAt m.rootChildren loc with
         | some n => n.collapsed
         | none => false)

/-- Modelled from the spec: index entries denote engine-owned node
objects by reference, so an in-place engine mutation is visible through
them; the value model re-reads the stored nodes from the tree. -/
def refreshNodes (entries : List (α × TreeNode α))
    (ts : List (TreeNode α)) : List (α × TreeNode α) :=
  entries.map fun p =>
    match findNodeF ts p.1 with
    | some n => (p.1, n)
    | none => p

def refreshIdNodes (entries : List (String × TreeNode α))
    (ts : List (TreeNode α)) : List (String × TreeNode α) :=
  entries.map fun p =>
    match findNodeF ts p.2.element with
    | some n => (p.1, n)
    | none => p

/-- Modelled from the spec: set the collapsed flag of every node of a
subtree (the recursive cascade of setCollapsed, §4.4). -/
def setCollapsedAll (b : Bool) : List (TreeNode α) → List (TreeNode α)
  | [] => []
  | .mk e c _ cs :: ts => .mk e c b (setCollapsedAll b cs) :: setCollapsedAll b ts

/-- Modelled from the spec: set the collapsed flag of the node at a path,
cascading to its descendants when recursive. -/
def setCollapsedAt : List (TreeNode α) → List Nat → Bool → Bool →
    Option (List (TreeNode α))
  | _, [], _, _ => none
  | [], _ :: _, _, _ => none
  | .mk e c _ cs :: ts, [0], b, recursive =>
    some (.mk e c b (if recursive then setCollapsedAll b cs else cs) :: ts)
  | .mk e c d cs :: ts, 0 :: rest, b, recursive =>
    (setCollapsedAt cs rest b recursive).map fun cs' => .mk e c d cs' :: ts
  | t :: ts, (i + 1) :: rest, b, recursive =>
    (setCollapsedAt ts (i :: rest) b recursive).map fun ts' => t :: ts'

def setCollapsed (cfg : TreeConfig α) (m : ObjectTreeModel α) (e : Option α)
    (value : Option Bool) (recursive : Bool) :
    Except TreeErr (Bool × ObjectTreeModel α) :=
  match getElementLocation cfg m e with
  | .error err => .error err
  | .ok loc =>
    match getNodeAt m.rootChildren loc with
    | none => .ok (false, m)
    | some n =>
      let b := value.getD (!n.collapsed)
      match setCollapsedAt m.rootChildren loc b recursive with
      | none => .ok (false, m)
      | some root' =>
        .ok (n.collapsed != b,
          ⟨root', refreshNodes m.nodes root',
            refreshIdNodes m.nodesByIdentity root'⟩)

/-- Modelled from the spec: set the collapsible flag of the node at a
path (toggled when no value is given). -/
def setCollapsibleAt : List (TreeNode α) → List Nat → Bool →
    Option (List (TreeNode α))
  | _, [], _ => none
  | [], _ :: _, _ => none
  | .mk e _ d cs :: ts, [0], b => some (.mk e b d cs :: ts)
  | .mk e c d cs :: ts, 0 :: rest, b =>
    (setCollapsibleAt cs rest b).map fun cs' => .mk e c d cs' :: ts
  | t :: ts, (i + 1) :: rest, b =>
    (setCollapsibleAt ts (i :: rest) b).map fun ts' => t :: ts'

def setCollapsible (cfg : TreeConfig α) (m : ObjectTreeModel α)
    (e : Option α) (value : Option Bool) :
    Except TreeErr (Bool × ObjectTreeModel α) :=
  match getElementLocation cfg m e with
  | .error err => .error err
  | .ok loc =>
    match getNodeAt m.rootChildren loc with
    | none => .ok (false, m)
    | some n =>
      let b := value.getD (!n.collapsible)
      match setCollapsibleAt m.rootChildren loc b with
      | none => .ok (false, m)
      | some root' =>
        .ok (n.collapsible != b,
          ⟨root', refreshNodes m.nodes root',
            refreshIdNodes m.nodesByIdentity root'⟩)

/-- Modelled from the spec: expand every proper ancestor of the node at
the path (expandTo, §4.4). -/
def expandAncestors : List (TreeNode α) → List Nat → List (TreeNode α)
  | ts, [] => ts
  | [], _ :: _ => []
  | t :: ts, [_] => t :: ts
  | .mk e c _ cs :: ts, 0 :: rest => .mk e c false (expandAncestors cs rest) :: ts
  | t :: ts, (i + 1) :: rest => t :: expandAncestors ts (i :: rest)

def expandTo (cfg : TreeConfig α) (m : ObjectTreeModel α) (e : Option α) :
    Except TreeErr (ObjectTreeModel α) :=
  match getElementLocation cfg m e with
  | .error err => .error err
  | .ok loc =>
    let root' := expandAncestors m.rootChildren loc
    .ok ⟨root', refreshNodes m.nodes root',
      refreshIdNodes m.nodesByIdentity root'⟩

/-- rerender: resolve the path, then ask the engine to re-emit the row;
no model state changes. -/
def rerender (cfg : TreeConfig α) (m : ObjectTreeModel α) (e : Option α) :
    Except TreeErr Unit :=
  match getElementLocation cfg m e with
  | .error err => .error err
  | .ok _ => .ok ()

/-- Modelled from the spec: the flat render sequence; a collapsed node
hides its subtree (glossary: collapsed, render count). -/
def renderForest : List (TreeNode α) → List (TreeNode α)
  | [] => []
  | .mk e c d cs :: ts =>
    .mk e c d cs :: ((if d then [] else renderForest cs) ++ renderForest ts)

def getListIndex (cfg : TreeConfig α) (m : ObjectTreeModel α)
    (e : Option α) : Except TreeErr Int :=
  match getElementLocation cfg m e with
  | .error err => .error err
  | .ok [] => .ok (-1)
  | .ok loc =>
    .ok (match getNodeAt m.rootChildren loc with
         | some n =>
           (((renderForest m.rootChildren).findIdx?
             fun r => decide (r.element = n.element)).elim (-1) Int.ofNat)
         | none => -1)

def getListRenderCount (cfg : TreeConfig α) (m : ObjectTreeModel α)
    (e : Option α) : Except TreeErr Nat :=
  match getElementLocation cfg m e with
  | .error err => .error err
  | .ok [] => .ok (renderForest m.rootChildren).length
  | .ok loc =>
    .ok (match getNodeAt m.rootChildren loc with
         | some n => 1 + (if n.collapsed then 0
             else (renderForest n.children).length)
         | none => 0)

def getFirstElementChild (cfg : TreeConfig α) (m : ObjectTreeModel α)
    (e : Option α) : Except TreeErr (Option α) :=
  match getElementLocation cfg m e with
  | .error err => .error err
  | .ok loc =>
    .ok (((childrenAt m.rootChildren loc).getD []).head?.map TreeNode.element)

/-- Modelled from the spec: the deepest node reached by following last
children from the target. -/
def lastDescForest : List (TreeNode α) → Option α
  | [] => none
  | [.mk e _ _ cs] => some ((lastDescForest cs).getD e)
  | _ :: t :: ts => lastDescForest (t :: ts)

def getLastElementAncestor (cfg : TreeConfig α) (m : ObjectTreeModel α)
    (e : Option α) : Except TreeErr (Option α) :=
  match getElementLocation cfg m e with
  | .error err => .error err
  | .ok loc =>
    .ok (match lastDescForest ((childrenAt m.rootChildren loc).getD []) with
         | some a => some a
         | none =>
           match getNodeAt m.rootChildren loc with
           | some n => some n.element
           | none => none)

/-- The caller-facing node record: the root sentinel carries no element. -/
structure NodeView (α : Type) where
  element : Option α
  collapsible : Bool
  collapsed : Bool
  children : List (TreeNode α)

/-- Modelled from the spec: the engine root node: no element, always
collapsible, never collapsed. -/
def rootView (m : ObjectTreeModel α) : NodeView α :=
  ⟨none, true, false, m.rootChildren⟩

def toView (n : TreeNode α) : NodeView α :=
  ⟨some n.element, n.collapsible, n.collapsed, n.children⟩

def getNode (cfg : TreeConfig α) (m : ObjectTreeModel α) :
    Option α → Except TreeErr (NodeView α)
  | none => .ok (rootView m)
  | some a =>
    match mget m.nodes a with
    | none => .error (elementNotFound cfg)
    | some n => .ok (toView n)

/-- getNodeLocation of a node is simply the node element. -/
def getNodeLocation (n : NodeView α) : Option α := n.element

def getParentNodeLocation (cfg : TreeConfig α) (m : ObjectTreeModel α) :
    Option α → Except TreeErr (Option α)
  | none => .error ⟨cfg.user, "Invalid getParentNodeLocation call"⟩
  | some a =>
    match mget m.nodes a with
    | none => .error (elementNotFound cfg)
    | some n =>
      let location := (findPathF m.rootChildren n.element).getD []
      match location.dropLast with
      | [] => .ok none
      | p => .ok ((getNodeAt m.rootChildren p).map TreeNode.element)

def size (m : ObjectTreeModel α) : Nat := m.nodes.length

/-! ### Further association-list lemmas -/

theorem mget_mem {m : List (κ × ν)} {k : κ} {v : ν}
    (h : mget m k = some v) : (k, v) ∈ m := by
  induction m with
  | nil => simp at h
  | cons p rest ih =>
    by_cases hp : p.1 = k
    · rw [mget, if_pos hp] at h
      cases h
      subst hp
      exact List.mem_cons_self _ _
    · rw [mget, if_neg hp] at h
      exact List.mem_cons_of_mem _ (ih h)

theorem mget_of_mem_nodup {m : List (κ × ν)} {k : κ} {v : ν}
    (hk : keysNodup m) (h : (k, v) ∈ m) : mget m k = some v := by
  induction m with
  | nil => simp at h
  | cons p rest ih =>
    simp only [keysNodup, List.map_cons, List.nodup_cons] at hk
    rcases List.mem_cons.mp h with h | h
    · subst h
      simp [mget]
    · have hp : p.1 ≠ k := by
        intro hh
        exact hk.1 (hh ▸ List.mem_map_of_mem Prod.fst h)
      rw [mget, if_neg hp]
      exact ih hk.2 h

theorem mget_foldl_mdel_of_not_mem {base : List (κ × ν)} {L : List κ} {k : κ}
    (h : k ∉ L) : mget (L.foldl mdel base) k = mget base k := by
  induction L generalizing base with
  | nil => simp
  | cons x L ih =>
    simp only [List.mem_cons, not_or] at h
    simp only [List.foldl_cons]
    rw [ih h.2, mget_mdel_ne _ _ _ (fun hh => h.1 hh.symm)]

theorem mget_foldl_mdel_of_mem {base : List (κ × ν)} (hk : keysNodup base)
    {L : List κ} {k : κ} (h : k ∈ L) :
    mget (L.foldl mdel base) k = none := by
  induction L generalizing base with
  | nil => simp at h
  | cons x L ih =>
    simp only [List.foldl_cons]
    rcases List.mem_cons.mp h with h | h
    · subst h
      by_cases hmem : k ∈ L
      · exact ih (keysNodup_mdel base hk k) hmem
      · rw [mget_foldl_mdel_of_not_mem hmem]
        exact mget_mdel_self base hk k
    · exact ih (keysNodup_mdel base hk x) h

theorem keysNodup_foldl_mdel {base : List (κ × ν)} (hk : keysNodup base)
    (L : List κ) : keysNodup (L.foldl mdel base) := by
  induction L generalizing base with
  | nil => exact hk
  | cons x L ih =>
    simp only [List.foldl_cons]
    exact ih (keysNodup_mdel base hk x)

variable {ν' : Type}

theorem mget_foldl_mset_of_not_mem {base : List (κ × ν)} {L : List ν'}
    {key : ν' → κ} {val : ν' → ν} {k : κ} (h : k ∉ L.map key) :
    mget (L.foldl (fun acc v => mset acc (key v) (val v)) base) k
      = mget base k := by
  induction L generalizing base with
  | nil => simp
  | cons x L ih =>
    simp only [List.map_cons, List.mem_cons, not_or] at h
    simp only [List.foldl_cons]
    rw [ih h.2, mget_mset_ne _ _ _ _ (fun hh => h.1 hh.symm)]

theorem mget_foldl_mset_of_mem_nodup {base : List (κ × ν)} {L : List ν'}
    {key : ν' → κ} {val : ν' → ν} (hnodup : (L.map key).Nodup)
    {v : ν'} (hv : v ∈ L) {k : κ} (hk : key v = k) :
    mget (L.foldl (fun acc v => mset acc (key v) (val v)) base) k
      = some (val v) := by
  induction L generalizing base with
  | nil => simp at hv
  | cons x L ih =>
    simp only [List.map_cons, List.nodup_cons] at hnodup
    simp only [List.foldl_cons]
    rcases List.mem_cons.mp hv with h | h
    · subst h
      have : k ∉ L.map key := fun hm => hnodup.1 (hk ▸ hm)
      rw [mget_foldl_mset_of_not_mem this, hk, mget_mset_self]
    · exact ih hnodup.2 h

theorem keysNodup_foldl_mset {base : List (κ × ν)} (hk : keysNodup base)
    (L : List ν') (key : ν' → κ) (val : ν' → ν) :
    keysNodup (L.foldl (fun acc v => mset acc (key v) (val v)) base) := by
  induction L generalizing base with
  | nil => exact hk
  | cons x L ih =>
    simp only [List.foldl_cons]
    exact ih (keysNodup_mset base hk _ _)

/-! ### Well-formedness

The TypeScript indices hold references to engine-owned node objects, and
every reachable non-root node has exactly one element entry and (with an
identity provider) one identity entry (spec §3).  The value rendering:
index keys are exactly the live elements (resp. their identity keys),
every entry carries a node agreeing with the tree node found at its
element, and live elements (and identity keys, §6) are pairwise
distinct. -/

def agreesAt (ts : List (TreeNode α)) (a : α) (n : TreeNode α) : Prop :=
  match findNodeF ts a with
  | some n' => n'.element = n.element ∧ n'.collapsible = n.collapsible ∧
      n'.collapsed = n.collapsed
  | none => False

theorem agreesAt_of_findNodeF {ts : List (TreeNode α)} {a : α}
    {n : TreeNode α} (h : findNodeF ts a = some n) : agreesAt ts a n := by
  unfold agreesAt
  rw [h]
  exact ⟨rfl, rfl, rfl⟩

def IdIndexOk (getId : α → String) (m : ObjectTreeModel α) : Prop :=
  ((m.nodesByIdentity.map Prod.fst).Perm
      ((forestElems m.rootChildren).map getId))
  ∧ (∀ a ∈ forestElems m.rootChildren, ∀ b ∈ forestElems m.rootChildren,
      getId a = getId b → a = b)
  ∧ (∀ p ∈ m.nodesByIdentity, getId p.2.element = p.1 ∧
      p.2.element ∈ forestElems m.rootChildren ∧
      agreesAt m.rootChildren p.2.element p.2)

def Wf (cfg : TreeConfig α) (m : ObjectTreeModel α) : Prop :=
  (forestElems m.rootChildren).Nodup
  ∧ ((m.nodes.map Prod.fst).Perm (forestElems m.rootChildren))
  ∧ (∀ p ∈ m.nodes, p.2.element = p.1 ∧ agreesAt m.rootChildren p.1 p.2)
  ∧ (match cfg.identityProvider with
     | none => m.nodesByIdentity = []
     | some getId => IdIndexOk getId m)

theorem Wf.elemsNodup {cfg : TreeConfig α} {m : ObjectTreeModel α}
    (h : Wf cfg m) : (forestElems m.rootChildren).Nodup := h.1

theorem Wf.keysPerm {cfg : TreeConfig α} {m : ObjectTreeModel α}
    (h : Wf cfg m) :
    (m.nodes.map Prod.fst).Perm (forestElems m.rootChildren) := h.2.1

theorem Wf.nodesKeysNodup {cfg : TreeConfig α} {m : ObjectTreeModel α}
    (h : Wf cfg m) : keysNodup m.nodes :=
  (h.keysPerm.nodup_iff).mpr h.elemsNodup

theorem Wf.mget_isSome_iff {cfg : TreeConfig α} {m : ObjectTreeModel α}
    (h : Wf cfg m) (a : α) :
    (mget m.nodes a).isSome ↔ a ∈ forestElems m.rootChildren := by
  rw [mget_isSome_iff_mem_keys]
  exact h.keysPerm.mem_iff

theorem Wf.mget_spec {cfg : TreeConfig α} {m : ObjectTreeModel α}
    (h : Wf cfg m) {a : α} {n : TreeNode α} (hm : mget m.nodes a = some n) :
    n.element = a ∧ agreesAt m.rootChildren a n :=
  h.2.2.1 (a, n) (mget_mem hm)

theorem Wf.mget_eq_none {cfg : TreeConfig α} {m : ObjectTreeModel α}
    (h : Wf cfg m) {a : α} (ha : a ∉ forestElems m.rootChildren) :
    mget m.nodes a = none := by
  cases hm : mget m.nodes a with
  | none => rfl
  | some n => exact absurd ((h.mget_isSome_iff a).mp (by simp [hm])) ha

theorem node_unique_of_nodup {ts : List (TreeNode α)}
    (h : (forestElems ts).Nodup) {n₁ n₂ : TreeNode α}
    (h₁ : n₁ ∈ forestNodes ts) (h₂ : n₂ ∈ forestNodes ts)
    (he : n₁.element = n₂.element) : n₁ = n₂ :=
  List.inj_on_of_nodup_map (by simpa [forestElems] using h) h₁ h₂ he

theorem mem_forestNodes_element {ts : List (TreeNode α)} {n : TreeNode α}
    (h : n ∈ forestNodes ts) : n.element ∈ forestElems ts :=
  List.mem_map_of_mem TreeNode.element h

theorem findNodeF_eq_of_mem {ts : List (TreeNode α)}
    (hnodup : (forestElems ts).Nodup) {n : TreeNode α}
    (hn : n ∈ forestNodes ts) : findNodeF ts n.element = some n := by
  have hsome : (findNodeF ts n.element).isSome :=
    (findNodeF_isSome_iff ts n.element).mpr (mem_forestNodes_element hn)
  cases hf : findNodeF ts n.element with
  | none => simp [hf] at hsome
  | some n₀ =>
    rcases findNodeF_spec hf with ⟨he, hmem⟩
    rw [node_unique_of_nodup hnodup hmem hn he]

theorem mem_forestNodes_of_findNodeF {ts : List (TreeNode α)} {a : α}
    {n : TreeNode α} (h : findNodeF ts a = some n) : n ∈ forestNodes ts :=
  (findNodeF_spec h).2

/-! ### Characterizing one splice -/

theorem onDidDeleteNodeStep_def (cfg : TreeConfig α) (s : SpliceState α)
    (n : TreeNode α) :
    onDidDeleteNodeStep cfg s n = { s with
      nodes := if n.element ∈ s.insertedElements then s.nodes
        else mdel s.nodes n.element,
      nodesByIdentity :=
        match cfg.identityProvider with
        | some getId =>
          if getId n.element ∈ s.insertedElementIds then s.nodesByIdentity
          else mdel s.nodesByIdentity (getId n.element)
        | none => s.nodesByIdentity,
      deletedCalls := s.deletedCalls ++ [n] } := by
  rcases hip : cfg.identityProvider with _ | getId
  · by_cases h : n.element ∈ s.insertedElements <;>
      simp [onDidDeleteNodeStep, hip, h]
  · by_cases h : n.element ∈ s.insertedElements <;>
      by_cases h2 : getId n.element ∈ s.insertedElementIds <;>
        simp [onDidDeleteNodeStep, hip, h, h2]

theorem onDidCreateNodeStep_def (cfg : TreeConfig α) (s : SpliceState α)
    (n : TreeNode α) :
    onDidCreateNodeStep cfg s n = { s with
      insertedElements := n.element :: s.insertedElements,
      insertedElementIds :=
        match cfg.identityProvider with
        | some getId => getId n.element :: s.insertedElementIds
        | none => s.insertedElementIds,
      nodes := mset s.nodes n.element n,
      nodesByIdentity :=
        match cfg.identityProvider with
        | some getId => mset s.nodesByIdentity (getId n.element) n
        | none => s.nodesByIdentity,
      createdCalls := s.createdCalls ++ [n] } := by
  rcases hip : cfg.identityProvider with _ | getId <;>
    simp [onDidCreateNodeStep, hip]

theorem foldl_delete_fields (cfg : TreeConfig α) (L : List (TreeNode α)) :
    ∀ (s : SpliceState α),
      (L.foldl (onDidDeleteNodeStep cfg) s).insertedElements
          = s.insertedElements ∧
      (L.foldl (onDidDeleteNodeStep cfg) s).insertedElementIds
          = s.insertedElementIds ∧
      (L.foldl (onDidDeleteNodeStep cfg) s).createdCalls = s.createdCalls ∧
      (L.foldl (onDidDeleteNodeStep cfg) s).deletedCalls
          = s.deletedCalls ++ L := by
  induction L with
  | nil => intro s; simp
  | cons n L ih =>
    intro s
    simp only [List.foldl_cons]
    rcases ih (onDidDeleteNodeStep cfg s n) with ⟨g1, g2, g3, g4⟩
    rw [onDidDeleteNodeStep_def] at g1 g2 g3 g4
    simp only at g1 g2 g3 g4
    rw [onDidDeleteNodeStep_def]
    refine ⟨g1, g2, g3, ?_⟩
    rw [g4]
    simp

theorem foldl_delete_nodes (cfg : TreeConfig α) (L : List (TreeNode α)) :
    ∀ (s : SpliceState α), s.insertedElements = [] →
      (L.foldl (onDidDeleteNodeStep cfg) s).nodes
        = (L.map TreeNode.element).foldl mdel s.nodes := by
  induction L with
  | nil => intro s _; simp
  | cons n L ih =>
    intro s h1
    simp only [List.foldl_cons, List.map_cons]
    rw [ih _ (by rw [onDidDeleteNodeStep_def]; simpa using h1)]
    rw [onDidDeleteNodeStep_def]
    simp [h1]

theorem foldl_delete_byId_none (cfg : TreeConfig α)
    (hip : cfg.identityProvider = none) (L : List (TreeNode α)) :
    ∀ (s : SpliceState α),
      (L.foldl (onDidDeleteNodeStep cfg) s).nodesByIdentity
        = s.nodesByIdentity := by
  induction L with
  | nil => intro s; simp
  | cons n L ih =>
    intro s
    simp only [List.foldl_cons]
    rw [ih]
    rw [onDidDeleteNodeStep_def]
    simp [hip]

theorem foldl_delete_byId_some (cfg : TreeConfig α) (getId : α → String)
    (hip : cfg.identityProvider = some getId) (L : List (TreeNode α)) :
    ∀ (s : SpliceState α), s.insertedElementIds = [] →
      (L.foldl (onDidDeleteNodeStep cfg) s).nodesByIdentity
        = (L.map fun n => getId n.element).foldl mdel s.nodesByIdentity := by
  induction L with
  | nil => intro s _; simp
  | cons n L ih =>
    intro s h2
    simp only [List.foldl_cons, List.map_cons]
    rw [ih _ (by rw [onDidDeleteNodeStep_def]; simpa using h2)]
    rw [onDidDeleteNodeStep_def]
    simp [hip, h2]

theorem foldl_create_nodes (cfg : TreeConfig α) (L : List (TreeNode α)) :
    ∀ (s : SpliceState α),
      (L.foldl (onDidCreateNodeStep cfg) s).nodes
        = L.foldl (fun acc n => mset acc n.element n) s.nodes := by
  induction L with
  | nil => intro s; simp
  | cons n L ih =>
    intro s
    simp only [List.foldl_cons]
    rw [ih]
    rw [onDidCreateNodeStep_def]

theorem foldl_create_byId_none (cfg : TreeConfig α)
    (hip : cfg.identityProvider = none) (L : List (TreeNode α)) :
    ∀ (s : SpliceState α),
      (L.foldl (onDidCreateNodeStep cfg) s).nodesByIdentity
        = s.nodesByIdentity := by
  induction L with
  | nil => intro s; simp
  | cons n L ih =>
    intro s
    simp only [List.foldl_cons]
    rw [ih]
    rw [onDidCreateNodeStep_def]
    simp [hip]

theorem foldl_create_byId_some (cfg : TreeConfig α) (getId : α → String)
    (hip : cfg.identityProvider = some getId) (L : List (TreeNode α)) :
    ∀ (s : SpliceState α),
      (L.foldl (onDidCreateNodeStep cfg) s).nodesByIdentity
        = L.foldl (fun acc n => mset acc (getId n.element) n)
            s.nodesByIdentity := by
  induction L with
  | nil => intro s; simp
  | cons n L ih =>
    intro s
    simp only [List.foldl_cons]
    rw [ih]
    rw [onDidCreateNodeStep_def]
    simp [hip]

theorem map_getId_forestNodes (getId : α → String) (F : List (TreeNode α)) :
    (forestNodes F).map (fun n => getId n.element)
      = (forestElems F).map getId := by
  simp [forestElems, List.map_map, Function.comp]

theorem Wf.idOk {cfg : TreeConfig α} {m : ObjectTreeModel α} (h : Wf cfg m)
    {getId : α → String} (hip : cfg.identityProvider = some getId) :
    IdIndexOk getId m := by
  have h4 := h.2.2.2
  rw [hip] at h4
  exact h4

theorem Wf.idsNodupLive {cfg : TreeConfig α} {m : ObjectTreeModel α}
    (h : Wf cfg m) {getId : α → String}
    (hip : cfg.identityProvider = some getId) :
    ((forestElems m.rootChildren).map getId).Nodup :=
  (h.elemsNodup).map_on (h.idOk hip).2.1

theorem Wf.byIdKeysNodup {cfg : TreeConfig α} {m : ObjectTreeModel α}
    (h : Wf cfg m) {getId : α → String}
    (hip : cfg.identityProvider = some getId) :
    keysNodup m.nodesByIdentity :=
  ((h.idOk hip).1.nodup_iff).mpr (h.idsNodupLive hip)

theorem Wf.byId_isSome_iff {cfg : TreeConfig α} {m : ObjectTreeModel α}
    (h : Wf cfg m) {getId : α → String}
    (hip : cfg.identityProvider = some getId) (k : String) :
    (mget m.nodesByIdentity k).isSome
      ↔ k ∈ (forestElems m.rootChildren).map getId := by
  rw [mget_isSome_iff_mem_keys]
  exact (h.idOk hip).1.mem_iff

theorem Wf.byId_spec {cfg : TreeConfig α} {m : ObjectTreeModel α}
    (h : Wf cfg m) {getId : α → String}
    (hip : cfg.identityProvider = some getId) {k : String} {n : TreeNode α}
    (hm : mget m.nodesByIdentity k = some n) :
    getId n.element = k ∧ n.element ∈ forestElems m.rootChildren ∧
      agreesAt m.rootChildren n.element n :=
  (h.idOk hip).2.2 (k, n) (mget_mem hm)

theorem Wf.byId_eq_none {cfg : TreeConfig α} {m : ObjectTreeModel α}
    (h : Wf cfg m) {getId : α → String}
    (hip : cfg.identityProvider = some getId) {k : String}
    (hk : k ∉ (forestElems m.rootChildren).map getId) :
    mget m.nodesByIdentity k = none := by
  cases hm : mget m.nodesByIdentity k with
  | none => rfl
  | some n => exact absurd ((h.byId_isSome_iff hip k).mp (by simp [hm])) hk

theorem foldl_create_calls (cfg : TreeConfig α) (L : List (TreeNode α)) :
    ∀ (s : SpliceState α),
      (L.foldl (onDidCreateNodeStep cfg) s).createdCalls
          = s.createdCalls ++ L ∧
      (L.foldl (onDidCreateNodeStep cfg) s).deletedCalls = s.deletedCalls := by
  induction L with
  | nil => intro s; simp
  | cons n L ih =>
    intro s
    simp only [List.foldl_cons]
    rcases ih (onDidCreateNodeStep cfg s n) with ⟨g1, g2⟩
    rw [onDidCreateNodeStep_def] at g1 g2
    simp only at g1 g2
    rw [onDidCreateNodeStep_def]
    refine ⟨?_, g2⟩
    rw [g1]
    simp

/-- The splice of the private setChildren, computed: the new engine
structure, both indices written through the callbacks, and the two
callback invocation lists (every removed node once, every inserted node
once). -/
theorem setChildrenInternal_eq (cfg : TreeConfig α) (m : ObjectTreeModel α)
    (loc : List Nat) (cs : List (TreeElement α)) (oldF : List (TreeNode α))
    (root' : List (TreeNode α))
    (hold : childrenAt m.rootChildren loc = some oldF)
    (hrep : replaceChildrenAt m.rootChildren loc (createForest cs)
      = some root') :
    setChildrenInternal cfg m loc cs = some (
      ⟨root',
        (forestNodes (createForest cs)).foldl (fun acc n => mset acc n.element n)
          (((forestNodes oldF).map TreeNode.element).foldl mdel m.nodes),
        match cfg.identityProvider with
        | some getId =>
          (forestNodes (createForest cs)).foldl
            (fun acc n => mset acc (getId n.element) n)
            (((forestNodes oldF).map fun n => getId n.element).foldl mdel
              m.nodesByIdentity)
        | none => m.nodesByIdentity⟩,
      forestNodes (createForest cs), forestNodes oldF) := by
  have e1 := foldl_create_nodes cfg (forestNodes (createForest cs))
    ((forestNodes oldF).foldl (onDidDeleteNodeStep cfg) (spliceInit m))
  have e1' := foldl_delete_nodes cfg (forestNodes oldF) (spliceInit m) rfl
  have e2 := foldl_create_calls cfg (forestNodes (createForest cs))
    ((forestNodes oldF).foldl (onDidDeleteNodeStep cfg) (spliceInit m))
  have e3 := foldl_delete_fields cfg (forestNodes oldF) (spliceInit m)
  simp only [setChildrenInternal, hold, hrep]
  rw [e1, e1', e2.1, e2.2, e3.2.2.1, e3.2.2.2]
  rcases hip : cfg.identityProvider with _ | getId
  · rw [foldl_create_byId_none cfg hip, foldl_delete_byId_none cfg hip]
    simp [spliceInit]
  · rw [foldl_create_byId_some cfg getId hip,
      foldl_delete_byId_some cfg getId hip (forestNodes oldF) (spliceInit m) rfl]
    simp [spliceInit]

theorem agreesAt_transport {ts ts' : List (TreeNode α)} {a : α}
    {n : TreeNode α} (hagree : agreesAt ts a n)
    (hfl : optFlagsEq (findNodeF ts' a) (findNodeF ts a)) :
    agreesAt ts' a n := by
  unfold agreesAt at hagree ⊢
  cases hf : findNodeF ts a with
  | none =>
    rw [hf] at hagree
    exact hagree.elim
  | some n₀ =>
    rw [hf] at hagree
    cases hf' : findNodeF ts' a with
    | none =>
      rw [hf', hf] at hfl
      simp [optFlagsEq] at hfl
    | some n₁ =>
      rw [hf', hf] at hfl
      simp only [optFlagsEq] at hfl
      obtain ⟨f1, f2, f3⟩ := hfl
      obtain ⟨g1, g2, g3⟩ := hagree
      exact ⟨f1.trans g1, f2.trans g2, f3.trans g3⟩

/-- Full characterization of the private setChildren on a well-formed
model.  The hypotheses are the preconditions the spec places on callers:
the tree is a strict hierarchy (an inserted element may duplicate only
elements of the replaced subtrees, §1), and, with an identity provider,
identity keys are unique among the inserted elements and clash with live
elements only inside the replaced subtrees (§6). -/
theorem setChildrenInternal_spec
    (cfg : TreeConfig α) (m : ObjectTreeModel α) (loc : List Nat)
    (cs : List (TreeElement α)) (oldF : List (TreeNode α))
    (hwf : Wf cfg m)
    (hold : childrenAt m.rootChildren loc = some oldF)
    (hnodupNew : (forestElems (createForest cs)).Nodup)
    (hfreshNew : ∀ a ∈ forestElems (createForest cs),
      a ∈ forestElems m.rootChildren → a ∈ forestElems oldF)
    (hid : ∀ getId, cfg.identityProvider = some getId →
      (∀ a ∈ forestElems (createForest cs),
        ∀ b ∈ forestElems (createForest cs), getId a = getId b → a = b) ∧
      (∀ a ∈ forestElems (createForest cs),
        ∀ b ∈ forestElems m.rootChildren, getId a = getId b →
          b ∈ forestElems oldF)) :
    ∃ m' : ObjectTreeModel α,
      setChildrenInternal cfg m loc cs
          = some (m', forestNodes (createForest cs), forestNodes oldF) ∧
      replaceChildrenAt m.rootChildren loc (createForest cs)
          = some m'.rootChildren ∧
      childrenAt m'.rootChildren loc = some (createForest cs) ∧
      (forestElems m'.rootChildren).Nodup ∧
      (∃ out, (forestElems m.rootChildren).Perm (forestElems oldF ++ out) ∧
        (forestElems m'.rootChildren).Perm
          (forestElems (createForest cs) ++ out)) ∧
      (∀ a, mget m'.nodes a =
        if a ∈ forestElems (createForest cs) then
          findNodeF (createForest cs) a
        else if a ∈ forestElems oldF then none
        else mget m.nodes a) ∧
      (∀ a ∈ forestElems (createForest cs),
        findNodeF m'.rootChildren a = findNodeF (createForest cs) a) ∧
      (∀ a, a ∉ forestElems oldF → a ∉ forestElems (createForest cs) →
        optFlagsEq (findNodeF m'.rootChildren a)
          (findNodeF m.rootChildren a)) ∧
      (∀ getId, cfg.identityProvider = some getId →
        (∀ a ∈ forestElems (createForest cs),
          mget m'.nodesByIdentity (getId a) = findNodeF (createForest cs) a) ∧
        (∀ k, k ∉ (forestElems (createForest cs)).map getId →
          k ∉ (forestElems oldF).map getId →
          mget m'.nodesByIdentity k = mget m.nodesByIdentity k) ∧
        (∀ k, k ∉ (forestElems (createForest cs)).map getId →
          k ∈ (forestElems oldF).map getId →
          mget m'.nodesByIdentity k = none)) ∧
      Wf cfg m' := by
  have hrepIsSome := replaceChildrenAt_isSome m.rootChildren loc oldF
    (createForest cs) hold
  cases hrep : replaceChildrenAt m.rootChildren loc (createForest cs) with
  | none =>
    rw [hrep] at hrepIsSome
    simp at hrepIsSome
  | some root' =>
  rcases replaceChildrenAt_spec m.rootChildren loc (createForest cs) root'
      hrep with ⟨old₀, out, hold₀, hchildren', hpermOld, hpermNew, hflagsZ, hz3⟩
  rw [hold] at hold₀
  injection hold₀ with hold₀
  subst hold₀
  have hndRoot := hwf.elemsNodup
  have hndOldOut : (forestElems oldF ++ out).Nodup :=
    (hpermOld.nodup_iff).mp hndRoot
  rcases List.nodup_append.mp hndOldOut with ⟨hndOf, hndOut, hdisjOfOut⟩
  have houtLive : ∀ a ∈ out, a ∈ forestElems m.rootChildren := fun a ha =>
    hpermOld.symm.subset (List.mem_append_right _ ha)
  have hdisjNewOut : (forestElems (createForest cs)).Disjoint out := by
    intro a ha hout
    exact hdisjOfOut (hfreshNew a ha (houtLive a hout)) hout
  have hndRoot' : (forestElems root').Nodup :=
    (hpermNew.nodup_iff).mpr
      (List.nodup_append.mpr ⟨hnodupNew, hndOut, hdisjNewOut⟩)
  have hfindNew : ∀ a ∈ forestElems (createForest cs),
      findNodeF root' a = findNodeF (createForest cs) a := fun a ha =>
    hz3 hndRoot' a ha (fun hlive => hfreshNew a ha hlive)
  have hrootMem : ∀ a, a ∈ forestElems root' ↔
      (a ∈ forestElems (createForest cs) ∨ a ∈ out) := fun a => by
    rw [hpermNew.mem_iff]
    simp [List.mem_append]
  have hinternal := setChildrenInternal_eq cfg m loc cs oldF root' hold hrep
  -- the element index afterwards
  have hGet : ∀ a,
      mget ((forestNodes (createForest cs)).foldl
          (fun acc n => mset acc n.element n)
          (((forestNodes oldF).map TreeNode.element).foldl mdel m.nodes)) a =
        if a ∈ forestElems (createForest cs) then
          findNodeF (createForest cs) a
        else if a ∈ forestElems oldF then none
        else mget m.nodes a := by
    intro a
    by_cases hnew : a ∈ forestElems (createForest cs)
    · rw [if_pos hnew]
      have hsome : (findNodeF (createForest cs) a).isSome :=
        (findNodeF_isSome_iff _ _).mpr hnew
      cases hfn : findNodeF (createForest cs) a with
      | none =>
        rw [hfn] at hsome
        simp at hsome
      | some n_a =>
        rcases findNodeF_spec hfn with ⟨hel, hmemN⟩
        exact mget_foldl_mset_of_mem_nodup hnodupNew hmemN hel
    · rw [if_neg hnew]
      rw [mget_foldl_mset_of_not_mem hnew]
      by_cases hoF : a ∈ forestElems oldF
      · rw [if_pos hoF]
        exact mget_foldl_mdel_of_mem hwf.nodesKeysNodup hoF
      · rw [if_neg hoF]
        exact mget_foldl_mdel_of_not_mem hoF
  have hkeys' : keysNodup ((forestNodes (createForest cs)).foldl
      (fun acc n => mset acc n.element n)
      (((forestNodes oldF).map TreeNode.element).foldl mdel m.nodes)) :=
    keysNodup_foldl_mset
      (keysNodup_foldl_mdel hwf.nodesKeysNodup _) _ _ _
  have hmem_iff : ∀ a,
      (mget ((forestNodes (createForest cs)).foldl
          (fun acc n => mset acc n.element n)
          (((forestNodes oldF).map TreeNode.element).foldl mdel m.nodes))
        a).isSome ↔ a ∈ forestElems root' := by
    intro a
    rw [hGet a, hrootMem a]
    by_cases hnew : a ∈ forestElems (createForest cs)
    · rw [if_pos hnew]
      simp only [findNodeF_isSome_iff]
      constructor
      · intro _
        exact Or.inl hnew
      · intro _
        exact hnew
    · rw [if_neg hnew]
      by_cases hoF : a ∈ forestElems oldF
      · rw [if_pos hoF]
        simp only [Option.isSome_none, Bool.false_eq_true, false_iff]
        rintro (h | h)
        · exact hnew h
        · exact hdisjOfOut hoF h
      · rw [if_neg hoF]
        rw [hwf.mget_isSome_iff a, hpermOld.mem_iff]
        simp only [List.mem_append]
        constructor
        · rintro (h | h)
          · exact absurd h hoF
          · exact Or.inr h
        · rintro (h | h)
          · exact absurd h hnew
          · exact Or.inr h
  refine ⟨⟨root',
    (forestNodes (createForest cs)).foldl (fun acc n => mset acc n.element n)
      (((forestNodes oldF).map TreeNode.element).foldl mdel m.nodes),
    match cfg.identityProvider with
    | some getId =>
      (forestNodes (createForest cs)).foldl
        (fun acc n => mset acc (getId n.element) n)
        (((forestNodes oldF).map fun n => getId n.element).foldl mdel
          m.nodesByIdentity)
    | none => m.nodesByIdentity⟩,
    ?_, ?_, ?_, ?_, ?_, ?_, ?_, ?_, ?_, ?_⟩
  · exact hinternal
  · rfl
  · exact hchildren'
  · exact hndRoot'
  · exact ⟨out, hpermOld, hpermNew⟩
  · exact hGet
  · exact hfindNew
  · exact hflagsZ
  · -- the identity index afterwards
    intro getId hip
    rcases hid getId hip with ⟨hinj, hfreshId⟩
    have hidsNodup :
        ((forestNodes (createForest cs)).map fun n => getId n.element).Nodup := by
      rw [map_getId_forestNodes]
      exact hnodupNew.map_on hinj
    simp only [hip]
    refine ⟨?_, ?_, ?_⟩
    · intro a ha
      have hsome : (findNodeF (createForest cs) a).isSome :=
        (findNodeF_isSome_iff _ _).mpr ha
      cases hfn : findNodeF (createForest cs) a with
      | none =>
        rw [hfn] at hsome
        simp at hsome
      | some n_a =>
        rcases findNodeF_spec hfn with ⟨hel, hmemN⟩
        exact mget_foldl_mset_of_mem_nodup hidsNodup hmemN (by rw [hel])
    · intro k hk1 hk2
      rw [mget_foldl_mset_of_not_mem
        (by rw [map_getId_forestNodes]; exact hk1)]
      rw [mget_foldl_mdel_of_not_mem
        (by rw [map_getId_forestNodes]; exact hk2)]
    · intro k hk1 hk2
      rw [mget_foldl_mset_of_not_mem
        (by rw [map_getId_forestNodes]; exact hk1)]
      exact mget_foldl_mdel_of_mem (hwf.byIdKeysNodup hip)
        (by rw [map_getId_forestNodes]; exact hk2)
  · -- well-formedness of the new model
    refine ⟨hndRoot', ?_, ?_, ?_⟩
    · exact (List.perm_ext_iff_of_nodup hkeys' hndRoot').mpr
        (fun a => by rw [← mget_isSome_iff_mem_keys]; exact hmem_iff a)
    · intro p hp
      have hg := mget_of_mem_nodup hkeys' hp
      rw [hGet p.1] at hg
      by_cases hnew : p.1 ∈ forestElems (createForest cs)
      · rw [if_pos hnew] at hg
        refine ⟨(findNodeF_spec hg).1, ?_⟩
        unfold agreesAt
        rw [hfindNew p.1 hnew, hg]
        exact ⟨rfl, rfl, rfl⟩
      · rw [if_neg hnew] at hg
        by_cases hoF : p.1 ∈ forestElems oldF
        · rw [if_pos hoF] at hg
          exact absurd hg (by simp)
        · rw [if_neg hoF] at hg
          rcases hwf.mget_spec hg with ⟨hel, hagree⟩
          exact ⟨hel, agreesAt_transport hagree (hflagsZ p.1 hoF hnew)⟩
    · rcases hip : cfg.identityProvider with _ | getId
      · simp only
        have h4 := hwf.2.2.2
        rw [hip] at h4
        exact h4
      · simp only
        rcases hid getId hip with ⟨hinj, hfreshId⟩
        have hidOld := hwf.idOk hip
        have hinjRoot' : ∀ a ∈ forestElems root', ∀ b ∈ forestElems root',
            getId a = getId b → a = b := by
          intro a ha b hb hab
          rw [hrootMem] at ha hb
          rcases ha with ha | ha <;> rcases hb with hb | hb
          · exact hinj a ha b hb hab
          · exact absurd (hfreshId a ha b (houtLive b hb) hab)
              (fun hh => hdisjOfOut hh hb)
          · exact absurd (hfreshId b hb a (houtLive a ha) hab.symm)
              (fun hh => hdisjOfOut hh ha)
          · exact hidOld.2.1 a (houtLive a ha) b (houtLive b hb) hab
        have hidsNodup :
            ((forestNodes (createForest cs)).map
              fun n => getId n.element).Nodup := by
          rw [map_getId_forestNodes]
          exact hnodupNew.map_on hinj
        have hbyIdKeys' : keysNodup
            ((forestNodes (createForest cs)).foldl
              (fun acc n => mset acc (getId n.element) n)
              (((forestNodes oldF).map fun n => getId n.element).foldl mdel
                m.nodesByIdentity)) :=
          keysNodup_foldl_mset
            (keysNodup_foldl_mdel (hwf.byIdKeysNodup hip) _) _ _ _
        have hIdGetNew : ∀ a ∈ forestElems (createForest cs),
            mget ((forestNodes (createForest cs)).foldl
              (fun acc n => mset acc (getId n.element) n)
              (((forestNodes oldF).map fun n => getId n.element).foldl mdel
                m.nodesByIdentity)) (getId a)
              = findNodeF (createForest cs) a := by
          intro a ha
          have hsome : (findNodeF (createForest cs) a).isSome :=
            (findNodeF_isSome_iff _ _).mpr ha
          cases hfn : findNodeF (createForest cs) a with
          | none =>
            rw [hfn] at hsome
            simp at hsome
          | some n_a =>
            rcases findNodeF_spec hfn with ⟨hel, hmemN⟩
            exact mget_foldl_mset_of_mem_nodup hidsNodup hmemN (by rw [hel])
        have hIdGetKeep : ∀ k, k ∉ (forestElems (createForest cs)).map getId →
            k ∉ (forestElems oldF).map getId →
            mget ((forestNodes (createForest cs)).foldl
              (fun acc n => mset acc (getId n.element) n)
              (((forestNodes oldF).map fun n => getId n.element).foldl mdel
                m.nodesByIdentity)) k = mget m.nodesByIdentity k := by
          intro k hk1 hk2
          rw [mget_foldl_mset_of_not_mem
            (by rw [map_getId_forestNodes]; exact hk1)]
          rw [mget_foldl_mdel_of_not_mem
            (by rw [map_getId_forestNodes]; exact hk2)]
        have hIdGetGone : ∀ k, k ∉ (forestElems (createForest cs)).map getId →
            k ∈ (forestElems oldF).map getId →
            mget ((forestNodes (createForest cs)).foldl
              (fun acc n => mset acc (getId n.element) n)
              (((forestNodes oldF).map fun n => getId n.element).foldl mdel
                m.nodesByIdentity)) k = none := by
          intro k hk1 hk2
          rw [mget_foldl_mset_of_not_mem
            (by rw [map_getId_forestNodes]; exact hk1)]
          exact mget_foldl_mdel_of_mem (hwf.byIdKeysNodup hip)
            (by rw [map_getId_forestNodes]; exact hk2)
        refine ⟨?_, hinjRoot', ?_⟩
        · refine (List.perm_ext_iff_of_nodup hbyIdKeys'
            (hndRoot'.map_on hinjRoot')).mpr ?_
          intro k
          rw [← mget_isSome_iff_mem_keys]
          by_cases hk1 : k ∈ (forestElems (createForest cs)).map getId
          · rcases List.mem_map.mp hk1 with ⟨a, ha, hak⟩
            constructor
            · intro _
              exact List.mem_map.mpr ⟨a, (hrootMem a).mpr (Or.inl ha), hak⟩
            · intro _
              subst hak
              rw [hIdGetNew a ha]
              exact (findNodeF_isSome_iff _ _).mpr ha
          · by_cases hk2 : k ∈ (forestElems oldF).map getId
            · rw [hIdGetGone k hk1 hk2]
              simp only [Option.isSome_none, Bool.false_eq_true, false_iff]
              intro hmem
              rcases List.mem_map.mp hmem with ⟨b, hb, hbk⟩
              rw [hrootMem] at hb
              rcases hb with hb | hb
              · exact absurd (List.mem_map.mpr ⟨b, hb, hbk⟩) hk1
              · rcases List.mem_map.mp hk2 with ⟨c, hc, hck⟩
                have hbc : b = c := hidOld.2.1 b (houtLive b hb) c
                  (hpermOld.symm.subset (List.mem_append_left _ hc))
                  (by rw [hbk, hck])
                exact hdisjOfOut (hbc ▸ hc) hb
            · rw [hIdGetKeep k hk1 hk2]
              rw [hwf.byId_isSome_iff hip k]
              constructor
              · intro hmem
                rcases List.mem_map.mp hmem with ⟨b, hb, hbk⟩
                rw [hpermOld.mem_iff] at hb
                rcases List.mem_append.mp hb with hb | hb
                · exact absurd (List.mem_map.mpr ⟨b, hb, hbk⟩) hk2
                · exact List.mem_map.mpr ⟨b, (hrootMem b).mpr (Or.inr hb), hbk⟩
              · intro hmem
                rcases List.mem_map.mp hmem with ⟨b, hb, hbk⟩
                rw [hrootMem] at hb
                rcases hb with hb | hb
                · exact absurd (List.mem_map.mpr ⟨b, hb, hbk⟩) hk1
                · exact List.mem_map.mpr ⟨b, houtLive b hb, hbk⟩
        · intro p hp
          have hg := mget_of_mem_nodup hbyIdKeys' hp
          by_cases hk1 : p.1 ∈ (forestElems (createForest cs)).map getId
          · rcases List.mem_map.mp hk1 with ⟨a, ha, hak⟩
            rw [← hak] at hg
            rw [hIdGetNew a ha] at hg
            rcases findNodeF_spec hg with ⟨hel, _⟩
            refine ⟨by rw [hel, hak], ?_, ?_⟩
            · rw [hel]
              exact (hrootMem a).mpr (Or.inl ha)
            · rw [hel]
              unfold agreesAt
              rw [hfindNew a ha, hg]
              exact ⟨rfl, rfl, rfl⟩
          · by_cases hk2 : p.1 ∈ (forestElems oldF).map getId
            · rw [hIdGetGone p.1 hk1 hk2] at hg
              exact absurd hg (by simp)
            · rw [hIdGetKeep p.1 hk1 hk2] at hg
              rcases hwf.byId_spec hip hg with ⟨hgid, hlive, hagree⟩
              have hbOld : p.2.element ∉ forestElems oldF := by
                intro hh
                exact hk2 (List.mem_map.mpr ⟨p.2.element, hh, hgid⟩)
              have hbNew : p.2.element ∉ forestElems (createForest cs) := by
                intro hh
                exact hk1 (List.mem_map.mpr ⟨p.2.element, hh, hgid⟩)
              refine ⟨hgid, ?_, ?_⟩
              · rw [hrootMem]
                right
                rw [hpermOld.mem_iff] at hlive
                rcases List.mem_append.mp hlive with hh | hh
                · exact absurd hh hbOld
                · exact hh
              · exact agreesAt_transport hagree
                  (hflagsZ p.2.element hbOld hbNew)

/-! ### Reading the model back -/

theorem getElementLocation_root (cfg : TreeConfig α) (m : ObjectTreeModel α) :
    getElementLocation cfg m none = .ok [] := rfl

theorem getElementLocation_absent (cfg : TreeConfig α)
    (m : ObjectTreeModel α) {a : α} (h : mget m.nodes a = none) :
    getElementLocation cfg m (some a) = .error (elementNotFound cfg) := by
  simp [getElementLocation, h]

theorem getElementLocation_present {cfg : TreeConfig α}
    {m : ObjectTreeModel α} (hwf : Wf cfg m) {a : α}
    (ha : a ∈ forestElems m.rootChildren) :
    ∃ p n, getElementLocation cfg m (some a) = .ok p ∧
      findPathF m.rootChildren a = some p ∧
      findNodeF m.rootChildren a = some n ∧
      getNodeAt m.rootChildren p = some n ∧
      childrenAt m.rootChildren p = some n.children := by
  have hsome := (hwf.mget_isSome_iff a).mpr ha
  cases hm : mget m.nodes a with
  | none =>
    rw [hm] at hsome
    simp at hsome
  | some n₀ =>
    rcases hwf.mget_spec hm with ⟨hel, _⟩
    have hfs : (findNodeF m.rootChildren a).isSome :=
      (findNodeF_isSome_iff _ _).mpr ha
    have hps : (findPathF m.rootChildren a).isSome :=
      (findPathF_isSome_iff _ _).mpr hfs
    cases hfp : findPathF m.rootChildren a with
    | none =>
      rw [hfp] at hps
      simp at hps
    | some p =>
      cases hfn : findNodeF m.rootChildren a with
      | none =>
        rw [hfn] at hfs
        simp at hfs
      | some n =>
        refine ⟨p, n, ?_, rfl, rfl, ?_, ?_⟩
        · simp [getElementLocation, hm, hel, hfp]
        · rw [getNodeAt_findPathF hfp, hfn]
        · cases p with
          | nil => exact absurd rfl (findPathF_ne_nil hfp)
          | cons i rest =>
            rw [childrenAt_eq_getNodeAt, getNodeAt_findPathF hfp, hfn]
            rfl

theorem isCollapsed_present {cfg : TreeConfig α} {m : ObjectTreeModel α}
    (hwf : Wf cfg m) {a : α} {n : TreeNode α}
    (hfn : findNodeF m.rootChildren a = some n) :
    isCollapsed cfg m (some a) = .ok n.collapsed := by
  have ha : a ∈ forestElems m.rootChildren :=
    (findNodeF_isSome_iff _ _).mp (by simp [hfn])
  rcases getElementLocation_present hwf ha with ⟨p, n₀, hloc, _, hfn₀, hat, _⟩
  rw [hfn] at hfn₀
  injection hfn₀ with hfn₀
  subst hfn₀
  simp [isCollapsed, hloc, hat]

theorem isCollapsible_present {cfg : TreeConfig α} {m : ObjectTreeModel α}
    (hwf : Wf cfg m) {a : α} {n : TreeNode α}
    (hfn : findNodeF m.rootChildren a = some n) :
    isCollapsible cfg m (some a) = .ok n.collapsible := by
  have ha : a ∈ forestElems m.rootChildren :=
    (findNodeF_isSome_iff _ _).mp (by simp [hfn])
  rcases getElementLocation_present hwf ha with ⟨p, n₀, hloc, _, hfn₀, hat, _⟩
  rw [hfn] at hfn₀
  injection hfn₀ with hfn₀
  subst hfn₀
  simp [isCollapsible, hloc, hat]

/-- A successful lookup (by reference, else by identity key) returns an
index entry for a live element whose collapse flags agree with the tree. -/
theorem lookupNode_spec {cfg : TreeConfig α} {m : ObjectTreeModel α}
    (hwf : Wf cfg m) {a : α} {n : TreeNode α}
    (h : lookupNode cfg m a = some n) :
    n.element ∈ forestElems m.rootChildren ∧
      agreesAt m.rootChildren n.element n ∧
      (mget m.nodes a = some n → n.element = a) := by
  unfold lookupNode at h
  cases hm : mget m.nodes a with
  | some n₀ =>
    rw [hm] at h
    injection h with h
    subst h
    rcases hwf.mget_spec hm with ⟨hel, hagree⟩
    rw [← hel] at hagree
    refine ⟨?_, hagree, fun _ => hel⟩
    rw [hel]
    exact (hwf.mget_isSome_iff a).mp (by simp [hm])
  | none =>
    rw [hm] at h
    cases hip : cfg.identityProvider with
    | none =>
      rw [hip] at h
      simp at h
    | some getId =>
      rw [hip] at h
      rcases hwf.byId_spec hip h with ⟨_, hlive, hagree⟩
      refine ⟨hlive, hagree, ?_⟩
      intro hm'
      exact absurd hm' (by simp)

/-- The collapse flags an element answers before an update, written in
terms of its index entry as the reconciliation sees it. -/
theorem flags_before {cfg : TreeConfig α} {m : ObjectTreeModel α}
    (hwf : Wf cfg m) {a : α} {n : TreeNode α}
    (h : lookupNode cfg m a = some n) :
    isCollapsed cfg m (some n.element) = .ok n.collapsed ∧
      isCollapsible cfg m (some n.element) = .ok n.collapsible := by
  rcases lookupNode_spec hwf h with ⟨hlive, hagree, _⟩
  unfold agreesAt at hagree
  cases hf : findNodeF m.rootChildren n.element with
  | none =>
    rw [hf] at hagree
    exact hagree.elim
  | some n' =>
    rw [hf] at hagree
    obtain ⟨_, g2, g3⟩ := hagree
    exact ⟨by rw [isCollapsed_present hwf hf, g3],
      by rw [isCollapsible_present hwf hf, g2]⟩

/-! ### Occurrences in candidate and node forests -/

inductive OccursE (c : TreeElement α) : List (TreeElement α) → Prop where
  | direct {cs : List (TreeElement α)} : c ∈ cs → OccursE c cs
  | nested {cs : List (TreeElement α)} {d : TreeElement α} :
      d ∈ cs → OccursE c d.children → OccursE c cs

theorem mem_sortCandidates_of_mem {cfg : TreeConfig α}
    {cs : List (TreeElement α)} {c : TreeElement α} (h : c ∈ cs) :
    c ∈ sortCandidates cfg cs := by
  rcases hs : cfg.sorter with _ | cmp
  · simpa [sortCandidates, hs] using h
  · simp only [sortCandidates, hs]
    exact (stableSortBy_perm _ _).mem_iff.mpr h

theorem preserveCollapseStateElem_children (cfg : TreeConfig α)
    (m : ObjectTreeModel α) (c : TreeElement α) :
    (preserveCollapseStateElem cfg m c).children
      = preserveCollapseState cfg m c.children := by
  unfold preserveCollapseStateElem
  cases lookupNode cfg m c.element <;> rfl

theorem preserveCollapseStateElem_element (cfg : TreeConfig α)
    (m : ObjectTreeModel α) (c : TreeElement α) :
    (preserveCollapseStateElem cfg m c).element = c.element := by
  unfold preserveCollapseStateElem
  cases lookupNode cfg m c.element <;> rfl

theorem occursE_preserveCollapseState {cfg : TreeConfig α}
    {m : ObjectTreeModel α} {c : TreeElement α} {cs : List (TreeElement α)}
    (h : OccursE c cs) :
    OccursE (preserveCollapseStateElem cfg m c)
      (preserveCollapseState cfg m cs) := by
  induction h with
  | direct hmem =>
    refine OccursE.direct ?_
    rw [preserveCollapseState_eq]
    exact List.mem_map_of_mem _ (mem_sortCandidates_of_mem hmem)
  | @nested cs' d hmem _ ih =>
    refine OccursE.nested (d := preserveCollapseStateElem cfg m d) ?_ ?_
    · rw [preserveCollapseState_eq]
      exact List.mem_map_of_mem _ (mem_sortCandidates_of_mem hmem)
    · rw [preserveCollapseStateElem_children]
      exact ih

inductive OccursN (n : TreeNode α) : List (TreeNode α) → Prop where
  | direct {ts : List (TreeNode α)} : n ∈ ts → OccursN n ts
  | nested {ts : List (TreeNode α)} {t : TreeNode α} :
      t ∈ ts → OccursN n t.children → OccursN n ts

theorem createNode_children (c : TreeElement α) :
    (createNode c).children = createForest c.children := rfl

theorem occursN_createForest {c : TreeElement α} {cs : List (TreeElement α)}
    (h : OccursE c cs) : OccursN (createNode c) (createForest cs) := by
  induction h with
  | direct hmem =>
    refine OccursN.direct ?_
    rw [createForest_eq]
    exact List.mem_map_of_mem _ hmem
  | @nested cs' d hmem _ ih =>
    refine OccursN.nested (t := createNode d) ?_ ?_
    · rw [createForest_eq]
      exact List.mem_map_of_mem _ hmem
    · rw [createNode_children]
      exact ih

theorem mem_forestNodes_of_mem {ts : List (TreeNode α)} {t : TreeNode α}
    (h : t ∈ ts) : t ∈ forestNodes ts := by
  induction ts with
  | nil => simp at h
  | cons u us ih =>
    rw [forestNodes_cons]
    rcases List.mem_cons.mp h with h | h
    · exact h ▸ List.mem_cons_self _ _
    · exact List.mem_cons_of_mem _ (List.mem_append_right _ (ih h))

theorem forestNodes_children_subset {ts : List (TreeNode α)} {t : TreeNode α}
    (h : t ∈ ts) : ∀ n ∈ forestNodes t.children, n ∈ forestNodes ts := by
  induction ts with
  | nil => simp at h
  | cons u us ih =>
    intro n hn
    rw [forestNodes_cons]
    rcases List.mem_cons.mp h with h | h
    · subst h
      exact List.mem_cons_of_mem _ (List.mem_append_left _ hn)
    · exact List.mem_cons_of_mem _ (List.mem_append_right _ (ih h n hn))

theorem occursN_mem_forestNodes {n : TreeNode α} {ts : List (TreeNode α)}
    (h : OccursN n ts) : n ∈ forestNodes ts := by
  induction h with
  | direct hmem => exact mem_forestNodes_of_mem hmem
  | nested hmem _ ih => exact forestNodes_children_subset hmem _ ih

/-- The current child nodes of a target: the node tree the resort
operation re-feeds (empty when the target cannot be resolved). -/
def currentChildren (cfg : TreeConfig α) (m : ObjectTreeModel α)
    (e : Option α) : List (TreeNode α) :=
  match getElementLocation cfg m e with
  | .ok loc => (childrenAt m.rootChildren loc).getD []
  | .error _ => []

theorem currentChildren_resolves {cfg : TreeConfig α} {m : ObjectTreeModel α}
    (hwf : Wf cfg m) {e : Option α}
    (hp : e = none ∨ ∃ a, e = some a ∧ a ∈ forestElems m.rootChildren) :
    ∃ loc, getElementLocation cfg m e = .ok loc ∧
      childrenAt m.rootChildren loc = some (currentChildren cfg m e) := by
  rcases hp with hp | ⟨a, hp, ha⟩
  · subst hp
    exact ⟨[], rfl, by simp [currentChildren, getElementLocation]⟩
  · subst hp
    rcases getElementLocation_present hwf ha with ⟨p, n, hloc, _, _, _, hch⟩
    exact ⟨p, hloc, by simp [currentChildren, hloc, hch]⟩

/-- Number of entries carrying a key. -/
def countKey (m : List (κ × ν)) (k : κ) : Nat :=
  m.countP fun p => decide (p.1 = k)

theorem countKey_of_nodup (m : List (κ × ν)) (hk : keysNodup m) (k : κ) :
    countKey m k = if (mget m k).isSome then 1 else 0 := by
  induction m with
  | nil => simp [countKey]
  | cons p rest ih =>
    simp only [keysNodup, List.map_cons, List.nodup_cons] at hk
    by_cases hp : p.1 = k
    · subst hp
      have hrest : mget rest p.1 = none := mget_eq_none_of_not_mem_keys hk.1
      have h0 : countKey rest p.1 = 0 := by
        rw [ih hk.2, hrest]
        simp
      simp [countKey, List.countP_cons, mget]
      simpa [countKey] using h0
    · have := ih hk.2
      simp [countKey, List.countP_cons, hp, mget] at this ⊢
      rw [this]

/-- The full setChildren pipeline on a well-formed model with a present
target: path resolution, reconciliation, splice, and the resulting model,
with both callback lists.  The extra hypotheses are the spec
preconditions on callers, phrased on the forest the reconciled
candidates create (whose elements are exactly the candidate elements). -/
theorem setChildrenFull_spec (cfg : TreeConfig α) (m : ObjectTreeModel α)
    (e : Option α) (cso : Option (List (TreeElement α)))
    (hwf : Wf cfg m)
    (hp : e = none ∨ ∃ a, e = some a ∧ a ∈ forestElems m.rootChildren)
    (hnodupNew : (forestElems (createForest
      (preserveCollapseState cfg m (cso.getD [])))).Nodup)
    (hfresh : ∀ a ∈ forestElems (createForest
        (preserveCollapseState cfg m (cso.getD []))),
      a ∈ forestElems m.rootChildren →
      a ∈ forestElems (currentChildren cfg m e))
    (hid : ∀ getId, cfg.identityProvider = some getId →
      (∀ a ∈ forestElems (createForest
          (preserveCollapseState cfg m (cso.getD []))),
        ∀ b ∈ forestElems (createForest
          (preserveCollapseState cfg m (cso.getD []))),
        getId a = getId b → a = b) ∧
      (∀ a ∈ forestElems (createForest
          (preserveCollapseState cfg m (cso.getD []))),
        ∀ b ∈ forestElems m.rootChildren, getId a = getId b →
          b ∈ forestElems (currentChildren cfg m e))) :
    ∃ m' loc,
      setChildrenFull cfg m e cso = .ok (m',
        forestNodes (createForest (preserveCollapseState cfg m (cso.getD []))),
        forestNodes (currentChildren cfg m e)) ∧
      getElementLocation cfg m e = .ok loc ∧
      childrenAt m.rootChildren loc = some (currentChildren cfg m e) ∧
      childrenAt m'.rootChildren loc
        = some (createForest (preserveCollapseState cfg m (cso.getD []))) ∧
      (forestElems m'.rootChildren).Nodup ∧
      (∃ out, (forestElems m.rootChildren).Perm
          (forestElems (currentChildren cfg m e) ++ out) ∧
        (forestElems m'.rootChildren).Perm
          (forestElems (createForest
            (preserveCollapseState cfg m (cso.getD []))) ++ out)) ∧
      (∀ a, mget m'.nodes a =
        if a ∈ forestElems (createForest
            (preserveCollapseState cfg m (cso.getD []))) then
          findNodeF (createForest (preserveCollapseState cfg m (cso.getD []))) a
        else if a ∈ forestElems (currentChildren cfg m e) then none
        else mget m.nodes a) ∧
      (∀ a ∈ forestElems (createForest
          (preserveCollapseState cfg m (cso.getD []))),
        findNodeF m'.rootChildren a
          = findNodeF (createForest
              (preserveCollapseState cfg m (cso.getD []))) a) ∧
      (∀ a, a ∉ forestElems (currentChildren cfg m e) →
        a ∉ forestElems (createForest
          (preserveCollapseState cfg m (cso.getD []))) →
        optFlagsEq (findNodeF m'.rootChildren a)
          (findNodeF m.rootChildren a)) ∧
      (∀ getId, cfg.identityProvider = some getId →
        (∀ a ∈ forestElems (createForest
            (preserveCollapseState cfg m (cso.getD []))),
          mget m'.nodesByIdentity (getId a)
            = findNodeF (createForest
                (preserveCollapseState cfg m (cso.getD []))) a) ∧
        (∀ k, k ∉ (forestElems (createForest
            (preserveCollapseState cfg m (cso.getD [])))).map getId →
          k ∉ (forestElems (currentChildren cfg m e)).map getId →
          mget m'.nodesByIdentity k = mget m.nodesByIdentity k) ∧
        (∀ k, k ∉ (forestElems (createForest
            (preserveCollapseState cfg m (cso.getD [])))).map getId →
          k ∈ (forestElems (currentChildren cfg m e)).map getId →
          mget m'.nodesByIdentity k = none)) ∧
      Wf cfg m' := by
  rcases currentChildren_resolves hwf hp with ⟨loc, hloc, hch⟩
  rcases setChildrenInternal_spec cfg m loc
      (preserveCollapseState cfg m (cso.getD []))
      (currentChildren cfg m e) hwf hch hnodupNew hfresh hid with
    ⟨m', hint, hrep, hch', hnd', hout, hget, hfind, hflags, hidget, hwf'⟩
  refine ⟨m', loc, ?_, hloc, hch, hch', hnd', hout, hget, hfind, hflags,
    hidget, hwf'⟩
  simp [setChildrenFull, hloc, hint]

theorem preserveCollapseState_nil (cfg : TreeConfig α)
    (m : ObjectTreeModel α) : preserveCollapseState cfg m [] = [] := by
  rw [preserveCollapseState_eq]
  cases hs : cfg.sorter <;> simp [sortCandidates, hs, stableSortBy]

/-! ### Concrete fixtures used by the witnesses and counterexamples -/

def cfgPlain : TreeConfig Nat := ⟨"test", none, none⟩

def nodeA : TreeNode Nat := .mk 1 true false []

def modelA : ObjectTreeModel Nat := ⟨[nodeA], [(1, nodeA)], []⟩

theorem modelA_wf : Wf cfgPlain modelA := by
  refine ⟨?_, ?_, ?_, ?_⟩
  · simp [modelA, nodeA, forestElems, forestNodes]
  · have h1 : forestElems modelA.rootChildren = [1] := by
      simp [modelA, nodeA, forestElems, forestNodes]
    rw [h1]
    have h2 : modelA.nodes.map Prod.fst = [1] := by simp [modelA]
    rw [h2]
  · intro p hp
    simp only [modelA] at hp
    rcases List.mem_singleton.mp hp with rfl
    refine ⟨by simp [nodeA], ?_⟩
    simp [agreesAt, findNodeF, modelA, nodeA]
  · simp [cfgPlain, modelA]

theorem modelA_mem1 : 1 ∈ forestElems modelA.rootChildren := by
  simp [modelA, nodeA, forestElems, forestNodes]

/-- C10: getNodeLocation is a left inverse of getNode: for every element
present in the model, and for the root sentinel, getNodeLocation of the
node getNode returns is the element itself, because getNodeLocation of a
node simply returns the node element. -/
theorem getNodeLocation_getNode {cfg : TreeConfig α} {m : ObjectTreeModel α}
    (hwf : Wf cfg m) (e : Option α)
    (hp : e = none ∨ ∃ a, e = some a ∧ a ∈ forestElems m.rootChildren) :
    ∃ v, getNode cfg m e = .ok v ∧ getNodeLocation v = e := by
  rcases hp with hp | ⟨a, hp, ha⟩
  · subst hp
    exact ⟨rootView m, rfl, rfl⟩
  · subst hp
    have hsome := (hwf.mget_isSome_iff a).mpr ha
    cases hm : mget m.nodes a with
    | none =>
      rw [hm] at hsome
      simp at hsome
    | some n =>
      refine ⟨toView n, by simp [getNode, hm], ?_⟩
      have hel := (hwf.mget_spec hm).1
      simp [getNodeLocation, toView, hel]

theorem getNodeLocation_getNode_witness :
    (∃ v, getNode cfgPlain modelA (some 1) = .ok v ∧
      getNodeLocation v = some 1) ∧
    (∃ v, getNode cfgPlain modelA none = .ok v ∧ getNodeLocation v = none) :=
  ⟨getNodeLocation_getNode modelA_wf (some 1)
      (Or.inr ⟨1, rfl, modelA_mem1⟩),
    getNodeLocation_getNode modelA_wf none (Or.inl rfl)⟩

/-- C8 (counterexample): resort given an element absent from the element
index does not raise when no sorter is configured — it returns the model
unchanged, contradicting the claim that every listed operation raises
on an absent element. -/
theorem resort_absent_no_error :
    mget modelA.nodes 2 = none ∧
      resort cfgPlain modelA (some 2) true = .ok modelA := by
  constructor
  · simp [modelA, nodeA, mget]
  · simp [resort, cfgPlain]

/-- C8 (amended): every operation given a non-null element absent from
the element index raises the single TreeError kind synchronously —
except resort, which returns without error when no sorter is configured
(with a sorter configured it raises like the rest) — and
getParentNodeLocation on the root sentinel raises as well.  The error is
produced during path resolution: the operations return only the error
and no new model state, so the model is unchanged. -/
theorem absent_element_errors (cfg : TreeConfig α) (m : ObjectTreeModel α)
    (a : α) (h : mget m.nodes a = none)
    (cso : Option (List (TreeElement α))) (value : Option Bool)
    (recursive : Bool) :
    setChildren cfg m (some a) cso = .error (elementNotFound cfg) ∧
    setChildrenFull cfg m (some a) cso = .error (elementNotFound cfg) ∧
    rerender cfg m (some a) = .error (elementNotFound cfg) ∧
    (∀ cmp, cfg.sorter = some cmp →
      resort cfg m (some a) recursive = .error (elementNotFound cfg)) ∧
    (cfg.sorter = none → resort cfg m (some a) recursive = .ok m) ∧
    isCollapsed cfg m (some a) = .error (elementNotFound cfg) ∧
    setCollapsed cfg m (some a) value recursive
      = .error (elementNotFound cfg) ∧
    isCollapsible cfg m (some a) = .error (elementNotFound cfg) ∧
    setCollapsible cfg m (some a) value = .error (elementNotFound cfg) ∧
    expandTo cfg m (some a) = .error (elementNotFound cfg) ∧
    getNode cfg m (some a) = .error (elementNotFound cfg) ∧
    getParentNodeLocation cfg m (some a) = .error (elementNotFound cfg) ∧
    getListIndex cfg m (some a) = .error (elementNotFound cfg) ∧
    getListRenderCount cfg m (some a) = .error (elementNotFound cfg) ∧
    getFirstElementChild cfg m (some a) = .error (elementNotFound cfg) ∧
    getLastElementAncestor cfg m (some a) = .error (elementNotFound cfg) ∧
    getParentNodeLocation cfg m none
      = .error ⟨cfg.user, "Invalid getParentNodeLocation call"⟩ := by
  have hloc := getElementLocation_absent cfg m h
  refine ⟨?_, ?_, ?_, ?_, ?_, ?_, ?_, ?_, ?_, ?_, ?_, ?_, ?_, ?_, ?_, ?_, ?_⟩
  · simp [setChildren, setChildrenFull, hloc, Except.map]
  · simp [setChildrenFull, hloc]
  · simp [rerender, hloc]
  · intro cmp hs
    simp [resort, hs, hloc]
  · intro hs
    simp [resort, hs]
  · simp [isCollapsed, hloc]
  · simp [setCollapsed, hloc]
  · simp [isCollapsible, hloc]
  · simp [setCollapsible, hloc]
  · simp [expandTo, hloc]
  · simp [getNode, h]
  · simp [getParentNodeLocation, h]
  · simp [getListIndex, hloc]
  · simp [getListRenderCount, hloc]
  · simp [getFirstElementChild, hloc]
  · simp [getLastElementAncestor, hloc]
  · rfl

theorem absent_element_errors_witness :
    mget modelA.nodes 2 = none ∧
      getNode cfgPlain modelA (some 2)
        = .error (elementNotFound cfgPlain) := by
  have h2 : mget modelA.nodes 2 = none := by simp [modelA, nodeA, mget]
  exact ⟨h2,
    (absent_element_errors cfgPlain modelA 2 h2 none none true).2.2.2.2.2.2.2.2.2.2.1⟩

/-- A candidate occurring anywhere in the submitted forest that matches an
existing node (by reference or by identity key) ends up, after the
setChildren splice, as a node answering the override-else-existing
collapse flags. -/
theorem setChildren_matched_flags (cfg : TreeConfig α)
    (m : ObjectTreeModel α) (e : Option α)
    (cso : Option (List (TreeElement α)))
    (hwf : Wf cfg m)
    (hp : e = none ∨ ∃ a, e = some a ∧ a ∈ forestElems m.rootChildren)
    (hnodupNew : (forestElems (createForest
      (preserveCollapseState cfg m (cso.getD [])))).Nodup)
    (hfresh : ∀ a ∈ forestElems (createForest
        (preserveCollapseState cfg m (cso.getD []))),
      a ∈ forestElems m.rootChildren →
      a ∈ forestElems (currentChildren cfg m e))
    (hid : ∀ getId, cfg.identityProvider = some getId →
      (∀ a ∈ forestElems (createForest
          (preserveCollapseState cfg m (cso.getD []))),
        ∀ b ∈ forestElems (createForest
          (preserveCollapseState cfg m (cso.getD []))),
        getId a = getId b → a = b) ∧
      (∀ a ∈ forestElems (createForest
          (preserveCollapseState cfg m (cso.getD []))),
        ∀ b ∈ forestElems m.rootChildren, getId a = getId b →
          b ∈ forestElems (currentChildren cfg m e)))
    {c : TreeElement α} {n : TreeNode α}
    (hocc : OccursE c (cso.getD []))
    (hlook : lookupNode cfg m c.element = some n) :
    ∃ m', setChildren cfg m e cso = .ok m' ∧ Wf cfg m' ∧
      isCollapsed cfg m' (some c.element)
        = .ok ((c.collapsed).getD n.collapsed) ∧
      isCollapsible cfg m' (some c.element)
        = .ok ((c.collapsible).getD n.collapsible) := by
  rcases setChildrenFull_spec cfg m e cso hwf hp hnodupNew hfresh hid with
    ⟨m', loc, hfull, _, _, _, _, _, _, hfind, _, _, hwf'⟩
  have hoccp := @occursE_preserveCollapseState _ _ cfg m _ _ hocc
  have hoccn := occursN_createForest hoccp
  have hmemN := occursN_mem_forestNodes hoccn
  have hpcse : preserveCollapseStateElem cfg m c
      = TreeElement.mk c.element (some ((c.collapsible).getD n.collapsible))
        (some ((c.collapsed).getD n.collapsed))
        (preserveCollapseState cfg m c.children) := by
    unfold preserveCollapseStateElem
    rw [hlook]
  have hnode : createNode (preserveCollapseStateElem cfg m c)
      = TreeNode.mk c.element ((c.collapsible).getD n.collapsible)
        ((c.collapsed).getD n.collapsed)
        (createForest (preserveCollapseState cfg m c.children)) := by
    rw [hpcse]
    simp [createNode]
  rw [hnode] at hmemN
  have hmemE : c.element ∈ forestElems (createForest
      (preserveCollapseState cfg m (cso.getD []))) := by
    have := mem_forestNodes_element hmemN
    simpa using this
  have hfn : findNodeF (createForest (preserveCollapseState cfg m
      (cso.getD []))) c.element
      = some (TreeNode.mk c.element ((c.collapsible).getD n.collapsible)
          ((c.collapsed).getD n.collapsed)
          (createForest (preserveCollapseState cfg m c.children))) := by
    have := findNodeF_eq_of_mem hnodupNew hmemN
    simpa using this
  have hfn' : findNodeF m'.rootChildren c.element
      = some (TreeNode.mk c.element ((c.collapsible).getD n.collapsible)
          ((c.collapsed).getD n.collapsed)
          (createForest (preserveCollapseState cfg m c.children))) := by
    rw [hfind c.element hmemE, hfn]
  refine ⟨m', ?_, hwf', ?_, ?_⟩
  · simp [setChildren, hfull, Except.map]
  · rw [isCollapsed_present hwf' hfn']
    simp
  · rw [isCollapsible_present hwf' hfn']
    simp

/-- C1: identity preservation: an element present before and after a
setChildren call on an ancestor, whose new candidate description
overrides neither collapsible nor collapsed, answers the same
isCollapsed and isCollapsible values after the call as before — also
when the candidate carries a different instance matched only through the
identity provider (the lookup hypothesis covers both the reference match
and the identity-key fallback; n.element is the previously live
element). -/
theorem setChildren_identity_preservation (cfg : TreeConfig α)
    (m : ObjectTreeModel α) (e : Option α)
    (cso : Option (List (TreeElement α)))
    (hwf : Wf cfg m)
    (hp : e = none ∨ ∃ a, e = some a ∧ a ∈ forestElems m.rootChildren)
    (hnodupNew : (forestElems (createForest
      (preserveCollapseState cfg m (cso.getD [])))).Nodup)
    (hfresh : ∀ a ∈ forestElems (createForest
        (preserveCollapseState cfg m (cso.getD []))),
      a ∈ forestElems m.rootChildren →
      a ∈ forestElems (currentChildren cfg m e))
    (hid : ∀ getId, cfg.identityProvider = some getId →
      (∀ a ∈ forestElems (createForest
          (preserveCollapseState cfg m (cso.getD []))),
        ∀ b ∈ forestElems (createForest
          (preserveCollapseState cfg m (cso.getD []))),
        getId a = getId b → a = b) ∧
      (∀ a ∈ forestElems (createForest
          (preserveCollapseState cfg m (cso.getD []))),
        ∀ b ∈ forestElems m.rootChildren, getId a = getId b →
          b ∈ forestElems (currentChildren cfg m e)))
    {c : TreeElement α} {n : TreeNode α}
    (hocc : OccursE c (cso.getD []))
    (hnoCollapsible : c.collapsible = none)
    (hnoCollapsed : c.collapsed = none)
    (hlook : lookupNode cfg m c.element = some n) :
    ∃ m', setChildren cfg m e cso = .ok m' ∧
      isCollapsed cfg m (some n.element) = .ok n.collapsed ∧
      isCollapsible cfg m (some n.element) = .ok n.collapsible ∧
      isCollapsed cfg m' (some c.element) = .ok n.collapsed ∧
      isCollapsible cfg m' (some c.element) = .ok n.collapsible := by
  rcases setChildren_matched_flags cfg m e cso hwf hp hnodupNew hfresh hid
      hocc hlook with ⟨m', hok, _, hcd, hcb⟩
  rcases flags_before hwf hlook with ⟨hbd, hbb⟩
  rw [hnoCollapsed] at hcd
  rw [hnoCollapsible] at hcb
  exact ⟨m', hok, hbd, hbb, by simpa using hcd, by simpa using hcb⟩

/-- C2: override precedence: a candidate explicitly setting
collapsed := true for an element whose existing node has
collapsed = false yields collapsed = true after the call; collapsible
follows the same override-else-existing rule. -/
theorem setChildren_override_precedence (cfg : TreeConfig α)
    (m : ObjectTreeModel α) (e : Option α)
    (cso : Option (List (TreeElement α)))
    (hwf : Wf cfg m)
    (hp : e = none ∨ ∃ a, e = some a ∧ a ∈ forestElems m.rootChildren)
    (hnodupNew : (forestElems (createForest
      (preserveCollapseState cfg m (cso.getD [])))).Nodup)
    (hfresh : ∀ a ∈ forestElems (createForest
        (preserveCollapseState cfg m (cso.getD []))),
      a ∈ forestElems m.rootChildren →
      a ∈ forestElems (currentChildren cfg m e))
    (hid : ∀ getId, cfg.identityProvider = some getId →
      (∀ a ∈ forestElems (createForest
          (preserveCollapseState cfg m (cso.getD []))),
        ∀ b ∈ forestElems (createForest
          (preserveCollapseState cfg m (cso.getD []))),
        getId a = getId b → a = b) ∧
      (∀ a ∈ forestElems (createForest
          (preserveCollapseState cfg m (cso.getD []))),
        ∀ b ∈ forestElems m.rootChildren, getId a = getId b →
          b ∈ forestElems (currentChildren cfg m e)))
    {c : TreeElement α} {n : TreeNode α}
    (hocc : OccursE c (cso.getD []))
    (hlook : lookupNode cfg m c.element = some n)
    (hcollapsed : c.collapsed = some true)
    (hprev : n.collapsed = false) :
    ∃ m', setChildren cfg m e cso = .ok m' ∧
      isCollapsed cfg m (some n.element) = .ok false ∧
      isCollapsed cfg m' (some c.element) = .ok true ∧
      (∀ b, c.collapsible = some b →
        isCollapsible cfg m' (some c.element) = .ok b) ∧
      (c.collapsible = none →
        isCollapsible cfg m' (some c.element) = .ok n.collapsible) := by
  rcases setChildren_matched_flags cfg m e cso hwf hp hnodupNew hfresh hid
      hocc hlook with ⟨m', hok, _, hcd, hcb⟩
  rcases flags_before hwf hlook with ⟨hbd, _⟩
  rw [hcollapsed] at hcd
  refine ⟨m', hok, by rw [hbd, hprev], by simpa using hcd, ?_, ?_⟩
  · intro b hb
    rw [hb] at hcb
    simpa using hcb
  · intro hb
    rw [hb] at hcb
    simpa using hcb

def getIdTen (n : Nat) : String := if n % 10 = 1 then "one" else "other"

def cfgId : TreeConfig Nat := ⟨"test", some getIdTen, none⟩

def nodeCollapsed : TreeNode Nat := .mk 1 true true []

def modelId : ObjectTreeModel Nat :=
  ⟨[nodeCollapsed], [(1, nodeCollapsed)], [("one", nodeCollapsed)]⟩

def candNew : TreeElement Nat := .mk 11 none none []

theorem modelId_wf : Wf cfgId modelId := by
  refine ⟨?_, ?_, ?_, ?_⟩
  · simp [modelId, nodeCollapsed, forestElems, forestNodes]
  · have h1 : forestElems modelId.rootChildren = [1] := by
      simp [modelId, nodeCollapsed, forestElems, forestNodes]
    rw [h1]
    have h2 : modelId.nodes.map Prod.fst = [1] := by simp [modelId]
    rw [h2]
  · intro p hp
    simp only [modelId] at hp
    rcases List.mem_singleton.mp hp with rfl
    refine ⟨by simp [nodeCollapsed], ?_⟩
    simp [agreesAt, findNodeF, modelId, nodeCollapsed]
  · simp only [cfgId]
    refine ⟨?_, ?_, ?_⟩
    · have h1 : forestElems modelId.rootChildren = [1] := by
        simp [modelId, nodeCollapsed, forestElems, forestNodes]
      rw [h1]
      have h2 : modelId.nodesByIdentity.map Prod.fst = ["one"] := by
        simp [modelId]
      rw [h2]
      simp [getIdTen]
    · intro a ha b hb _
      have h1 : forestElems modelId.rootChildren = [1] := by
        simp [modelId, nodeCollapsed, forestElems, forestNodes]
      rw [h1] at ha hb
      rw [List.mem_singleton.mp ha, List.mem_singleton.mp hb]
    · intro p hp
      simp only [modelId] at hp
      rcases List.mem_singleton.mp hp with rfl
      refine ⟨by simp [nodeCollapsed, getIdTen], ?_, ?_⟩
      · simp [modelId, nodeCollapsed, forestElems, forestNodes]
      · simp [agreesAt, findNodeF, modelId, nodeCollapsed]

theorem setChildren_identity_preservation_witness :
    ∃ m', setChildren cfgId modelId none (some [candNew]) = .ok m' ∧
      isCollapsed cfgId modelId (some nodeCollapsed.element)
        = .ok nodeCollapsed.collapsed ∧
      isCollapsible cfgId modelId (some nodeCollapsed.element)
        = .ok nodeCollapsed.collapsible ∧
      isCollapsed cfgId m' (some candNew.element)
        = .ok nodeCollapsed.collapsed ∧
      isCollapsible cfgId m' (some candNew.element)
        = .ok nodeCollapsed.collapsible := by
  have hlook : lookupNode cfgId modelId candNew.element = some nodeCollapsed := by
    simp [lookupNode, cfgId, modelId, nodeCollapsed, candNew, mget, getIdTen]
  have heval : createForest (preserveCollapseState cfgId modelId
      ((some [candNew]).getD [])) = [TreeNode.mk 11 true true []] := by
    rw [Option.getD_some, preserveCollapseState_eq]
    have hs : sortCandidates cfgId [candNew] = [candNew] := by
      simp [sortCandidates, cfgId]
    rw [hs]
    simp only [List.map_cons, List.map_nil]
    rw [createForest_eq]
    simp only [List.map_cons, List.map_nil]
    have hpe : preserveCollapseStateElem cfgId modelId candNew
        = TreeElement.mk 11 (some true) (some true) [] := by
      unfold preserveCollapseStateElem
      have hl2 : lookupNode cfgId modelId 11 = some nodeCollapsed := hlook
      rw [show candNew.element = 11 from rfl, hl2]
      simp [candNew, nodeCollapsed, preserveCollapseState_eq, sortCandidates,
        cfgId]
    rw [hpe]
    simp [createNode, createForest_eq]
  refine setChildren_identity_preservation cfgId modelId none (some [candNew])
    modelId_wf (Or.inl rfl) ?_ ?_ ?_ (OccursE.direct (by simp)) rfl rfl hlook
  · rw [heval]
    simp [forestElems, forestNodes]
  · rw [heval]
    intro a ha hlive
    simp [forestElems, forestNodes] at ha
    subst ha
    simp [modelId, nodeCollapsed, forestElems, forestNodes] at hlive
  · intro getId hg
    injection hg with hg
    subst hg
    constructor
    · rw [heval]
      intro a ha b hb _
      simp [forestElems, forestNodes] at ha hb
      rw [ha, hb]
    · rw [heval]
      intro a ha b hb _
      have h1 : forestElems modelId.rootChildren = [1] := by
        simp [modelId, nodeCollapsed, forestElems, forestNodes]
      rw [h1] at hb
      have hcc : currentChildren cfgId modelId none = modelId.rootChildren := by
        simp [currentChildren, getElementLocation]
      rw [hcc, h1]
      exact hb

theorem setChildren_override_precedence_witness :
    ∃ m',
      setChildren cfgPlain modelA none
        (some [TreeElement.mk 1 none (some true) []]) = .ok m' ∧
      isCollapsed cfgPlain modelA (some nodeA.element) = .ok false ∧
      isCollapsed cfgPlain m'
        (some (TreeElement.mk 1 none (some true) []).element) = .ok true ∧
      (∀ b, (TreeElement.mk 1 none (some true) []).collapsible = some b →
        isCollapsible cfgPlain m'
          (some (TreeElement.mk 1 none (some true) []).element) = .ok b) ∧
      ((TreeElement.mk 1 none (some true) []).collapsible = none →
        isCollapsible cfgPlain m'
          (some (TreeElement.mk 1 none (some true) []).element)
          = .ok nodeA.collapsible) := by
  have hlook : lookupNode cfgPlain modelA
      (TreeElement.mk 1 none (some true) []).element = some nodeA := by
    simp [lookupNode, cfgPlain, modelA, nodeA, mget]
  have heval : createForest (preserveCollapseState cfgPlain modelA
      ((some [TreeElement.mk 1 none (some true) []]).getD []))
      = [TreeNode.mk 1 true true []] := by
    rw [Option.getD_some, preserveCollapseState_eq]
    have hs : sortCandidates cfgPlain [TreeElement.mk 1 none (some true) []]
        = [TreeElement.mk 1 none (some true) []] := by
      simp [sortCandidates, cfgPlain]
    rw [hs]
    simp only [List.map_cons, List.map_nil]
    rw [createForest_eq]
    simp only [List.map_cons, List.map_nil]
    have hpe : preserveCollapseStateElem cfgPlain modelA
        (TreeElement.mk 1 none (some true) [])
        = TreeElement.mk 1 (some true) (some true) [] := by
      unfold preserveCollapseStateElem
      have hl2 : lookupNode cfgPlain modelA 1 = some nodeA := hlook
      rw [show (TreeElement.mk 1 none (some true) []).element = 1 from rfl,
        hl2]
      simp [nodeA, preserveCollapseState_eq, sortCandidates, cfgPlain]
    rw [hpe]
    simp [createNode, createForest_eq]
  refine setChildren_override_precedence cfgPlain modelA none
    (some [TreeElement.mk 1 none (some true) []]) modelA_wf (Or.inl rfl)
    ?_ ?_ ?_ (OccursE.direct (by simp)) hlook rfl rfl
  · rw [heval]
    simp [forestElems, forestNodes]
  · rw [heval]
    intro a ha hlive
    simp [forestElems, forestNodes] at ha
    subst ha
    have hcc : currentChildren cfgPlain modelA none = modelA.rootChildren := by
      simp [currentChildren, getElementLocation]
    rw [hcc]
    exact hlive
  · intro getId hg
    exact absurd hg (by simp [cfgPlain])

/-- C9: setChildren with a missing children sequence on a present parent
element clears all children at that path (the insertion is empty and every
previously reachable descendant node at the path is removed), the deletion
callback receives each removed node exactly once (the removed nodes carry
pairwise distinct elements), and afterwards has is false for every removed
child element. -/
theorem setChildren_clear_children (cfg : TreeConfig α)
    (m : ObjectTreeModel α) (e : Option α) (hwf : Wf cfg m)
    (hp : e = none ∨ ∃ a, e = some a ∧ a ∈ forestElems m.rootChildren) :
    ∃ m' loc,
      setChildrenFull cfg m e none
        = .ok (m', [], forestNodes (currentChildren cfg m e)) ∧
      getElementLocation cfg m e = .ok loc ∧
      childrenAt m.rootChildren loc = some (currentChildren cfg m e) ∧
      childrenAt m'.rootChildren loc = some [] ∧
      ((forestNodes (currentChildren cfg m e)).map TreeNode.element).Nodup ∧
      (∀ c ∈ forestElems (currentChildren cfg m e),
        has m' (some c) = false) ∧
      Wf cfg m' := by
  have h0 : createForest (preserveCollapseState cfg m
      ((none : Option (List (TreeElement α))).getD [])) = [] := by
    rw [Option.getD_none, preserveCollapseState_nil, createForest_eq,
      List.map_nil]
  rcases setChildrenFull_spec cfg m e none hwf hp
      (by rw [h0]; simp [forestElems])
      (by rw [h0]; simp [forestElems])
      (by intro getId hg; rw [h0]; simp [forestElems]) with
    ⟨m', loc, hok, hloc, hch, hch', _, hout, hget, _, _, _, hwf'⟩
  rw [h0] at hok hch' hget
  refine ⟨m', loc, ?_, hloc, hch, by simpa using hch', ?_, ?_, hwf'⟩
  · simpa using hok
  · rcases hout with ⟨out, hpermOld, _⟩
    have hnd : (forestElems (currentChildren cfg m e) ++ out).Nodup :=
      hpermOld.nodup_iff.mp hwf.elemsNodup
    exact (List.nodup_append.mp hnd).1
  · intro c hc
    have := hget c
    rw [if_neg (by simp [forestElems]), if_pos hc] at this
    simp [has, this]

theorem setChildren_clear_children_witness :
    ∃ m' loc,
      setChildrenFull cfgPlain modelA none none
        = .ok (m', [], forestNodes (currentChildren cfgPlain modelA none)) ∧
      getElementLocation cfgPlain modelA none = .ok loc ∧
      childrenAt modelA.rootChildren loc
        = some (currentChildren cfgPlain modelA none) ∧
      childrenAt m'.rootChildren loc = some [] ∧
      ((forestNodes (currentChildren cfgPlain modelA none)).map
        TreeNode.element).Nodup ∧
      (∀ c ∈ forestElems (currentChildren cfgPlain modelA none),
        has m' (some c) = false) ∧
      Wf cfgPlain m' :=
  setChildren_clear_children cfgPlain modelA none modelA_wf (Or.inl rfl)

/-- C3: staging correctness.  In a setChildren call that removes a node
whose element b carries identity key k and inserts an element a with the
same key k, the final identity index holds exactly one entry for k and it
is the newly created node for a; likewise the element index holds exactly
one entry for a, the new node.  Moreover the deletion callback never
evicts an element entry whose element is staged, nor an identity entry
whose identity key is staged. -/
theorem setChildren_staging_correctness (cfg : TreeConfig α)
    (m : ObjectTreeModel α) (e : Option α)
    (cso : Option (List (TreeElement α))) (hwf : Wf cfg m)
    (hp : e = none ∨ ∃ a, e = some a ∧ a ∈ forestElems m.rootChildren)
    (hnodupNew : (forestElems (createForest
      (preserveCollapseState cfg m (cso.getD [])))).Nodup)
    (hfresh : ∀ a ∈ forestElems (createForest
        (preserveCollapseState cfg m (cso.getD []))),
      a ∈ forestElems m.rootChildren →
      a ∈ forestElems (currentChildren cfg m e))
    (hid : ∀ getId, cfg.identityProvider = some getId →
      (∀ a ∈ forestElems (createForest
          (preserveCollapseState cfg m (cso.getD []))),
        ∀ b ∈ forestElems (createForest
          (preserveCollapseState cfg m (cso.getD []))),
        getId a = getId b → a = b) ∧
      (∀ a ∈ forestElems (createForest
          (preserveCollapseState cfg m (cso.getD []))),
        ∀ b ∈ forestElems m.rootChildren, getId a = getId b →
          b ∈ forestElems (currentChildren cfg m e)))
    (getId : α → String) (hg : cfg.identityProvider = some getId)
    (a b : α)
    (ha : a ∈ forestElems (createForest
      (preserveCollapseState cfg m (cso.getD []))))
    (hb : b ∈ forestElems (currentChildren cfg m e))
    (hk : getId b = getId a) :
    ∃ m' n,
      setChildren cfg m e cso = .ok m' ∧
      (∃ d ∈ forestNodes (currentChildren cfg m e),
        d.element = b ∧ getId d.element = getId a) ∧
      n ∈ forestNodes (createForest
        (preserveCollapseState cfg m (cso.getD []))) ∧
      n.element = a ∧
      mget m'.nodesByIdentity (getId a) = some n ∧
      countKey m'.nodesByIdentity (getId a) = 1 ∧
      mget m'.nodes a = some n ∧
      countKey m'.nodes a = 1 ∧
      (∀ s : SpliceState α, ∀ nn : TreeNode α,
        nn.element ∈ s.insertedElements →
        (onDidDeleteNodeStep cfg s nn).nodes = s.nodes) ∧
      (∀ s : SpliceState α, ∀ nn : TreeNode α,
        getId nn.element ∈ s.insertedElementIds →
        (onDidDeleteNodeStep cfg s nn).nodesByIdentity
          = s.nodesByIdentity) := by
  rcases setChildrenFull_spec cfg m e cso hwf hp hnodupNew hfresh hid with
    ⟨m', loc, hok, hloc, hch, hch', hnd', hout, hget, hfind, hflags, hidget,
      hwf'⟩
  have hsome : (findNodeF (createForest
      (preserveCollapseState cfg m (cso.getD []))) a).isSome :=
    (findNodeF_isSome_iff _ _).mpr ha
  cases hfn : findNodeF (createForest
      (preserveCollapseState cfg m (cso.getD []))) a with
  | none =>
    rw [hfn] at hsome
    simp at hsome
  | some n =>
  rcases findNodeF_spec hfn with ⟨hel, hmemN⟩
  have hbyId : mget m'.nodesByIdentity (getId a) = some n := by
    rw [(hidget getId hg).1 a ha, hfn]
  have hnodesA : mget m'.nodes a = some n := by
    rw [hget a, if_pos ha, hfn]
  refine ⟨m', n, ?_, ?_, hmemN, hel, hbyId, ?_, hnodesA, ?_, ?_, ?_⟩
  · simp [setChildren, hok, Except.map]
  · rcases List.mem_map.mp hb with ⟨d, hd, hde⟩
    exact ⟨d, hd, hde, by rw [hde, hk]⟩
  · rw [countKey_of_nodup _ (hwf'.byIdKeysNodup hg) (getId a), hbyId]
    simp
  · rw [countKey_of_nodup _ hwf'.nodesKeysNodup a, hnodesA]
    simp
  · intro s nn hmem
    simp only [onDidDeleteNodeStep, hg, if_pos hmem]
    split <;> rfl
  · intro s nn hmem
    simp only [onDidDeleteNodeStep, hg]
    split <;> simp [hmem]

theorem setChildren_staging_correctness_witness :
    ∃ m' n,
      setChildren cfgId modelId none (some [candNew]) = .ok m' ∧
      (∃ d ∈ forestNodes (currentChildren cfgId modelId none),
        d.element = 1 ∧ getIdTen d.element = getIdTen 11) ∧
      n ∈ forestNodes (createForest
        (preserveCollapseState cfgId modelId
          ((some [candNew]).getD []))) ∧
      n.element = 11 ∧
      mget m'.nodesByIdentity (getIdTen 11) = some n ∧
      countKey m'.nodesByIdentity (getIdTen 11) = 1 ∧
      mget m'.nodes 11 = some n ∧
      countKey m'.nodes 11 = 1 ∧
      (∀ s : SpliceState Nat, ∀ nn : TreeNode Nat,
        nn.element ∈ s.insertedElements →
        (onDidDeleteNodeStep cfgId s nn).nodes = s.nodes) ∧
      (∀ s : SpliceState Nat, ∀ nn : TreeNode Nat,
        getIdTen nn.element ∈ s.insertedElementIds →
        (onDidDeleteNodeStep cfgId s nn).nodesByIdentity
          = s.nodesByIdentity) := by
  have hlook : lookupNode cfgId modelId candNew.element = some nodeCollapsed := by
    simp [lookupNode, cfgId, modelId, nodeCollapsed, candNew, mget, getIdTen]
  have heval : createForest (preserveCollapseState cfgId modelId
      ((some [candNew]).getD [])) = [TreeNode.mk 11 true true []] := by
    rw [Option.getD_some, preserveCollapseState_eq]
    have hs : sortCandidates cfgId [candNew] = [candNew] := by
      simp [sortCandidates, cfgId]
    rw [hs]
    simp only [List.map_cons, List.map_nil]
    rw [createForest_eq]
    simp only [List.map_cons, List.map_nil]
    have hpe : preserveCollapseStateElem cfgId modelId candNew
        = TreeElement.mk 11 (some true) (some true) [] := by
      unfold preserveCollapseStateElem
      have hl2 : lookupNode cfgId modelId 11 = some nodeCollapsed := hlook
      rw [show candNew.element = 11 from rfl, hl2]
      simp [candNew, nodeCollapsed, preserveCollapseState_eq, sortCandidates,
        cfgId]
    rw [hpe]
    simp [createNode, createForest_eq]
  refine setChildren_staging_correctness cfgId modelId none (some [candNew])
    modelId_wf (Or.inl rfl) ?_ ?_ ?_ getIdTen rfl 11 1 ?_ ?_ rfl
  · rw [heval]
    simp [forestElems, forestNodes]
  · rw [heval]
    intro a ha hlive
    simp [forestElems, forestNodes] at ha
    subst ha
    simp [modelId, nodeCollapsed, forestElems, forestNodes] at hlive
  · intro getId hg
    injection hg with hg
    subst hg
    constructor
    · rw [heval]
      intro a ha b hb _
      simp [forestElems, forestNodes] at ha hb
      rw [ha, hb]
    · rw [heval]
      intro a ha b hb _
      have h1 : forestElems modelId.rootChildren = [1] := by
        simp [modelId, nodeCollapsed, forestElems, forestNodes]
      rw [h1] at hb
      have hcc : currentChildren cfgId modelId none
          = modelId.rootChildren := by
        simp [currentChildren, getElementLocation]
      rw [hcc, h1]
      exact hb
  · rw [heval]
    simp [forestElems, forestNodes]
  · have hcc : currentChildren cfgId modelId none = modelId.rootChildren := by
      simp [currentChildren, getElementLocation]
    rw [hcc]
    simp [modelId, nodeCollapsed, forestElems, forestNodes]

/-- C5: sort stability.  With a sorter configured (total and transitive
comparison), setChildren yields the target-level siblings in
non-decreasing comparator order of their elements, and any two candidates
in comparator order in the input (in particular any two comparing equal)
keep their relative order among the resulting nodes. -/
theorem setChildren_sort_stability (cfg : TreeConfig α)
    (m : ObjectTreeModel α) (e : Option α) (cs : List (TreeElement α))
    (cmp : α → α → Int) (hcmp : cfg.sorter = some cmp)
    (htotal : ∀ a b : α, cmp a b ≤ 0 ∨ cmp b a ≤ 0)
    (htrans : ∀ a b c : α, cmp a b ≤ 0 → cmp b c ≤ 0 → cmp a c ≤ 0)
    (hwf : Wf cfg m)
    (hp : e = none ∨ ∃ a, e = some a ∧ a ∈ forestElems m.rootChildren)
    (hnodupNew : (forestElems (createForest
      (preserveCollapseState cfg m cs))).Nodup)
    (hfresh : ∀ a ∈ forestElems (createForest
        (preserveCollapseState cfg m cs)),
      a ∈ forestElems m.rootChildren →
      a ∈ forestElems (currentChildren cfg m e))
    (hid : ∀ getId, cfg.identityProvider = some getId →
      (∀ a ∈ forestElems (createForest (preserveCollapseState cfg m cs)),
        ∀ b ∈ forestElems (createForest (preserveCollapseState cfg m cs)),
        getId a = getId b → a = b) ∧
      (∀ a ∈ forestElems (createForest (preserveCollapseState cfg m cs)),
        ∀ b ∈ forestElems m.rootChildren, getId a = getId b →
          b ∈ forestElems (currentChildren cfg m e))) :
    ∃ m' loc,
      setChildren cfg m e (some cs) = .ok m' ∧
      getElementLocation cfg m e = .ok loc ∧
      childrenAt m'.rootChildren loc
        = some ((stableSortBy (elemLe cmp) cs).map
            (fun c => createNode (preserveCollapseStateElem cfg m c))) ∧
      (((stableSortBy (elemLe cmp) cs).map
          (fun c => createNode (preserveCollapseStateElem cfg m c))).map
        TreeNode.element).Pairwise (fun x y => cmp x y ≤ 0) ∧
      (∀ c d : TreeElement α, [c, d].Sublist cs →
        cmp c.element d.element ≤ 0 →
        [createNode (preserveCollapseStateElem cfg m c),
         createNode (preserveCollapseStateElem cfg m d)].Sublist
          ((stableSortBy (elemLe cmp) cs).map
            (fun c => createNode (preserveCollapseStateElem cfg m c)))) := by
  have hg : ∀ c : TreeElement α,
      (createNode (preserveCollapseStateElem cfg m c)).element = c.element := by
    intro c
    unfold preserveCollapseStateElem
    cases lookupNode cfg m c.element <;> simp [createNode]
  have hpcse : preserveCollapseState cfg m cs
      = (stableSortBy (elemLe cmp) cs).map
          (preserveCollapseStateElem cfg m) := by
    rw [preserveCollapseState_eq]
    simp [sortCandidates, hcmp]
  have hcf : createForest (preserveCollapseState cfg m cs)
      = (stableSortBy (elemLe cmp) cs).map
          (fun c => createNode (preserveCollapseStateElem cfg m c)) := by
    rw [hpcse, createForest_eq, List.map_map]
    rfl
  rcases setChildrenFull_spec cfg m e (some cs) hwf hp hnodupNew hfresh hid
    with ⟨m', loc, hok, hloc, _, hch', _, _, _, _, _, _, _⟩
  refine ⟨m', loc, ?_, hloc, ?_, ?_, ?_⟩
  · simp [setChildren, hok, Except.map]
  · rw [← hcf]
    exact hch'
  · have hpw : (stableSortBy (elemLe cmp) cs).Pairwise
        (fun x y => elemLe cmp x y = true) := by
      refine pairwise_stableSortBy _ ?_ ?_ cs
      · intro a b
        simpa [elemLe] using htotal a.element b.element
      · intro a b c hab hbc
        simp only [elemLe, decide_eq_true_eq] at hab hbc ⊢
        exact htrans _ _ _ hab hbc
    rw [List.map_map]
    have hcomp : ∀ c ∈ stableSortBy (elemLe cmp) cs,
        (TreeNode.element ∘ fun c =>
          createNode (preserveCollapseStateElem cfg m c)) c = c.element := by
      intro c _
      exact hg c
    rw [List.map_congr_left hcomp]
    refine List.Pairwise.map TreeElement.element ?_ hpw
    intro a b hab
    simpa [elemLe] using hab
  · intro c d hsub hle
    have hsub' : [c, d].Sublist (stableSortBy (elemLe cmp) cs) :=
      stableSortBy_stable_pair _ hsub (by simpa [elemLe] using hle)
    have := hsub'.map
      (fun c => createNode (preserveCollapseStateElem cfg m c))
    simpa using this

def cmpInt (a b : Nat) : Int := (a : Int) - b

def cfgSort : TreeConfig Nat := ⟨"test", none, some cmpInt⟩

def modelEmpty : ObjectTreeModel Nat := ⟨[], [], []⟩

theorem modelEmpty_wf : Wf cfgSort modelEmpty := by
  refine ⟨?_, ?_, ?_, ?_⟩
  · simp [modelEmpty, forestElems, forestNodes]
  · simp [modelEmpty, forestElems, forestNodes, keysNodup]
  · intro p hp
    simp [modelEmpty] at hp
  · simp [cfgSort, modelEmpty]

theorem setChildren_sort_stability_witness :
    ∃ m' loc,
      setChildren cfgSort modelEmpty none
        (some [TreeElement.mk 2 none none [], TreeElement.mk 1 none none []])
        = .ok m' ∧
      getElementLocation cfgSort modelEmpty none = .ok loc ∧
      childrenAt m'.rootChildren loc
        = some ((stableSortBy (elemLe cmpInt)
            [TreeElement.mk 2 none none [], TreeElement.mk 1 none none []]).map
            (fun c =>
              createNode (preserveCollapseStateElem cfgSort modelEmpty c))) ∧
      (((stableSortBy (elemLe cmpInt)
          [TreeElement.mk 2 none none [], TreeElement.mk 1 none none []]).map
          (fun c =>
            createNode (preserveCollapseStateElem cfgSort modelEmpty c))).map
        TreeNode.element).Pairwise (fun x y => cmpInt x y ≤ 0) ∧
      (∀ c d : TreeElement Nat,
        [c, d].Sublist
          [TreeElement.mk 2 none none [], TreeElement.mk 1 none none []] →
        cmpInt c.element d.element ≤ 0 →
        [createNode (preserveCollapseStateElem cfgSort modelEmpty c),
         createNode (preserveCollapseStateElem cfgSort modelEmpty d)].Sublist
          ((stableSortBy (elemLe cmpInt)
            [TreeElement.mk 2 none none [], TreeElement.mk 1 none none []]).map
            (fun c =>
              createNode (preserveCollapseStateElem cfgSort modelEmpty c)))) := by
  have hsort : stableSortBy (elemLe cmpInt)
      [TreeElement.mk 2 none none [], TreeElement.mk 1 none none []]
      = [TreeElement.mk 1 none none [], TreeElement.mk 2 none none []] := by
    rfl
  have hpcse1 : preserveCollapseStateElem cfgSort modelEmpty
      (TreeElement.mk 1 none none []) = TreeElement.mk 1 none none [] := by
    unfold preserveCollapseStateElem
    have hl : lookupNode cfgSort modelEmpty
        (TreeElement.mk 1 none none []).element = none := by
      simp [lookupNode, cfgSort, modelEmpty, mget]
    rw [hl]
    simp [preserveCollapseState_nil]
  have hpcse2 : preserveCollapseStateElem cfgSort modelEmpty
      (TreeElement.mk 2 none none []) = TreeElement.mk 2 none none [] := by
    unfold preserveCollapseStateElem
    have hl : lookupNode cfgSort modelEmpty
        (TreeElement.mk 2 none none []).element = none := by
      simp [lookupNode, cfgSort, modelEmpty, mget]
    rw [hl]
    simp [preserveCollapseState_nil]
  have heval : createForest (preserveCollapseState cfgSort modelEmpty
      [TreeElement.mk 2 none none [], TreeElement.mk 1 none none []])
      = [TreeNode.mk 1 false false [], TreeNode.mk 2 false false []] := by
    rw [preserveCollapseState_eq]
    have hs : sortCandidates cfgSort
        [TreeElement.mk 2 none none [], TreeElement.mk 1 none none []]
        = [TreeElement.mk 1 none none [], TreeElement.mk 2 none none []] := by
      rw [show sortCandidates cfgSort
          [TreeElement.mk 2 none none [], TreeElement.mk 1 none none []]
          = stableSortBy (elemLe cmpInt)
            [TreeElement.mk 2 none none [], TreeElement.mk 1 none none []]
        from rfl, hsort]
    rw [hs]
    simp only [List.map_cons, List.map_nil, hpcse1, hpcse2]
    rw [createForest_eq]
    simp only [List.map_cons, List.map_nil]
    have hcf0 : createForest ([] : List (TreeElement Nat)) = [] := by
      rw [createForest_eq]; rfl
    simp [createNode, hcf0]
  refine setChildren_sort_stability cfgSort modelEmpty none
    [TreeElement.mk 2 none none [], TreeElement.mk 1 none none []]
    cmpInt rfl ?_ ?_ modelEmpty_wf (Or.inl rfl) ?_ ?_ ?_
  · intro a b
    unfold cmpInt
    omega
  · intro a b c hab hbc
    unfold cmpInt at hab hbc ⊢
    omega
  · rw [heval]
    simp [forestElems, forestNodes]
  · rw [heval]
    intro a ha hlive
    simp [modelEmpty, forestElems, forestNodes] at hlive
  · intro getId hg
    exact absurd hg (by simp [cfgSort])

theorem forestNodes_eq_flatMap (ts : List (TreeNode α)) :
    forestNodes ts = ts.flatMap (fun t => t :: forestNodes t.children) := by
  induction ts with
  | nil => simp [forestNodes]
  | cons t ts ih =>
    rw [forestNodes_cons, List.flatMap_cons, ih]
    simp

theorem forestNodes_perm_of_perm {ts ts' : List (TreeNode α)}
    (h : ts.Perm ts') : (forestNodes ts).Perm (forestNodes ts') := by
  rw [forestNodes_eq_flatMap, forestNodes_eq_flatMap]
  exact h.flatMap_right _

theorem forestElems_perm_of_perm {ts ts' : List (TreeNode α)}
    (h : ts.Perm ts') : (forestElems ts).Perm (forestElems ts') :=
  (forestNodes_perm_of_perm h).map _

/-- Re-sorting non-recursively and re-creating the forest round-trips:
every node of the child list is rebuilt bit-for-bit (its whole subtree
passed through), only the outermost order changes when first is set. -/
theorem createForest_resortForest_false (cmp : α → α → Int) :
    ∀ k (ns : List (TreeNode α)), sizeOf ns < k → ∀ first,
      createForest (resortForest cmp ns false first)
        = if first then stableSortBy (nodeLe cmp) ns else ns := by
  intro k
  induction k with
  | zero =>
    intro ns h
    omega
  | succ k ih =>
    intro ns hk first
    rw [resortForest_eq, createForest_eq, List.map_map]
    have hor : (false || first) = first := by simp
    rw [hor]
    have hmemL : ∀ n ∈ (if first then stableSortBy (nodeLe cmp) ns else ns),
        n ∈ ns := by
      intro n hn
      split at hn
      · exact mem_stableSortBy hn
      · exact hn
    have hpt : ∀ n ∈ (if first then stableSortBy (nodeLe cmp) ns else ns),
        (createNode ∘ resortNode cmp false) n = n := by
      intro n hn
      have hmem := hmemL n hn
      have hsub : sizeOf n.children < k := by
        have h1 : sizeOf n < sizeOf ns := List.sizeOf_lt_of_mem hmem
        have h2 : sizeOf n.children < sizeOf n := sizeOf_children_lt_node n
        omega
      have hch := ih n.children hsub false
      rw [if_neg (by simp)] at hch
      cases n with
      | mk e c d cs =>
        simp only [TreeNode.children_mk] at hch
        simp [Function.comp, resortNode, createNode, hch]
    rw [List.map_congr_left hpt]
    simp

/-- C6: resort non-recursive.  With a sorter configured and a present (or
root) target, resort with recursive = false succeeds and replaces the
target's immediate child list by its stable sort under the comparator:
the new list is a permutation of the old one whose members are the old
child nodes unchanged, entire subtrees included, so the order of every
deeper level (grandchildren and below) is untouched. -/
theorem resort_nonrecursive_frame (cfg : TreeConfig α)
    (m : ObjectTreeModel α) (e : Option α) (cmp : α → α → Int)
    (hcmp : cfg.sorter = some cmp) (hwf : Wf cfg m)
    (hp : e = none ∨ ∃ a, e = some a ∧ a ∈ forestElems m.rootChildren) :
    ∃ m' loc,
      resort cfg m e false = .ok m' ∧
      getElementLocation cfg m e = .ok loc ∧
      childrenAt m.rootChildren loc = some (currentChildren cfg m e) ∧
      childrenAt m'.rootChildren loc
        = some (stableSortBy (nodeLe cmp) (currentChildren cfg m e)) ∧
      (stableSortBy (nodeLe cmp) (currentChildren cfg m e)).Perm
        (currentChildren cfg m e) ∧
      (∀ n ∈ stableSortBy (nodeLe cmp) (currentChildren cfg m e),
        n ∈ currentChildren cfg m e) ∧
      Wf cfg m' := by
  rcases currentChildren_resolves hwf hp with ⟨loc, hloc, hch⟩
  have hrepIsSome := replaceChildrenAt_isSome m.rootChildren loc
    (currentChildren cfg m e) [] hch
  cases hrep : replaceChildrenAt m.rootChildren loc [] with
  | none =>
    rw [hrep] at hrepIsSome
    simp at hrepIsSome
  | some r =>
  rcases replaceChildrenAt_spec m.rootChildren loc [] r hrep with
    ⟨old₀, out, hold₀, _, hpermOld, _, _, _⟩
  rw [hch] at hold₀
  injection hold₀ with hold₀
  subst hold₀
  have hndOldOut : (forestElems (currentChildren cfg m e) ++ out).Nodup :=
    hpermOld.nodup_iff.mp hwf.elemsNodup
  have hndOld : (forestElems (currentChildren cfg m e)).Nodup :=
    (List.nodup_append.mp hndOldOut).1
  have hsubOld : ∀ a ∈ forestElems (currentChildren cfg m e),
      a ∈ forestElems m.rootChildren := fun a ha =>
    hpermOld.symm.subset (List.mem_append_left _ ha)
  have hcf : createForest (resortForest cmp (currentChildren cfg m e)
        false true)
      = stableSortBy (nodeLe cmp) (currentChildren cfg m e) := by
    have := createForest_resortForest_false cmp
      (sizeOf (currentChildren cfg m e) + 1) (currentChildren cfg m e)
      (by omega) true
    simpa using this
  have hpermE : (forestElems (stableSortBy (nodeLe cmp)
        (currentChildren cfg m e))).Perm
      (forestElems (currentChildren cfg m e)) :=
    forestElems_perm_of_perm (stableSortBy_perm _ _)
  rcases setChildrenInternal_spec cfg m loc
      (resortForest cmp (currentChildren cfg m e) false true)
      (currentChildren cfg m e) hwf hch
      (by rw [hcf]; exact hpermE.nodup_iff.mpr hndOld)
      (by intro a ha _; rw [hcf] at ha; exact hpermE.subset ha)
      (by
        intro getId hg
        have hinj := (hwf.idOk hg).2.1
        constructor
        · intro a ha b hb hab
          rw [hcf] at ha hb
          exact hinj a (hsubOld a (hpermE.subset ha))
            b (hsubOld b (hpermE.subset hb)) hab
        · intro a ha b hb hab
          rw [hcf] at ha
          have ha' := hpermE.subset ha
          have : a = b := hinj a (hsubOld a ha') b hb hab
          rw [← this]
          exact ha') with
    ⟨m', hint, _, hch', _, _, _, _, _, _, hwf'⟩
  refine ⟨m', loc, ?_, hloc, hch, ?_, stableSortBy_perm _ _,
    fun n hn => mem_stableSortBy hn, hwf'⟩
  · simp [resort, hcmp, hloc, hch, hint]
  · rw [hcf] at hch'
    exact hch'

def nodeS1 : TreeNode Nat := .mk 1 false false []

def nodeS2 : TreeNode Nat := .mk 2 false false []

def modelSort : ObjectTreeModel Nat :=
  ⟨[nodeS2, nodeS1], [(2, nodeS2), (1, nodeS1)], []⟩

theorem modelSort_wf : Wf cfgSort modelSort := by
  refine ⟨?_, ?_, ?_, ?_⟩
  · simp [modelSort, nodeS1, nodeS2, forestElems, forestNodes]
  · have h1 : forestElems modelSort.rootChildren = [2, 1] := by
      simp [modelSort, nodeS1, nodeS2, forestElems, forestNodes]
    rw [h1]
    have h2 : modelSort.nodes.map Prod.fst = [2, 1] := by simp [modelSort]
    rw [h2]
  · intro p hp
    simp only [modelSort, List.mem_cons, List.mem_singleton,
      List.not_mem_nil, or_false] at hp
    rcases hp with rfl | rfl
    · refine ⟨by simp [nodeS2], ?_⟩
      simp [agreesAt, findNodeF, modelSort, nodeS1, nodeS2]
    · refine ⟨by simp [nodeS1], ?_⟩
      simp [agreesAt, findNodeF, modelSort, nodeS1, nodeS2]
  · simp [cfgSort, modelSort]

theorem resort_nonrecursive_frame_witness :
    ∃ m' loc,
      resort cfgSort modelSort none false = .ok m' ∧
      getElementLocation cfgSort modelSort none = .ok loc ∧
      childrenAt modelSort.rootChildren loc
        = some (currentChildren cfgSort modelSort none) ∧
      childrenAt m'.rootChildren loc
        = some (stableSortBy (nodeLe cmpInt)
            (currentChildren cfgSort modelSort none)) ∧
      (stableSortBy (nodeLe cmpInt)
        (currentChildren cfgSort modelSort none)).Perm
        (currentChildren cfgSort modelSort none) ∧
      (∀ n ∈ stableSortBy (nodeLe cmpInt)
          (currentChildren cfgSort modelSort none),
        n ∈ currentChildren cfgSort modelSort none) ∧
      Wf cfgSort m' :=
  resort_nonrecursive_frame cfgSort modelSort none cmpInt rfl modelSort_wf
    (Or.inl rfl)

/-- The current node tree re-read as bare candidate descriptions: no
collapse overrides, children recursively converted.  This is the input a
caller would hand setChildren to re-feed the current tree. -/
def toElementForest (ns : List (TreeNode α)) : List (TreeElement α) :=
  ns.attach.map fun n =>
    .mk n.1.element none none (toElementForest n.1.children)
termination_by sizeOf ns
decreasing_by
  all_goals
    have h1 : sizeOf n.1 < sizeOf ns := List.sizeOf_lt_of_mem n.2
    have h2 : sizeOf n.1.children < sizeOf n.1 := sizeOf_children_lt_node n.1
    omega

def toElementNode (n : TreeNode α) : TreeElement α :=
  .mk n.element none none (toElementForest n.children)

theorem toElementForest_eq (ns : List (TreeNode α)) :
    toElementForest ns = ns.map toElementNode := by
  rw [toElementForest]
  rw [← List.attach_map_coe ns toElementNode]
  apply List.map_congr_left
  intro n hn
  rfl

theorem resortForest_true_first (cmp : α → α → Int) (ns : List (TreeNode α))
    (first : Bool) :
    resortForest cmp ns true first = resortForest cmp ns true true := by
  rw [resortForest_eq, resortForest_eq]
  simp

theorem forestNodes_childrenAt_subset :
    ∀ (ts : List (TreeNode α)) (loc : List Nat) (cs : List (TreeNode α)),
      childrenAt ts loc = some cs → ∀ n ∈ forestNodes cs, n ∈ forestNodes ts
  | ts, [], cs => by
    intro h n hn
    rw [childrenAt_nil_path] at h
    injection h with h
    subst h
    exact hn
  | [], i :: rest, cs => by
    intro h
    simp at h
  | .mk e c d cs₀ :: ts, 0 :: rest, cs => by
    intro h n hn
    rw [childrenAt_cons_zero, TreeNode.children_mk] at h
    have := forestNodes_childrenAt_subset cs₀ rest cs h n hn
    rw [forestNodes_cons]
    exact List.mem_cons_of_mem _
      (List.mem_append_left _ (by simpa using this))
  | t :: ts, (i + 1) :: rest, cs => by
    intro h n hn
    rw [childrenAt_cons_succ] at h
    have := forestNodes_childrenAt_subset ts (i :: rest) cs h n hn
    rw [forestNodes_cons]
    exact List.mem_cons_of_mem _ (List.mem_append_right _ this)

/-- The reconciliation path of setChildren applied to the re-read current
tree coincides with resortChildren with recursive = true: every node
matches itself in the index, so the preserved flags are its own, and
every level gets the same stable sort. -/
theorem preserveCollapseState_toElementForest (cfg : TreeConfig α)
    (m : ObjectTreeModel α) (cmp : α → α → Int)
    (hcmp : cfg.sorter = some cmp) :
    ∀ k (ns : List (TreeNode α)), sizeOf ns < k →
      (∀ n ∈ forestNodes ns, ∃ n', lookupNode cfg m n.element = some n' ∧
        n'.collapsible = n.collapsible ∧ n'.collapsed = n.collapsed) →
      preserveCollapseState cfg m (toElementForest ns)
        = resortForest cmp ns true true := by
  intro k
  induction k with
  | zero =>
    intro ns h
    omega
  | succ k ih =>
    intro ns hk H
    rw [preserveCollapseState_eq, toElementForest_eq, resortForest_eq]
    have hfun : (fun x y : TreeNode α =>
        elemLe cmp (toElementNode x) (toElementNode y)) = nodeLe cmp := rfl
    have hsc : sortCandidates cfg (ns.map toElementNode)
        = (stableSortBy (nodeLe cmp) ns).map toElementNode := by
      simp only [sortCandidates, hcmp]
      rw [← stableSortBy_map (elemLe cmp) toElementNode ns, hfun]
    rw [hsc]
    have hor : (true || true) = true := rfl
    rw [hor, if_pos rfl, List.map_map]
    apply List.map_congr_left
    intro n hn
    have hmem : n ∈ ns := mem_stableSortBy hn
    have hmemF : n ∈ forestNodes ns := mem_forestNodes_of_mem hmem
    rcases H n hmemF with ⟨n', hl, hc, hd⟩
    have hsub : sizeOf n.children < k := by
      have h1 : sizeOf n < sizeOf ns := List.sizeOf_lt_of_mem hmem
      have h2 : sizeOf n.children < sizeOf n := sizeOf_children_lt_node n
      omega
    have Hc : ∀ nc ∈ forestNodes n.children, ∃ n'',
        lookupNode cfg m nc.element = some n'' ∧
        n''.collapsible = nc.collapsible ∧ n''.collapsed = nc.collapsed := by
      intro nc hnc
      exact H nc (forestNodes_children_subset hmem nc hnc)
    have hchEq := ih n.children hsub Hc
    simp only [Function.comp]
    rw [show toElementNode n
      = TreeElement.mk n.element none none (toElementForest n.children)
      from rfl]
    unfold preserveCollapseStateElem
    simp only [TreeElement.mk_element]
    rw [hl]
    simp only [TreeElement.mk_collapsible, TreeElement.mk_collapsed,
      TreeElement.mk_children, Option.getD_none]
    rw [hchEq, hc, hd]
    unfold resortNode
    rw [resortForest_true_first cmp n.children false]

/-- C7 (amended): with a sorter configured and a present (or root)
target, resort with recursive = true produces exactly the state
setChildren produces when fed the re-read current node tree: the
reconciliation path preserves each node's own collapse state because
every node matches itself in the element index.  (With recursive = false
the routes differ: the re-feed sorts every level, resort only the
outermost — see the counterexample.) -/
theorem resort_recursive_refeed (cfg : TreeConfig α)
    (m : ObjectTreeModel α) (e : Option α) (cmp : α → α → Int)
    (hcmp : cfg.sorter = some cmp) (hwf : Wf cfg m)
    (hp : e = none ∨ ∃ a, e = some a ∧ a ∈ forestElems m.rootChildren) :
    resort cfg m e true
      = setChildren cfg m e
          (some (toElementForest (currentChildren cfg m e))) := by
  rcases currentChildren_resolves hwf hp with ⟨loc, hloc, hch⟩
  have hsubN : ∀ n ∈ forestNodes (currentChildren cfg m e),
      n ∈ forestNodes m.rootChildren :=
    forestNodes_childrenAt_subset m.rootChildren loc
      (currentChildren cfg m e) hch
  have H : ∀ n ∈ forestNodes (currentChildren cfg m e), ∃ n',
      lookupNode cfg m n.element = some n' ∧
      n'.collapsible = n.collapsible ∧ n'.collapsed = n.collapsed := by
    intro n hn
    have hroot := hsubN n hn
    have hel : n.element ∈ forestElems m.rootChildren :=
      mem_forestNodes_element hroot
    have hsome : (mget m.nodes n.element).isSome :=
      (hwf.mget_isSome_iff _).mpr hel
    cases hmg : mget m.nodes n.element with
    | none =>
      rw [hmg] at hsome
      simp at hsome
    | some n'' =>
      have hagree := (hwf.mget_spec hmg).2
      unfold agreesAt at hagree
      rw [findNodeF_eq_of_mem hwf.elemsNodup hroot] at hagree
      exact ⟨n'', by simp [lookupNode, hmg], hagree.2.1.symm,
        hagree.2.2.symm⟩
  have hkey := preserveCollapseState_toElementForest cfg m cmp hcmp
    (sizeOf (currentChildren cfg m e) + 1) (currentChildren cfg m e)
    (by omega) H
  simp only [resort, hcmp, setChildren, setChildrenFull, hloc, hch,
    Option.getD_some, hkey]
  cases setChildrenInternal cfg m loc
      (resortForest cmp (currentChildren cfg m e) true true) <;>
    simp [Except.map]

theorem resort_recursive_refeed_witness :
    resort cfgSort modelSort none true
      = setChildren cfgSort modelSort none
          (some (toElementForest (currentChildren cfgSort modelSort none))) :=
  resort_recursive_refeed cfgSort modelSort none cmpInt rfl modelSort_wf
    (Or.inl rfl)

def nodeD2 : TreeNode Nat := .mk 2 false false []

def nodeD3 : TreeNode Nat := .mk 3 false false []

def nodeD1 : TreeNode Nat := .mk 1 true false [nodeD3, nodeD2]

def modelDeep : ObjectTreeModel Nat :=
  ⟨[nodeD1], [(1, nodeD1), (3, nodeD3), (2, nodeD2)], []⟩

/-- With recursive = false the two routes differ on a two-level tree:
resort keeps the grandchildren order [3, 2] (only the outermost level is
sorted), while re-feeding the current tree through setChildren's
reconciliation sorts every level and yields [2, 3]. -/
theorem resort_nonrecursive_not_refeed :
    ∃ m₁ m₂ : ObjectTreeModel Nat,
      resort cfgSort modelDeep none false = .ok m₁ ∧
      setChildren cfgSort modelDeep none
        (some (toElementForest (currentChildren cfgSort modelDeep none)))
        = .ok m₂ ∧
      m₁.rootChildren = [TreeNode.mk 1 true false
        [TreeNode.mk 3 false false [], TreeNode.mk 2 false false []]] ∧
      m₂.rootChildren = [TreeNode.mk 1 true false
        [TreeNode.mk 2 false false [], TreeNode.mk 3 false false []]] ∧
      m₁.rootChildren ≠ m₂.rootChildren := by
  have hcf0 : createForest ([] : List (TreeElement Nat)) = [] := by
    rw [createForest_eq]
    rfl
  have hrf0 : resortForest cmpInt ([] : List (TreeNode Nat)) false false
      = [] := by
    rw [resortForest_eq]
    simp
  have hrf23 : resortForest cmpInt [nodeD3, nodeD2] false false
      = [TreeElement.mk 3 (some false) (some false) [],
         TreeElement.mk 2 (some false) (some false) []] := by
    rw [resortForest_eq]
    rw [if_neg (by simp)]
    simp only [List.map_cons, List.map_nil]
    rw [show resortNode cmpInt false nodeD3
        = TreeElement.mk 3 (some false) (some false)
            (resortForest cmpInt [] false false) from rfl,
      show resortNode cmpInt false nodeD2
        = TreeElement.mk 2 (some false) (some false)
            (resortForest cmpInt [] false false) from rfl,
      hrf0]
  have hrf1 : resortForest cmpInt [nodeD1] false true
      = [TreeElement.mk 1 (some true) (some false)
          [TreeElement.mk 3 (some false) (some false) [],
           TreeElement.mk 2 (some false) (some false) []]] := by
    rw [resortForest_eq]
    rw [show (if (false || true : Bool) then stableSortBy (nodeLe cmpInt)
        [nodeD1] else [nodeD1]) = [nodeD1] from rfl]
    simp only [List.map_cons, List.map_nil]
    rw [show resortNode cmpInt false nodeD1
        = TreeElement.mk 1 (some true) (some false)
            (resortForest cmpInt [nodeD3, nodeD2] false false) from rfl,
      hrf23]
  have hR1 : createForest (resortForest cmpInt modelDeep.rootChildren
        false true)
      = [TreeNode.mk 1 true false
          [TreeNode.mk 3 false false [], TreeNode.mk 2 false false []]] := by
    rw [show modelDeep.rootChildren = [nodeD1] from rfl, hrf1,
      createForest_eq]
    simp only [List.map_cons, List.map_nil]
    rw [show createNode (TreeElement.mk 1 (some true) (some false)
        [TreeElement.mk 3 (some false) (some false) [],
         TreeElement.mk 2 (some false) (some false) []])
      = TreeNode.mk 1 true false (createForest
          [TreeElement.mk 3 (some false) (some false) [],
           TreeElement.mk 2 (some false) (some false) []]) from rfl,
      createForest_eq]
    simp only [List.map_cons, List.map_nil]
    rw [show createNode (TreeElement.mk 3 (some false) (some false)
        ([] : List (TreeElement Nat)))
      = TreeNode.mk 3 false false (createForest
          ([] : List (TreeElement Nat))) from rfl,
      show createNode (TreeElement.mk 2 (some false) (some false)
        ([] : List (TreeElement Nat)))
      = TreeNode.mk 2 false false (createForest
          ([] : List (TreeElement Nat))) from rfl,
      hcf0]
  have hcc : currentChildren cfgSort modelDeep none
      = modelDeep.rootChildren := by
    simp [currentChildren, getElementLocation]
  have htf : toElementForest (currentChildren cfgSort modelDeep none)
      = [TreeElement.mk 1 none none
          [TreeElement.mk 3 none none [], TreeElement.mk 2 none none []]] := by
    rw [hcc, show modelDeep.rootChildren = [nodeD1] from rfl]
    simp [toElementForest_eq, toElementNode, nodeD1, nodeD2, nodeD3]
  have h2e : preserveCollapseStateElem cfgSort modelDeep
      (TreeElement.mk 2 none none [])
      = TreeElement.mk 2 (some false) (some false) [] := by
    unfold preserveCollapseStateElem
    rw [show lookupNode cfgSort modelDeep
        (TreeElement.mk 2 none none ([] : List (TreeElement Nat))).element
      = some nodeD2 from rfl]
    simp [nodeD2, preserveCollapseState_nil]
  have h3e : preserveCollapseStateElem cfgSort modelDeep
      (TreeElement.mk 3 none none [])
      = TreeElement.mk 3 (some false) (some false) [] := by
    unfold preserveCollapseStateElem
    rw [show lookupNode cfgSort modelDeep
        (TreeElement.mk 3 none none ([] : List (TreeElement Nat))).element
      = some nodeD3 from rfl]
    simp [nodeD3, preserveCollapseState_nil]
  have hin : preserveCollapseState cfgSort modelDeep
      [TreeElement.mk 3 none none [], TreeElement.mk 2 none none []]
      = [TreeElement.mk 2 (some false) (some false) [],
         TreeElement.mk 3 (some false) (some false) []] := by
    rw [preserveCollapseState_eq]
    rw [show sortCandidates cfgSort
        [TreeElement.mk 3 none none [], TreeElement.mk 2 none none []]
      = [TreeElement.mk 2 none none [], TreeElement.mk 3 none none []]
      from rfl]
    simp only [List.map_cons, List.map_nil]
    rw [h2e, h3e]
  have h1e : preserveCollapseStateElem cfgSort modelDeep
      (TreeElement.mk 1 none none
        [TreeElement.mk 3 none none [], TreeElement.mk 2 none none []])
      = TreeElement.mk 1 (some true) (some false)
          [TreeElement.mk 2 (some false) (some false) [],
           TreeElement.mk 3 (some false) (some false) []] := by
    unfold preserveCollapseStateElem
    rw [show lookupNode cfgSort modelDeep
        (TreeElement.mk 1 none none
          [TreeElement.mk 3 none none [],
           TreeElement.mk 2 none none []]).element = some nodeD1 from rfl]
    simp only [TreeElement.mk_collapsible, TreeElement.mk_collapsed,
      TreeElement.mk_children, TreeElement.mk_element, Option.getD_none]
    rw [hin]
    simp [nodeD1]
  have hpcs : preserveCollapseState cfgSort modelDeep
      (toElementForest (currentChildren cfgSort modelDeep none))
      = [TreeElement.mk 1 (some true) (some false)
          [TreeElement.mk 2 (some false) (some false) [],
           TreeElement.mk 3 (some false) (some false) []]] := by
    rw [htf, preserveCollapseState_eq]
    rw [show sortCandidates cfgSort
        [TreeElement.mk 1 none none
          [TreeElement.mk 3 none none [], TreeElement.mk 2 none none []]]
      = [TreeElement.mk 1 none none
          [TreeElement.mk 3 none none [], TreeElement.mk 2 none none []]]
      from rfl]
    simp only [List.map_cons, List.map_nil]
    rw [h1e]
  have hR2 : createForest (preserveCollapseState cfgSort modelDeep
        (toElementForest (currentChildren cfgSort modelDeep none)))
      = [TreeNode.mk 1 true false
          [TreeNode.mk 2 false false [], TreeNode.mk 3 false false []]] := by
    rw [hpcs, createForest_eq]
    simp only [List.map_cons, List.map_nil]
    rw [show createNode (TreeElement.mk 1 (some true) (some false)
        [TreeElement.mk 2 (some false) (some false) [],
         TreeElement.mk 3 (some false) (some false) []])
      = TreeNode.mk 1 true false (createForest
          [TreeElement.mk 2 (some false) (some false) [],
           TreeElement.mk 3 (some false) (some false) []]) from rfl,
      createForest_eq]
    simp only [List.map_cons, List.map_nil]
    rw [show createNode (TreeElement.mk 2 (some false) (some false)
        ([] : List (TreeElement Nat)))
      = TreeNode.mk 2 false false (createForest
          ([] : List (TreeElement Nat))) from rfl,
      show createNode (TreeElement.mk 3 (some false) (some false)
        ([] : List (TreeElement Nat)))
      = TreeNode.mk 3 false false (createForest
          ([] : List (TreeElement Nat))) from rfl,
      hcf0]
  have hold1 : childrenAt modelDeep.rootChildren []
      = some modelDeep.rootChildren := childrenAt_nil_path _
  have hint1 := setChildrenInternal_eq cfgSort modelDeep []
    (resortForest cmpInt modelDeep.rootChildren false true)
    modelDeep.rootChildren
    (createForest (resortForest cmpInt modelDeep.rootChildren false true))
    hold1 (by simp)
  have hint2 := setChildrenInternal_eq cfgSort modelDeep []
    (preserveCollapseState cfgSort modelDeep
      (toElementForest (currentChildren cfgSort modelDeep none)))
    modelDeep.rootChildren
    (createForest (preserveCollapseState cfgSort modelDeep
      (toElementForest (currentChildren cfgSort modelDeep none))))
    hold1 (by simp)
  refine ⟨⟨createForest (resortForest cmpInt modelDeep.rootChildren
        false true),
      (forestNodes (createForest (resortForest cmpInt
          modelDeep.rootChildren false true))).foldl
        (fun acc n => mset acc n.element n)
        (((forestNodes modelDeep.rootChildren).map TreeNode.element).foldl
          mdel modelDeep.nodes),
      modelDeep.nodesByIdentity⟩,
    ⟨createForest (preserveCollapseState cfgSort modelDeep
        (toElementForest (currentChildren cfgSort modelDeep none))),
      (forestNodes (createForest (preserveCollapseState cfgSort modelDeep
          (toElementForest (currentChildren cfgSort modelDeep
            none))))).foldl
        (fun acc n => mset acc n.element n)
        (((forestNodes modelDeep.rootChildren).map TreeNode.element).foldl
          mdel modelDeep.nodes),
      modelDeep.nodesByIdentity⟩, ?_, ?_, ?_, ?_, ?_⟩
  · simp [resort, show cfgSort.sorter = some cmpInt from rfl,
      getElementLocation, hint1,
      show cfgSort.identityProvider = (none : Option (Nat → String))
        from rfl]
  · simp [setChildren, setChildrenFull, getElementLocation, hint2,
      Except.map,
      show cfgSort.identityProvider = (none : Option (Nat → String))
        from rfl]
  · exact hR1
  · exact hR2
  · show createForest (resortForest cmpInt modelDeep.rootChildren
        false true)
      ≠ createForest (preserveCollapseState cfgSort modelDeep
          (toElementForest (currentChildren cfgSort modelDeep none)))
    rw [hR1, hR2]
    intro h
    simp at h

/-- C4 (amended): after a setChildren call meeting the spec's caller
preconditions — elements unique in the tree and, with an identity
provider, identity keys unique among the inserted elements and clashing
with live elements only inside the replaced subtrees — every node
reachable from the resulting structure has exactly one element-index
entry, which carries its element and collapse flags; with an identity
provider it likewise has exactly one identity-index entry; and size
equals the number of live elements.  (Sibling-level identity uniqueness
alone, as section 6 requires, does not suffice: see the
counterexample.) -/
theorem setChildren_index_invariant (cfg : TreeConfig α)
    (m : ObjectTreeModel α) (e : Option α)
    (cso : Option (List (TreeElement α))) (hwf : Wf cfg m)
    (hp : e = none ∨ ∃ a, e = some a ∧ a ∈ forestElems m.rootChildren)
    (hnodupNew : (forestElems (createForest
      (preserveCollapseState cfg m (cso.getD [])))).Nodup)
    (hfresh : ∀ a ∈ forestElems (createForest
        (preserveCollapseState cfg m (cso.getD []))),
      a ∈ forestElems m.rootChildren →
      a ∈ forestElems (currentChildren cfg m e))
    (hid : ∀ getId, cfg.identityProvider = some getId →
      (∀ a ∈ forestElems (createForest
          (preserveCollapseState cfg m (cso.getD []))),
        ∀ b ∈ forestElems (createForest
          (preserveCollapseState cfg m (cso.getD []))),
        getId a = getId b → a = b) ∧
      (∀ a ∈ forestElems (createForest
          (preserveCollapseState cfg m (cso.getD []))),
        ∀ b ∈ forestElems m.rootChildren, getId a = getId b →
          b ∈ forestElems (currentChildren cfg m e))) :
    ∃ m', setChildren cfg m e cso = .ok m' ∧
      (∀ n ∈ forestNodes m'.rootChildren,
        countKey m'.nodes n.element = 1 ∧
        ∃ nd, mget m'.nodes n.element = some nd ∧ nd.element = n.element ∧
          nd.collapsible = n.collapsible ∧ nd.collapsed = n.collapsed) ∧
      (∀ getId, cfg.identityProvider = some getId →
        ∀ n ∈ forestNodes m'.rootChildren,
          countKey m'.nodesByIdentity (getId n.element) = 1 ∧
          ∃ nd, mget m'.nodesByIdentity (getId n.element) = some nd ∧
            nd.element = n.element ∧ nd.collapsible = n.collapsible ∧
            nd.collapsed = n.collapsed) ∧
      size m' = (forestElems m'.rootChildren).length := by
  rcases setChildrenFull_spec cfg m e cso hwf hp hnodupNew hfresh hid with
    ⟨m', loc, hok, _, _, _, _, _, _, _, _, _, hwf'⟩
  refine ⟨m', by simp [setChildren, hok, Except.map], ?_, ?_, ?_⟩
  · intro n hn
    have hel : n.element ∈ forestElems m'.rootChildren :=
      mem_forestNodes_element hn
    have hsome := (hwf'.mget_isSome_iff n.element).mpr hel
    cases hmg : mget m'.nodes n.element with
    | none =>
      rw [hmg] at hsome
      simp at hsome
    | some nd =>
      have hspec := hwf'.mget_spec hmg
      have hagree := hspec.2
      unfold agreesAt at hagree
      rw [findNodeF_eq_of_mem hwf'.elemsNodup hn] at hagree
      refine ⟨?_, nd, rfl, hspec.1, hagree.2.1.symm, hagree.2.2.symm⟩
      rw [countKey_of_nodup _ hwf'.nodesKeysNodup, hmg]
      simp
  · intro getId hg n hn
    have hel : n.element ∈ forestElems m'.rootChildren :=
      mem_forestNodes_element hn
    have hkey : getId n.element
        ∈ (forestElems m'.rootChildren).map getId :=
      List.mem_map_of_mem _ hel
    have hsome := (hwf'.byId_isSome_iff hg _).mpr hkey
    cases hmg : mget m'.nodesByIdentity (getId n.element) with
    | none =>
      rw [hmg] at hsome
      simp at hsome
    | some nd =>
      rcases hwf'.byId_spec hg hmg with ⟨hgid, hlive, hagree⟩
      have hne : nd.element = n.element :=
        (hwf'.idOk hg).2.1 nd.element hlive n.element hel hgid
      rw [hne] at hagree
      unfold agreesAt at hagree
      rw [findNodeF_eq_of_mem hwf'.elemsNodup hn] at hagree
      refine ⟨?_, nd, rfl, hne, hagree.2.1.symm, hagree.2.2.symm⟩
      rw [countKey_of_nodup _ (hwf'.byIdKeysNodup hg), hmg]
      simp
  · unfold size
    have := hwf'.keysPerm.length_eq
    simpa using this

theorem setChildren_index_invariant_witness :
    ∃ m', setChildren cfgId modelId none (some [candNew]) = .ok m' ∧
      (∀ n ∈ forestNodes m'.rootChildren,
        countKey m'.nodes n.element = 1 ∧
        ∃ nd, mget m'.nodes n.element = some nd ∧ nd.element = n.element ∧
          nd.collapsible = n.collapsible ∧ nd.collapsed = n.collapsed) ∧
      (∀ getId, cfgId.identityProvider = some getId →
        ∀ n ∈ forestNodes m'.rootChildren,
          countKey m'.nodesByIdentity (getId n.element) = 1 ∧
          ∃ nd, mget m'.nodesByIdentity (getId n.element) = some nd ∧
            nd.element = n.element ∧ nd.collapsible = n.collapsible ∧
            nd.collapsed = n.collapsed) ∧
      size m' = (forestElems m'.rootChildren).length := by
  have hlook : lookupNode cfgId modelId candNew.element
      = some nodeCollapsed := by
    simp [lookupNode, cfgId, modelId, nodeCollapsed, candNew, mget, getIdTen]
  have heval : createForest (preserveCollapseState cfgId modelId
      ((some [candNew]).getD [])) = [TreeNode.mk 11 true true []] := by
    rw [Option.getD_some, preserveCollapseState_eq]
    have hs : sortCandidates cfgId [candNew] = [candNew] := by
      simp [sortCandidates, cfgId]
    rw [hs]
    simp only [List.map_cons, List.map_nil]
    have hpe : preserveCollapseStateElem cfgId modelId candNew
        = TreeElement.mk 11 (some true) (some true) [] := by
      unfold preserveCollapseStateElem
      have hl2 : lookupNode cfgId modelId 11 = some nodeCollapsed := hlook
      rw [show candNew.element = 11 from rfl, hl2]
      simp [candNew, nodeCollapsed, preserveCollapseState_eq, sortCandidates,
        cfgId]
    rw [hpe]
    simp [createNode, createForest_eq]
  refine setChildren_index_invariant cfgId modelId none (some [candNew])
    modelId_wf (Or.inl rfl) ?_ ?_ ?_
  · rw [heval]
    simp [forestElems, forestNodes]
  · rw [heval]
    intro a ha hlive
    simp [forestElems, forestNodes] at ha
    subst ha
    simp [modelId, nodeCollapsed, forestElems, forestNodes] at hlive
  · intro getId hg
    injection hg with hg
    subst hg
    constructor
    · rw [heval]
      intro a ha b hb _
      simp [forestElems, forestNodes] at ha hb
      rw [ha, hb]
    · rw [heval]
      intro a ha b hb _
      have h1 : forestElems modelId.rootChildren = [1] := by
        simp [modelId, nodeCollapsed, forestElems, forestNodes]
      rw [h1] at hb
      have hcc : currentChildren cfgId modelId none
          = modelId.rootChildren := by
        simp [currentChildren, getElementLocation]
      rw [hcc, h1]
      exact hb

def getIdDup (n : Nat) : String := if n = 2 then "j" else "k"

def cfgDup : TreeConfig Nat := ⟨"test", some getIdDup, none⟩

def nodeK1 : TreeNode Nat := .mk 1 false false []

def nodeK2 : TreeNode Nat := .mk 2 false false []

def nodeK3 : TreeNode Nat := .mk 3 false false []

def modelDup1 : ObjectTreeModel Nat :=
  ⟨[nodeK1, nodeK2], [(1, nodeK1), (2, nodeK2)],
    [("k", nodeK1), ("j", nodeK2)]⟩

def modelDup2 : ObjectTreeModel Nat :=
  ⟨[nodeK1, TreeNode.mk 2 false false [nodeK3]],
    [(1, nodeK1), (2, nodeK2), (3, nodeK3)],
    [("k", nodeK3), ("j", nodeK2)]⟩

/-- Two successful setChildren calls whose candidates have identity keys
unique among siblings (all the spec's section 6 asks) but duplicated
across branches — elements 1 and 3 both map to key k.  After the second
call the node for element 1 is still reachable, yet the single identity
entry for its key k points at the node for element 3, so no identity
entry points at the reachable node 1: the claimed index invariant fails
for a successful operation. -/
theorem setChildren_identity_index_broken :
    setChildren cfgDup ⟨[], [], []⟩ none
        (some [TreeElement.mk 1 none none [], TreeElement.mk 2 none none []])
      = .ok modelDup1 ∧
    setChildren cfgDup modelDup1 (some 2)
        (some [TreeElement.mk 3 none none []]) = .ok modelDup2 ∧
    nodeK1 ∈ forestNodes modelDup2.rootChildren ∧
    getIdDup nodeK1.element = "k" ∧
    mget modelDup2.nodesByIdentity "k" = some nodeK3 ∧
    (∀ p ∈ modelDup2.nodesByIdentity, p.2.element ≠ nodeK1.element) := by
  have hcf0 : createForest ([] : List (TreeElement Nat)) = [] := by
    rw [createForest_eq]
    rfl
  have hpe1 : preserveCollapseStateElem cfgDup ⟨[], [], []⟩
      (TreeElement.mk 1 none none []) = TreeElement.mk 1 none none [] := by
    unfold preserveCollapseStateElem
    rw [show lookupNode cfgDup ⟨[], [], []⟩
        (TreeElement.mk 1 none none ([] : List (TreeElement Nat))).element
      = none from rfl]
    simp [preserveCollapseState_nil]
  have hpe2 : preserveCollapseStateElem cfgDup ⟨[], [], []⟩
      (TreeElement.mk 2 none none []) = TreeElement.mk 2 none none [] := by
    unfold preserveCollapseStateElem
    rw [show lookupNode cfgDup ⟨[], [], []⟩
        (TreeElement.mk 2 none none ([] : List (TreeElement Nat))).element
      = none from rfl]
    simp [preserveCollapseState_nil]
  have hpcs1 : preserveCollapseState cfgDup ⟨[], [], []⟩
      [TreeElement.mk 1 none none [], TreeElement.mk 2 none none []]
      = [TreeElement.mk 1 none none [], TreeElement.mk 2 none none []] := by
    rw [preserveCollapseState_eq]
    rw [show sortCandidates cfgDup
        [TreeElement.mk 1 none none [], TreeElement.mk 2 none none []]
      = [TreeElement.mk 1 none none [], TreeElement.mk 2 none none []]
      from rfl]
    simp only [List.map_cons, List.map_nil]
    rw [hpe1, hpe2]
  have hcf1 : createForest
      [TreeElement.mk 1 none none [], TreeElement.mk 2 none none []]
      = [nodeK1, nodeK2] := by
    rw [createForest_eq]
    simp only [List.map_cons, List.map_nil]
    rw [show createNode (TreeElement.mk 1 none none
        ([] : List (TreeElement Nat)))
      = TreeNode.mk 1 false false (createForest
          ([] : List (TreeElement Nat))) from rfl,
      show createNode (TreeElement.mk 2 none none
        ([] : List (TreeElement Nat)))
      = TreeNode.mk 2 false false (createForest
          ([] : List (TreeElement Nat))) from rfl,
      hcf0]
    rfl
  have hold1 : childrenAt (⟨[], [], []⟩ :
      ObjectTreeModel Nat).rootChildren [] = some [] := by
    simp
  have hint1 := setChildrenInternal_eq cfgDup ⟨[], [], []⟩ []
    (preserveCollapseState cfgDup ⟨[], [], []⟩
      [TreeElement.mk 1 none none [], TreeElement.mk 2 none none []])
    []
    (createForest (preserveCollapseState cfgDup ⟨[], [], []⟩
      [TreeElement.mk 1 none none [], TreeElement.mk 2 none none []]))
    hold1 (by simp)
  have hstep1 : setChildrenInternal cfgDup ⟨[], [], []⟩ []
      (preserveCollapseState cfgDup ⟨[], [], []⟩
        [TreeElement.mk 1 none none [], TreeElement.mk 2 none none []])
      = some (modelDup1, [nodeK1, nodeK2], []) := by
    rw [hint1, hpcs1, hcf1]
    have hfn : forestNodes [nodeK1, nodeK2] = [nodeK1, nodeK2] := by
      rw [forestNodes_cons, forestNodes_cons]
      simp [nodeK1, nodeK2]
    rw [hfn]
    simp +decide [modelDup1, mset, nodeK1, nodeK2, getIdDup,
      show cfgDup.identityProvider = some getIdDup from rfl]
  have hcall1 : setChildren cfgDup ⟨[], [], []⟩ none
      (some [TreeElement.mk 1 none none [], TreeElement.mk 2 none none []])
      = .ok modelDup1 := by
    simp [setChildren, setChildrenFull, getElementLocation, hstep1,
      Except.map]
  have hloc2 : getElementLocation cfgDup modelDup1 (some 2) = .ok [1] := by
    simp [getElementLocation, modelDup1, mget, findPathF, nodeK1, nodeK2]
  have hpe3 : preserveCollapseStateElem cfgDup modelDup1
      (TreeElement.mk 3 none none [])
      = TreeElement.mk 3 (some false) (some false) [] := by
    unfold preserveCollapseStateElem
    rw [show lookupNode cfgDup modelDup1
        (TreeElement.mk 3 none none ([] : List (TreeElement Nat))).element
      = some nodeK1 from rfl]
    simp [nodeK1, preserveCollapseState_nil]
  have hpcs2 : preserveCollapseState cfgDup modelDup1
      [TreeElement.mk 3 none none []]
      = [TreeElement.mk 3 (some false) (some false) []] := by
    rw [preserveCollapseState_eq]
    rw [show sortCandidates cfgDup [TreeElement.mk 3 none none []]
      = [TreeElement.mk 3 none none []] from rfl]
    simp only [List.map_cons, List.map_nil]
    rw [hpe3]
  have hcf2 : createForest [TreeElement.mk 3 (some false) (some false) []]
      = [nodeK3] := by
    rw [createForest_eq]
    simp only [List.map_cons, List.map_nil]
    rw [show createNode (TreeElement.mk 3 (some false) (some false)
        ([] : List (TreeElement Nat)))
      = TreeNode.mk 3 false false (createForest
          ([] : List (TreeElement Nat))) from rfl,
      hcf0]
    rfl
  have hold2 : childrenAt modelDup1.rootChildren [1] = some [] := by
    simp [modelDup1, nodeK2]
  have hrep2 : replaceChildrenAt modelDup1.rootChildren [1]
      (createForest (preserveCollapseState cfgDup modelDup1
        [TreeElement.mk 3 none none []]))
      = some [nodeK1, TreeNode.mk 2 false false [nodeK3]] := by
    rw [hpcs2, hcf2]
    simp [modelDup1, nodeK2]
  have hint2 := setChildrenInternal_eq cfgDup modelDup1 [1]
    (preserveCollapseState cfgDup modelDup1
      [TreeElement.mk 3 none none []])
    [] [nodeK1, TreeNode.mk 2 false false [nodeK3]] hold2 hrep2
  have hstep2 : setChildrenInternal cfgDup modelDup1 [1]
      (preserveCollapseState cfgDup modelDup1
        [TreeElement.mk 3 none none []])
      = some (modelDup2, [nodeK3], []) := by
    rw [hint2, hpcs2, hcf2]
    have hfn : forestNodes [nodeK3] = [nodeK3] := by
      rw [forestNodes_cons]
      simp [nodeK3]
    rw [hfn]
    simp +decide [modelDup1, modelDup2, mset, nodeK1, nodeK2, nodeK3,
      getIdDup, show cfgDup.identityProvider = some getIdDup from rfl]
  have hcall2 : setChildren cfgDup modelDup1 (some 2)
      (some [TreeElement.mk 3 none none []]) = .ok modelDup2 := by
    simp [setChildren, setChildrenFull, hloc2, hstep2, Except.map]
  refine ⟨hcall1, hcall2, ?_, rfl, rfl, ?_⟩
  · rw [show modelDup2.rootChildren
      = [nodeK1, TreeNode.mk 2 false false [nodeK3]] from rfl,
      forestNodes_cons]
    exact List.mem_cons_self _ _
  · intro p hp
    simp only [modelDup2, List.mem_cons, List.mem_singleton,
      List.not_mem_nil, or_false] at hp
    rcases hp with rfl | rfl <;> simp [nodeK1, nodeK2, nodeK3]

end ObjectTree
